import Mathlib

/-!
# Submission aggregation and residency trimming

A shallow embedding of

* `SubmissionAggregator::aggregateCommandBuffers`
  (`runtime/command_stream/submissions_aggregator.cpp`), and
* `WddmMemoryManager::trimResidencyToBudget`, `trimResidency`,
  `makeResidentResidencyAllocations`, `createWddmAllocation`, and the
  constructor and destructor of `WddmMemoryManager`
  (`runtime/os_interface/windows/wddm_memory_manager.cpp`),

followed by the properties proved about them.

Conventions of the embedding.

* A pointer to a `GraphicsAllocation` is a natural number (its address); the
  allocations themselves live in a heap `Nat → GraphicsAllocation`, so that two
  command buffers naming the same address share one `inspectionId`.
* A nullable pointer is an `Option Nat`.
* The intrusive list `cmdBuffers` (nodes linked through `next`) is a `List`.
* The `size_t` values of the aggregator (`totalUsedSize`, the budget, buffer
  sizes) are natural numbers and every addition the code makes on them is
  taken modulo `sizeModulus` = 2^64; the counter `inspectionId` is incremented
  modulo `inspectionIdModulus` = 2^32.
* The byte counts of the residency code (`uint64_t`) are natural numbers: the
  code only subtracts from them and adds up the sizes of at most three
  fragments of one allocation.
-/

namespace OCLRT

/-! ## Data model of the aggregator -/

/-- The number of values of `size_t`, the type of `totalUsedSize`,
`totalMemoryBudget`, `nextCommandBufferNewResourcesSize` and of what
`getUnderlyingBufferSize()` returns: the additions of lines 33, 68, 76, 80 and
83 are taken modulo it. -/
def sizeModulus : Nat := 2 ^ 64

/-- Modelled from the spec: the type of the member `inspectionId` of the
aggregator, declared in `submissions_aggregator.h` (not among the sources).
The spec calls it a pass counter; it is taken to be an unsigned 32-bit integer,
and this is the number of its values: the increment of line 25 is taken modulo
it. -/
def inspectionIdModulus : Nat := 2 ^ 32

/-- The two members of `GraphicsAllocation` the aggregator touches:
`inspectionId` (read and written) and what `getUnderlyingBufferSize()` returns. -/
structure GraphicsAllocation where
  inspectionId : Nat
  underlyingBufferSize : Nat
deriving DecidableEq, Repr

/-- The members of `BatchBuffer` read by `aggregateCommandBuffers`.
`throttle` is the numeric value of the `QueueThrottle` enumerator. -/
structure BatchBuffer where
  commandBufferAllocation : Option Nat
  requiresCoherency : Bool
  low_priority : Bool
  throttle : Nat
deriving DecidableEq, Repr

/-- One node of the submission queue. -/
structure CommandBuffer where
  batchBuffer : BatchBuffer
  surfaces : List Nat
  inspectionId : Nat
deriving DecidableEq, Repr

/-- The aggregator: the queue of recorded command buffers and the pass counter. -/
structure SubmissionAggregator where
  cmdBuffers : List CommandBuffer
  inspectionId : Nat
deriving DecidableEq, Repr

/-- The method `recordCommandBuffer`: `cmdBuffers.pushTailOne(*commandBuffer)`. -/
def SubmissionAggregator.recordCommandBuffer (self : SubmissionAggregator)
    (commandBuffer : CommandBuffer) : SubmissionAggregator :=
  { self with cmdBuffers := self.cmdBuffers ++ [commandBuffer] }

/-- The assignment `graphicsAllocation->inspectionId = id` on the heap. -/
def setInspectionId (heap : Nat → GraphicsAllocation) (g : Nat) (id : Nat) :
    Nat → GraphicsAllocation :=
  fun a => if a = g then { heap a with inspectionId := id } else heap a

/-- What the two inner loops carry: the heap, a list of allocations being
built (`resourcePackage` in the first loop, `newResources` in the second) and
the running size (`totalUsedSize`, resp. `nextCommandBufferNewResourcesSize`). -/
structure PackState where
  heap : Nat → GraphicsAllocation
  resources : List Nat
  size : Nat

/-- Lines 29-35: the loop over the surfaces of the primary command buffer. -/
def addPrimarySurfaces (currentInspection : Nat) : List Nat → PackState → PackState
  | [], s => s
  | g :: gs, s =>
    if (s.heap g).inspectionId < currentInspection then
      addPrimarySurfaces currentInspection gs
        { heap := setInspectionId s.heap g currentInspection
          resources := s.resources ++ [g]
          size := (s.size + (s.heap g).underlyingBufferSize) % sizeModulus }
    else
      addPrimarySurfaces currentInspection gs s

/-- Lines 61-70: the loop over the surfaces of a successor; the allocation of
the primary batch buffer is skipped. -/
def collectNewSurfaces (currentInspection : Nat) (primaryBatchGraphicsAllocation : Option Nat) :
    List Nat → PackState → PackState
  | [], s => s
  | g :: gs, s =>
    if some g = primaryBatchGraphicsAllocation then
      collectNewSurfaces currentInspection primaryBatchGraphicsAllocation gs s
    else if (s.heap g).inspectionId < currentInspection then
      collectNewSurfaces currentInspection primaryBatchGraphicsAllocation gs
        { heap := setInspectionId s.heap g currentInspection
          resources := s.resources ++ [g]
          size := (s.size + (s.heap g).underlyingBufferSize) % sizeModulus }
    else
      collectNewSurfaces currentInspection primaryBatchGraphicsAllocation gs s

/-- Lines 72-78: the successor's own command buffer allocation, when it is not
null and not the primary's. -/
def collectBatchAllocation (currentInspection : Nat) (primaryBatchGraphicsAllocation : Option Nat)
    (commandBufferAllocation : Option Nat) (s : PackState) : PackState :=
  match commandBufferAllocation with
  | none => s
  | some g =>
    if some g ≠ primaryBatchGraphicsAllocation then
      if (s.heap g).inspectionId < currentInspection then
        { heap := setInspectionId s.heap g currentInspection
          resources := s.resources ++ [g]
          size := (s.size + (s.heap g).underlyingBufferSize) % sizeModulus }
      else s
    else s

/-- Lines 59-78 for one successor: `newResources` is empty on entry (it starts
empty and is cleared at every commit) and the size counter starts at 0. -/
def stageSuccessor (currentInspection : Nat) (primaryBatchGraphicsAllocation : Option Nat)
    (heap : Nat → GraphicsAllocation) (nextCommandBuffer : CommandBuffer) : PackState :=
  collectBatchAllocation currentInspection primaryBatchGraphicsAllocation
    nextCommandBuffer.batchBuffer.commandBufferAllocation
    (collectNewSurfaces currentInspection primaryBatchGraphicsAllocation
      nextCommandBuffer.surfaces { heap := heap, resources := [], size := 0 })

/-- State after the `while (nextCommandBuffer)` loop. `cmdBuffers` is the part
of the queue the loop was started on, with the stamps it wrote; `merged` counts
the command buffers the loop committed (it is not a variable of the source). -/
structure WalkState where
  heap : Nat → GraphicsAllocation
  resourcePackage : List Nat
  totalUsedSize : Nat
  cmdBuffers : List CommandBuffer
  merged : Nat

/-- Lines 58-93: the walk over the successors. The argument list is the chain
reached from `nextCommandBuffer` through `next`. The sum compared with the
budget in line 80 and the sum stored in line 83 are sums of `size_t` values. -/
def mergeSuccessors (currentInspection : Nat) (primaryBatchGraphicsAllocation : Option Nat)
    (totalMemoryBudget : Nat) :
    List CommandBuffer → (Nat → GraphicsAllocation) → List Nat → Nat → WalkState
  | [], heap, resourcePackage, totalUsedSize =>
    { heap := heap, resourcePackage := resourcePackage, totalUsedSize := totalUsedSize
      cmdBuffers := [], merged := 0 }
  | nextCommandBuffer :: rest, heap, resourcePackage, totalUsedSize =>
    let staged := stageSuccessor currentInspection primaryBatchGraphicsAllocation heap
      nextCommandBuffer
    if (staged.size + totalUsedSize) % sizeModulus ≤ totalMemoryBudget then
      let w := mergeSuccessors currentInspection primaryBatchGraphicsAllocation totalMemoryBudget
        rest staged.heap (resourcePackage ++ staged.resources)
        ((totalUsedSize + staged.size) % sizeModulus)
      { w with
        cmdBuffers := { nextCommandBuffer with inspectionId := currentInspection } :: w.cmdBuffers
        merged := w.merged + 1 }
    else
      { heap := staged.heap, resourcePackage := resourcePackage, totalUsedSize := totalUsedSize
        cmdBuffers := nextCommandBuffer :: rest, merged := 0 }

/-- Everything `aggregateCommandBuffers` leaves behind: the aggregator (queue
and counter), the allocation heap, and the two reference parameters.
`stamped` counts the command buffers that received the inspection id of the
pass, the primary included (it is not a variable of the source). -/
structure AggregateResult where
  aggregator : SubmissionAggregator
  heap : Nat → GraphicsAllocation
  resourcePackage : List Nat
  totalUsedSize : Nat
  stamped : Nat

/-- The method `SubmissionAggregator::aggregateCommandBuffers` (lines 16-94). -/
def SubmissionAggregator.aggregateCommandBuffers (self : SubmissionAggregator)
    (heap : Nat → GraphicsAllocation) (resourcePackage : List Nat) (totalUsedSize : Nat)
    (totalMemoryBudget : Nat) : AggregateResult :=
  match self.cmdBuffers with
  | [] =>
    { aggregator := self, heap := heap, resourcePackage := resourcePackage
      totalUsedSize := totalUsedSize, stamped := 0 }
  | primaryCommandBuffer :: successors =>
    let currentInspection := self.inspectionId
    let primaryBatchGraphicsAllocation := primaryCommandBuffer.batchBuffer.commandBufferAllocation
    let stampedPrimary := { primaryCommandBuffer with inspectionId := currentInspection }
    let p := addPrimarySurfaces currentInspection primaryCommandBuffer.surfaces
      { heap := heap, resources := resourcePackage, size := totalUsedSize }
    let primaryOnly : AggregateResult :=
      { aggregator := { cmdBuffers := stampedPrimary :: successors
                        inspectionId := (self.inspectionId + 1) % inspectionIdModulus }
        heap := p.heap, resourcePackage := p.resources, totalUsedSize := p.size, stamped := 1 }
    match successors with
    | [] => primaryOnly
    | next :: _ =>
      if next.batchBuffer.requiresCoherency ≠ primaryCommandBuffer.batchBuffer.requiresCoherency then
        primaryOnly
      else if next.batchBuffer.low_priority ≠ primaryCommandBuffer.batchBuffer.low_priority then
        primaryOnly
      else if next.batchBuffer.throttle ≠ primaryCommandBuffer.batchBuffer.throttle then
        primaryOnly
      else
        let w := mergeSuccessors currentInspection primaryBatchGraphicsAllocation
          totalMemoryBudget successors p.heap p.resources p.size
        { aggregator := { cmdBuffers := stampedPrimary :: w.cmdBuffers
                          inspectionId := (self.inspectionId + 1) % inspectionIdModulus }
          heap := w.heap, resourcePackage := w.resourcePackage
          totalUsedSize := w.totalUsedSize, stamped := w.merged + 1 }

/-! ## Notions used in the statements on the aggregator -/

/-- Sum of `getUnderlyingBufferSize()` over a list of allocations, as a natural
number (not reduced modulo `sizeModulus`). -/
def packageSize (heap : Nat → GraphicsAllocation) (l : List Nat) : Nat :=
  (l.map (fun a => (heap a).underlyingBufferSize)).sum

/-- The allocations a command buffer refers to: its surfaces and, when not
null, its command buffer allocation. -/
def CommandBuffer.footprint (cb : CommandBuffer) : List Nat :=
  cb.surfaces ++ cb.batchBuffer.commandBufferAllocation.toList

/-- The assignment `commandBuffer->inspectionId = id`. -/
def CommandBuffer.stamp (id : Nat) (cb : CommandBuffer) : CommandBuffer :=
  { cb with inspectionId := id }

/-- States that `r` is `s` after the allocations `app`, all of them with an inspection id
below `cur` in `s`, were stamped with `cur`, appended and accounted for (no
addition is made when `app` is empty). -/
structure Extends (cur : Nat) (s r : PackState) (app : List Nat) : Prop where
  resources : r.resources = s.resources ++ app
  size : r.size = if app = [] then s.size else (s.size + packageSize s.heap app) % sizeModulus
  nodup : app.Nodup
  fresh : ∀ a ∈ app, (s.heap a).inspectionId < cur
  stamped : ∀ a ∈ app, (r.heap a).inspectionId = cur
  frame : ∀ a, a ∉ app → r.heap a = s.heap a
  bufsize : ∀ a, (r.heap a).underlyingBufferSize = (s.heap a).underlyingBufferSize

/-- What the walk started on `q` with heap `heap`, package `pkg` and used size
`used` has done when it ends in `w`, having appended `app`. -/
structure WalkSpec (cur budget : Nat) (q : List CommandBuffer) (heap : Nat → GraphicsAllocation)
    (pkg : List Nat) (used : Nat) (w : WalkState) (app : List Nat) : Prop where
  resourcePackage : w.resourcePackage = pkg ++ app
  totalUsedSize : w.totalUsedSize =
    if w.merged = 0 then used else (used + packageSize heap app) % sizeModulus
  nodup : app.Nodup
  fresh : ∀ a ∈ app, (heap a).inspectionId < cur
  origin : ∀ a ∈ app, ∃ cb ∈ q.take w.merged, a ∈ cb.footprint
  bufsize : ∀ a, (w.heap a).underlyingBufferSize = (heap a).underlyingBufferSize
  merged_le : w.merged ≤ q.length
  cmdBuffers : w.cmdBuffers = (q.take w.merged).map (CommandBuffer.stamp cur) ++ q.drop w.merged
  budget : 0 < w.merged → w.totalUsedSize ≤ budget
  frame : ∀ a, (∀ cb ∈ q.take (w.merged + 1), a ∉ cb.footprint) → w.heap a = heap a

/-- The three attributes lines 43-53 compare. -/
def BatchBuffer.compatible (a b : BatchBuffer) : Prop :=
  a.requiresCoherency = b.requiresCoherency ∧ a.low_priority = b.low_priority ∧
    a.throttle = b.throttle

instance (a b : BatchBuffer) : Decidable (a.compatible b) := by
  unfold BatchBuffer.compatible
  infer_instance

/-- What one pass over the non-empty queue `primary :: successors` has done
when it ends in `r`, having appended `app`. -/
structure AggregateSpec (cur budget : Nat) (primary : CommandBuffer)
    (successors : List CommandBuffer) (heap : Nat → GraphicsAllocation) (pkg : List Nat)
    (used : Nat) (r : AggregateResult) (app : List Nat) : Prop where
  resourcePackage : r.resourcePackage = pkg ++ app
  totalUsedSize : r.totalUsedSize =
    if app = [] ∧ r.stamped ≤ 1 then used else (used + packageSize heap app) % sizeModulus
  nodup : app.Nodup
  fresh : ∀ a ∈ app, (heap a).inspectionId < cur
  origin : ∀ a ∈ app, a ∈ primary.surfaces ∨
    ∃ cb ∈ successors.take (r.stamped - 1), a ∈ cb.footprint
  complete : ∀ g ∈ primary.surfaces, (heap g).inspectionId < cur → g ∈ app
  bufsize : ∀ a, (r.heap a).underlyingBufferSize = (heap a).underlyingBufferSize
  stamped_pos : 1 ≤ r.stamped
  stamped_le : r.stamped ≤ (primary :: successors).length
  cmdBuffers : r.aggregator.cmdBuffers =
    ((primary :: successors).take r.stamped).map (CommandBuffer.stamp cur) ++
      (primary :: successors).drop r.stamped
  counter : r.aggregator.inspectionId = (cur + 1) % inspectionIdModulus
  budget : 2 ≤ r.stamped → r.totalUsedSize ≤ budget
  first_compatible : 2 ≤ r.stamped →
    ∃ next ∈ successors.head?, next.batchBuffer.compatible primary.batchBuffer

/-! ## Data model of the residency code -/

/-- The class `ResidencyData` for the one registered context the trim code uses
(context id 0): the `resident` flag and `getFenceValueForContextId(0)`. -/
structure ResidencyData where
  resident : Bool
  lastFence : Nat
deriving DecidableEq, Repr

/-- One used entry of `fragmentsStorage.fragmentStorageData`: the handle in
`osHandleStorage`, `fragmentSize`, and the address of the `ResidencyData` the
entry points to (fragments, and their residency, may be shared by several
allocations). -/
structure FragmentStorage where
  handle : Nat
  fragmentSize : Nat
  residency : Nat
deriving DecidableEq, Repr

/-- The class `WddmAllocation`: `handle`, `getAlignedSize()`, `getResidencyData()` and
the first `fragmentsStorage.fragmentCount` entries of `fragmentStorageData`. -/
structure WddmAllocation where
  handle : Nat
  alignedSize : Nat
  residencyData : ResidencyData
  fragments : List FragmentStorage
deriving DecidableEq, Repr

/-- The struct `MonitoredFence`; `cpuValue` is the value read through `cpuAddress`, the
last fence value the GPU has completed. -/
structure MonitoredFence where
  currentFenceValue : Nat
  lastSubmittedFence : Nat
  cpuValue : Nat
deriving DecidableEq, Repr

/-- What a handle passed to `Wddm::evict` was read from: the allocation at an
address, or a fragment entry of the allocation at an address. -/
inductive EvictTarget where
  | allocation (a : Nat)
  | fragment (a : Nat) (f : FragmentStorage)
deriving DecidableEq, Repr

/-- Calls into `Wddm`, in the order they are made. An `evict` call is recorded
with the objects whose handles it passes, in the order of the handle array. -/
inductive DriverCall where
  | waitFromCpu (lastFence : Nat)
  | evict (targets : List EvictTarget)
deriving DecidableEq, Repr

/-- The state the residency code works on: the allocations by address, the
residency records of the fragments by address, and for the registered context
0 the monitored fence, the fence value of the last periodic trim and the trim
candidate list; `calls` is the log of driver calls made so far.
Modelled from the spec: the trim candidate list of `WddmResidencyController`
(not among the sources) is the ordered sequence of the allocations on it,
oldest first; `getTrimCandidateHead` is its first element,
`removeFromTrimCandidateList` takes one allocation out and leaves the others in
their order, and compaction only reclaims dead slots, so it does not change
the sequence. -/
structure WddmMemoryManager where
  allocations : Nat → WddmAllocation
  fragmentResidency : Nat → ResidencyData
  monitoredFence : MonitoredFence
  lastTrimFenceValue : Nat
  trimCandidateList : List Nat
  calls : List DriverCall

/-- Modelled from the spec: `getTrimCandidateHead()`, the earliest entry or null. -/
def WddmMemoryManager.getTrimCandidateHead (mm : WddmMemoryManager) : Option Nat :=
  mm.trimCandidateList.head?

/-- Modelled from the spec: `removeFromTrimCandidateList(allocation, false)`. -/
def WddmMemoryManager.removeFromTrimCandidateList (mm : WddmMemoryManager) (a : Nat) :
    WddmMemoryManager :=
  { mm with trimCandidateList := mm.trimCandidateList.erase a }

/-- Modelled from the spec: `Wddm::waitFromCpu(lastFence, context)` returns
once the GPU has completed `lastFence`. -/
def WddmMemoryManager.waitFromCpu (mm : WddmMemoryManager) (lastFence : Nat) :
    WddmMemoryManager :=
  { mm with
    monitoredFence := { mm.monitoredFence with cpuValue := max mm.monitoredFence.cpuValue lastFence }
    calls := mm.calls ++ [DriverCall.waitFromCpu lastFence] }

/-- Modelled from the spec: the driver call `evict(handles[], count,
&bytesEvicted)`. It is entered in the log; the value it writes to `sizeToTrim`
is not read by the callers. -/
def WddmMemoryManager.evict (mm : WddmMemoryManager) (targets : List EvictTarget) :
    WddmMemoryManager :=
  { mm with calls := mm.calls ++ [DriverCall.evict targets] }

/-- The handle passed for a target. -/
def EvictTarget.handle (mm : WddmMemoryManager) : EvictTarget → Nat
  | EvictTarget.allocation a => (mm.allocations a).handle
  | EvictTarget.fragment _ f => f.handle

/-- The assignment `allocation->getResidencyData().resident = v`. -/
def WddmMemoryManager.setResident (mm : WddmMemoryManager) (a : Nat) (v : Bool) :
    WddmMemoryManager :=
  { mm with
    allocations := fun b =>
      if b = a then
        { mm.allocations b with residencyData := { (mm.allocations b).residencyData with resident := v } }
      else mm.allocations b }

/-- The assignment `fragmentStorageData[i].residency->resident = v`, on the
record at address `r`. -/
def WddmMemoryManager.setFragmentResident (mm : WddmMemoryManager) (r : Nat) (v : Bool) :
    WddmMemoryManager :=
  { mm with
    fragmentResidency := fun b =>
      if b = r then { mm.fragmentResidency b with resident := v } else mm.fragmentResidency b }

/-- Lines 680-684: the fragments whose handles are put into
`fragmentEvictHandles`; the length of the result is `fragmentsToEvict`. -/
def fragmentsToEvict (mm : WddmMemoryManager) (a : Nat) : List FragmentStorage → List EvictTarget
  | [] => []
  | f :: fs =>
    if (mm.fragmentResidency f.residency).lastFence ≤ mm.monitoredFence.lastSubmittedFence then
      EvictTarget.fragment a f :: fragmentsToEvict mm a fs
    else fragmentsToEvict mm a fs

/-- Lines 689-694: the fragments passed to `evict` are marked non-resident and
their sizes are added to `sizeEvicted`. -/
def markFragmentsEvicted : List FragmentStorage → WddmMemoryManager → Nat → WddmMemoryManager × Nat
  | [], mm, sizeEvicted => (mm, sizeEvicted)
  | f :: fs, mm, sizeEvicted =>
    if (mm.fragmentResidency f.residency).lastFence ≤ mm.monitoredFence.lastSubmittedFence then
      markFragmentsEvicted fs (mm.setFragmentResident f.residency false)
        (sizeEvicted + f.fragmentSize)
    else markFragmentsEvicted fs mm sizeEvicted

/-- Lines 674-696: the eviction of the head allocation `a`; the result is the
new state and `sizeEvicted`. -/
def evictHead (mm : WddmMemoryManager) (a : Nat) : WddmMemoryManager × Nat :=
  if (mm.allocations a).fragments.length = 0 then
    (mm.evict [EvictTarget.allocation a], (mm.allocations a).alignedSize)
  else
    if (fragmentsToEvict mm a (mm.allocations a).fragments).length ≠ 0 then
      markFragmentsEvicted (mm.allocations a).fragments
        (mm.evict (fragmentsToEvict mm a (mm.allocations a).fragments)) 0
    else (mm, 0)

/-- Lines 654-710: the loop of `trimResidencyToBudget`. The first argument is
the trim candidate list of `mm`; every pass that goes on has taken the head off
it, so the loop runs at most once per entry. The result is the state and
`numberOfBytesToTrim` at the exit of the loop. -/
def trimToBudgetLoop : List Nat → WddmMemoryManager → Nat → WddmMemoryManager × Nat
  | [], mm, numberOfBytesToTrim => (mm, numberOfBytesToTrim)
  | a :: rest, mm, numberOfBytesToTrim =>
    if numberOfBytesToTrim = 0 then (mm, numberOfBytesToTrim)
    else
      let lastFence := (mm.allocations a).residencyData.lastFence
      if lastFence ≤ mm.monitoredFence.lastSubmittedFence then
        let waited := if lastFence > mm.monitoredFence.cpuValue then mm.waitFromCpu lastFence else mm
        let evicted := evictHead waited a
        let remaining :=
          if evicted.2 ≥ numberOfBytesToTrim then 0 else numberOfBytesToTrim - evicted.2
        trimToBudgetLoop rest ((evicted.1.setResident a false).removeFromTrimCandidateList a)
          remaining
      else (mm, numberOfBytesToTrim)

/-- The method `WddmMemoryManager::trimResidencyToBudget` (lines 645-717): the
returned flag and the state after the call. The compaction of lines 712-714
does not change the sequence of the entries. -/
def WddmMemoryManager.trimResidencyToBudget (mm : WddmMemoryManager) (bytes : Nat) :
    Bool × WddmMemoryManager :=
  let r := trimToBudgetLoop mm.trimCandidateList mm bytes
  (r.2 == 0, r.1)

/-- The bytes credited for a target: the aligned size of an allocation, the
`fragmentSize` of a fragment. -/
def EvictTarget.credit (mm : WddmMemoryManager) : EvictTarget → Nat
  | EvictTarget.allocation a => (mm.allocations a).alignedSize
  | EvictTarget.fragment _ f => f.fragmentSize

/-- The targets of all `evict` calls of a log, in order. -/
def evictedTargets : List DriverCall → List EvictTarget
  | [] => []
  | DriverCall.evict targets :: cs => targets ++ evictedTargets cs
  | DriverCall.waitFromCpu _ :: cs => evictedTargets cs

/-- The bytes credited for everything the calls of a log evict. -/
def creditedBytes (mm : WddmMemoryManager) (calls : List DriverCall) : Nat :=
  ((evictedTargets calls).map (EvictTarget.credit mm)).sum

/-- Sum of the aligned sizes of a list of allocations. -/
def alignedSizeSum (mm : WddmMemoryManager) (l : List Nat) : Nat :=
  (l.map (fun a => (mm.allocations a).alignedSize)).sum

/-- The parts of the state the trim code never writes are the same in `mm'`
as in `mm`: handles, sizes, fragment tables and fence values of all
allocations, fence values of all fragments, and the last submitted fence. -/
structure SameShape (mm mm' : WddmMemoryManager) : Prop where
  handle : ∀ a, (mm'.allocations a).handle = (mm.allocations a).handle
  alignedSize : ∀ a, (mm'.allocations a).alignedSize = (mm.allocations a).alignedSize
  fragments : ∀ a, (mm'.allocations a).fragments = (mm.allocations a).fragments
  lastFence : ∀ a, (mm'.allocations a).residencyData.lastFence =
    (mm.allocations a).residencyData.lastFence
  fragmentFence : ∀ r, (mm'.fragmentResidency r).lastFence = (mm.fragmentResidency r).lastFence
  lastSubmittedFence : mm'.monitoredFence.lastSubmittedFence = mm.monitoredFence.lastSubmittedFence

/-! ## The passes of the loop of `trimResidencyToBudget` -/

/-- One pass of the loop of `trimResidencyToBudget` that got past line 665:
the head allocation it worked on, the `lastFence` it read in line 662, the
value it read through `monitoredFence.cpuAddress` in line 670, and the driver
calls it made, in order. -/
structure TrimPass where
  allocation : Nat
  lastFence : Nat
  completedRead : Nat
  calls : List DriverCall
deriving DecidableEq, Repr

/-- The passes of `trimToBudgetLoop`, in order. The states are the ones the
loop goes through; the calls of a pass are what the log of the state gained
between the entry of the pass and line 696. -/
def trimToBudgetPasses : List Nat → WddmMemoryManager → Nat → List TrimPass
  | [], _, _ => []
  | a :: rest, mm, numberOfBytesToTrim =>
    if numberOfBytesToTrim = 0 then []
    else
      let lastFence := (mm.allocations a).residencyData.lastFence
      if lastFence ≤ mm.monitoredFence.lastSubmittedFence then
        let waited := if lastFence > mm.monitoredFence.cpuValue then mm.waitFromCpu lastFence else mm
        let evicted := evictHead waited a
        let remaining :=
          if evicted.2 ≥ numberOfBytesToTrim then 0 else numberOfBytesToTrim - evicted.2
        { allocation := a, lastFence := lastFence, completedRead := mm.monitoredFence.cpuValue
          calls := evicted.1.calls.drop mm.calls.length } ::
          trimToBudgetPasses rest ((evicted.1.setResident a false).removeFromTrimCandidateList a)
            remaining
      else []

/-- The allocation a target belongs to. -/
def EvictTarget.allocationOf : EvictTarget → Nat
  | EvictTarget.allocation a => a
  | EvictTarget.fragment a _ => a

/-! ## Periodic trim -/

/-- The bits of `D3DDDI_TRIMRESIDENCYSET_FLAGS` that `trimResidency` reads. -/
structure TrimFlags where
  PeriodicTrim : Bool
  TrimToBudget : Bool
  RestartPeriodicTrim : Bool
deriving DecidableEq, Repr

/-- Lines 599-607: the fragments not used since the last periodic trim are
entered in `fragmentEvictHandles` and marked non-resident. The result is the
state and the entries of `fragmentEvictHandles`, `fragmentsToEvict` in number. -/
def periodicFragments (a : Nat) :
    List FragmentStorage → WddmMemoryManager → List EvictTarget → WddmMemoryManager × List EvictTarget
  | [], mm, handles => (mm, handles)
  | f :: fs, mm, handles =>
    if (mm.fragmentResidency f.residency).lastFence ≤ mm.lastTrimFenceValue then
      periodicFragments a fs (mm.setFragmentResident f.residency false)
        (handles ++ [EvictTarget.fragment a f])
    else periodicFragments a fs mm handles

/-- Lines 592-615: the body of the periodic loop for a head allocation `a`
that was not used since the last periodic trim. -/
def periodicEvict (mm : WddmMemoryManager) (a : Nat) : WddmMemoryManager :=
  let whole :=
    if (mm.allocations a).fragments.length = 0 then mm.evict [EvictTarget.allocation a] else mm
  let marked := periodicFragments a (mm.allocations a).fragments whole []
  let evicted := if marked.2.length ≠ 0 then marked.1.evict marked.2 else marked.1
  (evicted.setResident a false).removeFromTrimCandidateList a

/-- Lines 583-620: the loop of the periodic trim. The argument list is the trim
candidate list of `mm`; a pass that goes on has taken the head off it. -/
def periodicTrimLoop : List Nat → WddmMemoryManager → WddmMemoryManager
  | [], mm => mm
  | a :: rest, mm =>
    if (mm.allocations a).residencyData.lastFence ≤ mm.lastTrimFenceValue then
      periodicTrimLoop rest (periodicEvict mm a)
    else mm

/-- The method `WddmMemoryManager::trimResidency` (lines 573-643), for the
registered context 0. The locks and the compaction of lines 622-624 have no
effect on the state modelled here. -/
def WddmMemoryManager.trimResidency (mm : WddmMemoryManager) (flags : TrimFlags) (bytes : Nat) :
    WddmMemoryManager :=
  let periodic := if flags.PeriodicTrim then periodicTrimLoop mm.trimCandidateList mm else mm
  let trimmed := if flags.TrimToBudget then (periodic.trimResidencyToBudget bytes).2 else periodic
  if flags.PeriodicTrim || flags.RestartPeriodicTrim then
    { trimmed with lastTrimFenceValue := trimmed.monitoredFence.cpuValue }
  else trimmed

/-! ## Making allocations resident -/

/-- What a call of `Wddm::makeResident` leaves behind: the returned flag and
the value of `bytesToTrim` after the call. -/
structure MakeResidentReply where
  success : Bool
  bytesToTrim : Nat
deriving DecidableEq, Repr

/-- A call of `Wddm::makeResident`: the handles passed, the `cantTrimFurther`
argument, and how many `evict` and `waitFromCpu` calls had been made before it. -/
structure MakeResidentCall where
  handles : List Nat
  cantTrimFurther : Bool
  callsBefore : Nat
deriving DecidableEq, Repr

/-- The state `makeResidentResidencyAllocations` works on: the residency state,
the flag `memoryBudgetExhausted`, and the log of the `makeResident` calls. -/
structure ResidencyRun where
  mm : WddmMemoryManager
  memoryBudgetExhausted : Bool
  makeResidentCalls : List MakeResidentCall

/-- Modelled from the spec: the driver call `makeResident(handles[], count,
forceOvercommit, &bytesToTrimOut) -> bool`. The driver is a function giving,
for the number of `makeResident` calls made before, what the next call returns
and reports; the call is entered in the log. -/
def ResidencyRun.makeResident (run : ResidencyRun) (driver : Nat → MakeResidentReply)
    (handles : List Nat) (cantTrimFurther : Bool) : MakeResidentReply × ResidencyRun :=
  (driver run.makeResidentCalls.length,
    { run with
      makeResidentCalls := run.makeResidentCalls ++
        [{ handles := handles, cantTrimFurther := cantTrimFurther
           callsBefore := run.mm.calls.length }] })

/-- Lines 491 and 497-510: the array `fragmentResidency`, as far as it is read
afterwards. Modelled from the spec: the stored trim list position of an
allocation is the unused sentinel exactly when it is not on the trim list. -/
def readFragmentResidency (mm : WddmMemoryManager) (a : Nat) : List Bool :=
  if a ∈ mm.trimCandidateList then (mm.allocations a).fragments.map (fun _ => false)
  else (mm.allocations a).fragments.map (fun f => (mm.fragmentResidency f.residency).resident)

/-- Lines 516-519: the handles of the fragments whose entry in
`fragmentResidency` is false. -/
def handlesForFragments : List FragmentStorage → List Bool → List Nat
  | f :: fs, b :: bs =>
    if !b then f.handle :: handlesForFragments fs bs else handlesForFragments fs bs
  | _, _ => []

/-- Lines 512-520: the handles one allocation adds to `handlesForResidency`. -/
def handlesOfAllocation (mm : WddmMemoryManager) (a : Nat) : List Nat :=
  if (mm.allocations a).fragments.length = 0 then
    if !(mm.allocations a).residencyData.resident then [(mm.allocations a).handle] else []
  else handlesForFragments (mm.allocations a).fragments (readFragmentResidency mm a)

/-- Lines 488-521: the loop over the container. The result is the state (an
allocation found on the trim list has been taken off it) and the contents of
`handlesForResidency`, `totalHandlesCount` in number. -/
def collectHandles : List Nat → WddmMemoryManager → List Nat → WddmMemoryManager × List Nat
  | [], mm, handlesForResidency => (mm, handlesForResidency)
  | a :: rest, mm, handlesForResidency =>
    collectHandles rest
      (if a ∈ mm.trimCandidateList then mm.removeFromTrimCandidateList a else mm)
      (handlesForResidency ++ handlesOfAllocation mm a)

/-- Lines 526-534: the retry loop. It has no bound of its own, so the model
counts the passes it may still make: `none` means that the loop has not ended
within `fuel` passes. -/
def makeResidentRetry (driver : Nat → MakeResidentReply) (handles : List Nat) :
    Nat → ResidencyRun → Option (Bool × ResidencyRun)
  | 0, _ => none
  | fuel + 1, run =>
    let first := run.makeResident driver handles false
    if first.1.success then some (true, first.2)
    else
      let trimmed := first.2.mm.trimResidencyToBudget first.1.bytesToTrim
      let after : ResidencyRun :=
        { first.2 with mm := trimmed.2, memoryBudgetExhausted := true }
      if !trimmed.1 then
        let forced := after.makeResident driver handles true
        some (forced.1.success, forced.2)
      else makeResidentRetry driver handles fuel after

/-- Modelled from the spec: `updateCompletionData(currentFence, contextId)`
followed by `resident = true` on the residency record of an allocation (lines
542-543), for the context 0. -/
def WddmMemoryManager.stampAllocation (mm : WddmMemoryManager) (a : Nat) : WddmMemoryManager :=
  { mm with
    allocations := fun b =>
      if b = a then
        { mm.allocations b with
          residencyData := { resident := true, lastFence := mm.monitoredFence.currentFenceValue } }
      else mm.allocations b }

/-- Modelled from the spec: `updateCompletionData(currentFence, contextId)`
followed by `resident = true` on the residency record at address `r` of a
fragment (lines 548-549), for the context 0. -/
def WddmMemoryManager.stampFragment (mm : WddmMemoryManager) (r : Nat) : WddmMemoryManager :=
  { mm with
    fragmentResidency := fun b =>
      if b = r then { resident := true, lastFence := mm.monitoredFence.currentFenceValue }
      else mm.fragmentResidency b }

/-- Lines 545-550: the loop over the fragments of one allocation. -/
def stampFragments : List FragmentStorage → WddmMemoryManager → WddmMemoryManager
  | [], mm => mm
  | f :: fs, mm => stampFragments fs (mm.stampFragment f.residency)

/-- Lines 538-551: the loop over the container after a successful call. -/
def stampResident : List Nat → WddmMemoryManager → WddmMemoryManager
  | [], mm => mm
  | a :: rest, mm =>
    stampResident rest
      (stampFragments ((mm.stampAllocation a).allocations a).fragments (mm.stampAllocation a))

/-- The method `WddmMemoryManager::makeResidentResidencyAllocations` (lines
478-557), for the registered context 0: `none` when the retry loop has not
ended within `fuel` passes, otherwise the returned flag and the state. -/
def makeResidentResidencyAllocations (driver : Nat → MakeResidentReply) (fuel : Nat)
    (run : ResidencyRun) (allocationsForResidency : List Nat) : Option (Bool × ResidencyRun) :=
  let collected := collectHandles allocationsForResidency run.mm []
  let entered : ResidencyRun := { run with mm := collected.1 }
  let called :=
    if collected.2.length ≠ 0 then makeResidentRetry driver collected.2 fuel entered
    else some (true, entered)
  match called with
  | none => none
  | some (result, left) =>
    if result then
      some (true, { left with mm := stampResident allocationsForResidency left.mm })
    else some (false, left)

/-! ## Creating a driver allocation -/

/-- The value of `STATUS_SUCCESS`. -/
def STATUS_SUCCESS : Nat := 0

/-- The value of `STATUS_UNSUCCESSFUL`. -/
def STATUS_UNSUCCESSFUL : Nat := 0xC0000001

/-- The value of `STATUS_GRAPHICS_NO_VIDEO_MEMORY`. -/
def STATUS_GRAPHICS_NO_VIDEO_MEMORY : Nat := 0xC01E0100

/-- The calls `createWddmAllocation` makes into `Wddm` and the deferred deleter. -/
inductive AllocationCall where
  | createAllocation
  | drain
  | mapGpuVirtualAddress
  | destroyAllocations
deriving DecidableEq, Repr

/-- The method `WddmMemoryManager::createWddmAllocation` (lines 727-747).
`deferredDeleter` tells whether the deferred deleter is there; `createReply k`
and `mapReply k` are what the call number `k` of `createAllocation` and of
`mapGpuVirtualAddress` returns. The result is the returned flag and the calls
made, in order. -/
def createWddmAllocation (deferredDeleter : Bool) (createReply : Nat → Nat)
    (mapReply : Nat → Bool) : Bool × List AllocationCall :=
  let created : Nat × List AllocationCall :=
    if createReply 0 = STATUS_GRAPHICS_NO_VIDEO_MEMORY ∧ deferredDeleter = true then
      (createReply 1, [AllocationCall.createAllocation, AllocationCall.drain,
        AllocationCall.createAllocation])
    else (createReply 0, [AllocationCall.createAllocation])
  if created.1 = STATUS_SUCCESS then
    let mapped : Bool × List AllocationCall :=
      if mapReply 0 = false ∧ deferredDeleter = true then
        (mapReply 1, created.2 ++ [AllocationCall.mapGpuVirtualAddress, AllocationCall.drain,
          AllocationCall.mapGpuVirtualAddress])
      else (mapReply 0, created.2 ++ [AllocationCall.mapGpuVirtualAddress])
    if mapped.1 = false then (false, mapped.2 ++ [AllocationCall.destroyAllocations])
    else (true, mapped.2)
  else (false, created.2)

/-! ## Construction and destruction of the memory manager -/

/-- The calls on the trim callback and its lock made by the constructor and
the destructor of `WddmMemoryManager`; the lock calls name the context whose
residency controller they go to. -/
inductive CallbackCall where
  | registerTrimCallback
  | unregisterTrimCallback
  | acquireTrimCallbackLock (context : Nat)
  | releaseTrimCallbackLock (context : Nat)
deriving DecidableEq, Repr

/-- The constructor (lines 45-54): one call of `registerTrimCallback`. -/
def constructorCalls : List CallbackCall := [CallbackCall.registerTrimCallback]

/-- The destructor (lines 28-43): the loop over `registeredOsContexts`, whose
entries may be null. `applyCommonCleanup` (not among the sources) is taken not
to touch the trim callback. -/
def destructorCalls : List (Option Nat) → List CallbackCall
  | [] => []
  | none :: rest => destructorCalls rest
  | some c :: rest =>
    [CallbackCall.acquireTrimCallbackLock c, CallbackCall.unregisterTrimCallback,
      CallbackCall.releaseTrimCallbackLock c, CallbackCall.acquireTrimCallbackLock c,
      CallbackCall.releaseTrimCallbackLock c] ++ destructorCalls rest

/-- The calls over the lifetime of one memory manager: construction, then
destruction with `registeredOsContexts` as it is then. -/
def lifetimeCalls (registeredOsContexts : List (Option Nat)) : List CallbackCall :=
  constructorCalls ++ destructorCalls registeredOsContexts

/-! ## Notions used in the statements on the residency code -/

/-- The `evict` calls of lines 674-696 for a head allocation `a`, read off the
state at the entry of the pass. -/
def headEvictCalls (mm : WddmMemoryManager) (a : Nat) : List DriverCall :=
  if (mm.allocations a).fragments.length = 0 then [DriverCall.evict [EvictTarget.allocation a]]
  else if (fragmentsToEvict mm a (mm.allocations a).fragments).length ≠ 0 then
    [DriverCall.evict (fragmentsToEvict mm a (mm.allocations a).fragments)]
  else []

/-- States that the pass `p` read the fence of its allocation and made the
calls of lines 670-696: the wait when the fence read was above the completed
value read, then the `evict` calls. -/
def TrimPass.Faithful (mm : WddmMemoryManager) (p : TrimPass) : Prop :=
  p.lastFence = (mm.allocations p.allocation).residencyData.lastFence ∧
    p.lastFence ≤ mm.monitoredFence.lastSubmittedFence ∧
    p.calls = (if p.lastFence > p.completedRead then [DriverCall.waitFromCpu p.lastFence] else []) ++
      headEvictCalls mm p.allocation

/-- States that a target was not used after the fence value `v`: an
unfragmented allocation whose fence is at most `v`, or a fragment whose own
fence is at most `v`. -/
def EvictTarget.notUsedSince (mm : WddmMemoryManager) (v : Nat) : EvictTarget → Prop
  | EvictTarget.allocation a =>
    (mm.allocations a).fragments = [] ∧ (mm.allocations a).residencyData.lastFence ≤ v
  | EvictTarget.fragment _ f => (mm.fragmentResidency f.residency).lastFence ≤ v

/-- States that a call leaves every `resident` flag that was false false, and
every fence value as it was. -/
structure NoneMadeResident (mm mm' : WddmMemoryManager) : Prop where
  allocationFence : ∀ a, (mm'.allocations a).residencyData.lastFence =
    (mm.allocations a).residencyData.lastFence
  allocationFlag : ∀ a, (mm'.allocations a).residencyData.resident = true →
    (mm.allocations a).residencyData.resident = true
  fragmentFence : ∀ r, (mm'.fragmentResidency r).lastFence = (mm.fragmentResidency r).lastFence
  fragmentFlag : ∀ r, (mm'.fragmentResidency r).resident = true →
    (mm.fragmentResidency r).resident = true

/-- States that the allocation `a` and all its fragments are resident and
stamped with the fence value `cur`. -/
def Stamped (cur : Nat) (mm : WddmMemoryManager) (a : Nat) : Prop :=
  (mm.allocations a).residencyData = { resident := true, lastFence := cur } ∧
    ∀ f ∈ (mm.allocations a).fragments,
      mm.fragmentResidency f.residency = { resident := true, lastFence := cur }

/-- States that `h` is a handle lines 512-520 pass for the allocation `a`: the
handle of `a` when it has no fragments and is not resident; the handle of a
fragment of `a` when `a` is on the trim list or the fragment is not resident. -/
def PassedFor (mm : WddmMemoryManager) (a h : Nat) : Prop :=
  ((mm.allocations a).fragments = [] ∧ (mm.allocations a).residencyData.resident = false ∧
      h = (mm.allocations a).handle) ∨
    ∃ f ∈ (mm.allocations a).fragments, h = f.handle ∧
      (a ∈ mm.trimCandidateList ∨ (mm.fragmentResidency f.residency).resident = false)

/-- Tells whether the allocation `a` was not used since the last periodic
trim (line 588). -/
def WddmMemoryManager.notUsedSinceLastTrim (mm : WddmMemoryManager) (a : Nat) : Bool :=
  decide ((mm.allocations a).residencyData.lastFence ≤ mm.lastTrimFenceValue)

/-- Modelled from the spec: the constant `maxFragmentsCount` (declared outside
the sources), the greatest number of fragments of an allocation and the factor
in the size of `handlesForResidency`; the arrays `fragmentResidency` and
`fragmentEvictHandles` have as many elements. -/
def maxFragmentsCount : Nat := 3

/-- The number of handles a driver call passes: `fragmentsToEvict` (or 1) for
an `evict` call. -/
def DriverCall.handleCount : DriverCall → Nat
  | DriverCall.waitFromCpu _ => 0
  | DriverCall.evict targets => targets.length

/-! ## Concrete states used as instances -/

/-- Heap of the worked example: allocations `1` (A) and `2` (B) of 100 bytes,
`3` (C) of 200 bytes, none inspected yet. -/
def exampleHeap : Nat → GraphicsAllocation :=
  fun a => if a = 3 then { inspectionId := 0, underlyingBufferSize := 200 }
    else { inspectionId := 0, underlyingBufferSize := 100 }

/-- A batch buffer without a command buffer allocation of its own. -/
def exampleBatch (throttle : Nat) : BatchBuffer :=
  { commandBufferAllocation := none, requiresCoherency := false, low_priority := false
    throttle := throttle }

/-- Queue of the worked example: primary `{A}`, successor `{A, B}`, third `{C}`. -/
def exampleQueue : List CommandBuffer :=
  [ { batchBuffer := exampleBatch 1, surfaces := [1], inspectionId := 0 },
    { batchBuffer := exampleBatch 1, surfaces := [1, 2], inspectionId := 0 },
    { batchBuffer := exampleBatch 1, surfaces := [3], inspectionId := 0 } ]

/-- As `exampleQueue`, with a third command buffer of another throttle. -/
def mixedThrottleQueue : List CommandBuffer :=
  [ { batchBuffer := exampleBatch 1, surfaces := [1], inspectionId := 0 },
    { batchBuffer := exampleBatch 1, surfaces := [1, 2], inspectionId := 0 },
    { batchBuffer := exampleBatch 0, surfaces := [3], inspectionId := 0 } ]

/-- A heap in which allocation `1` (A) has 2^64 - 50 bytes and every other
allocation 100 bytes, none inspected yet. -/
def hugeHeap : Nat → GraphicsAllocation :=
  fun a => if a = 1 then { inspectionId := 0, underlyingBufferSize := 2 ^ 64 - 50 }
    else { inspectionId := 0, underlyingBufferSize := 100 }

/-- A heap in which allocation `1` carries an inspection id (7) above the
counter value 5 used with it below. -/
def aheadHeap : Nat → GraphicsAllocation :=
  fun a => if a = 1 then { inspectionId := 7, underlyingBufferSize := 100 }
    else { inspectionId := 0, underlyingBufferSize := 100 }

/-- A state for the examples: allocation `a` has handle `a`, aligned size
`10 * a`, last fence `a` and no fragments; the last submitted fence is 4, the
GPU has completed fence 2, and allocations 1 to 5 are on the trim list. -/
def exampleManager : WddmMemoryManager :=
  { allocations := fun a =>
      { handle := a, alignedSize := 10 * a
        residencyData := { resident := true, lastFence := a }, fragments := [] }
    fragmentResidency := fun _ => { resident := true, lastFence := 0 }
    monitoredFence := { currentFenceValue := 5, lastSubmittedFence := 4, cpuValue := 2 }
    lastTrimFenceValue := 0
    trimCandidateList := [1, 2, 3, 4, 5]
    calls := [] }

/-- As `exampleManager`, with only the allocations 1 to 3 on the trim list. -/
def exampleManagerThree : WddmMemoryManager :=
  { exampleManager with trimCandidateList := [1, 2, 3] }

/-- As `exampleManager`, with an empty trim list. -/
def exampleManagerEmpty : WddmMemoryManager :=
  { exampleManager with trimCandidateList := [] }

/-- As `exampleManager`, with the last periodic trim at fence 3. -/
def exampleManagerTrimmedAt3 : WddmMemoryManager :=
  { exampleManager with lastTrimFenceValue := 3 }

/-- A driver whose `makeResident` succeeds at once. -/
def driverSucceeds : Nat → MakeResidentReply :=
  fun _ => { success := true, bytesToTrim := 0 }

/-- A driver whose `makeResident` fails every time and reports 0 bytes to trim. -/
def driverFailsWithZero : Nat → MakeResidentReply :=
  fun _ => { success := false, bytesToTrim := 0 }

/-- A driver whose `makeResident` fails every time and reports 1000 bytes to
trim. -/
def driverFailsWithBytes : Nat → MakeResidentReply :=
  fun _ => { success := false, bytesToTrim := 1000 }

/-- A run on `exampleManager` in which only the allocations 1 and 2 are
resident. -/
def exampleRun : ResidencyRun :=
  { mm := { exampleManager with
      allocations := fun a =>
        { handle := a, alignedSize := 10 * a
          residencyData := { resident := decide (a < 3), lastFence := a }, fragments := [] } }
    memoryBudgetExhausted := false
    makeResidentCalls := [] }

/-- A run in which allocation 7 has one fragment (handle 70) that is resident,
and is on the trim list. -/
def exampleRunFragmented : ResidencyRun :=
  { mm := { exampleManager with
      allocations := fun a =>
        { handle := a, alignedSize := 10 * a
          residencyData := { resident := true, lastFence := a }
          fragments := if a = 7 then [{ handle := 70, fragmentSize := 4096, residency := 0 }]
            else [] }
      trimCandidateList := [7] }
    memoryBudgetExhausted := false
    makeResidentCalls := [] }

/-- A state in which allocation 7 (fence 1) heads the trim list and has one
fragment whose residency record, shared with an allocation used later, carries
fence 4; fence 4 is submitted, and the GPU has completed fence 2. -/
def exampleManagerSharedFragment : WddmMemoryManager :=
  { allocations := fun a =>
      { handle := a, alignedSize := 10 * a
        residencyData := { resident := true, lastFence := 1 }
        fragments := if a = 7 then [{ handle := 70, fragmentSize := 4096, residency := 0 }]
          else [] }
    fragmentResidency := fun _ => { resident := true, lastFence := 4 }
    monitoredFence := { currentFenceValue := 5, lastSubmittedFence := 4, cpuValue := 2 }
    lastTrimFenceValue := 0
    trimCandidateList := [7]
    calls := [] }

/-! ## Lemmas and claims on `aggregateCommandBuffers` -/

@[simp] theorem setInspectionId_size (heap : Nat → GraphicsAllocation) (g id a : Nat) :
    (setInspectionId heap g id a).underlyingBufferSize = (heap a).underlyingBufferSize := by
  unfold setInspectionId
  split <;> rfl

@[simp] theorem setInspectionId_self (heap : Nat → GraphicsAllocation) (g id : Nat) :
    (setInspectionId heap g id g).inspectionId = id := by
  simp [setInspectionId]

theorem setInspectionId_other (heap : Nat → GraphicsAllocation) (g id a : Nat) (h : a ≠ g) :
    setInspectionId heap g id a = heap a := by
  simp [setInspectionId, h]

@[simp] theorem packageSize_nil (heap : Nat → GraphicsAllocation) : packageSize heap [] = 0 := rfl

theorem packageSize_append (heap : Nat → GraphicsAllocation) (l₁ l₂ : List Nat) :
    packageSize heap (l₁ ++ l₂) = packageSize heap l₁ + packageSize heap l₂ := by
  simp [packageSize]

theorem packageSize_congr (h₁ h₂ : Nat → GraphicsAllocation) (l : List Nat)
    (h : ∀ a, (h₁ a).underlyingBufferSize = (h₂ a).underlyingBufferSize) :
    packageSize h₁ l = packageSize h₂ l := by
  simp [packageSize, h]

theorem Extends.nothing (cur : Nat) (s : PackState) : Extends cur s s [] where
  resources := by simp
  size := by simp
  nodup := List.nodup_nil
  fresh := by simp
  stamped := by simp
  frame := fun _ _ => rfl
  bufsize := fun _ => rfl

/-- One pass through the body `stamp, push_back, add the size`. -/
theorem Extends.push (cur : Nat) (s : PackState) (g : Nat)
    (h : (s.heap g).inspectionId < cur) :
    Extends cur s
      { heap := setInspectionId s.heap g cur
        resources := s.resources ++ [g]
        size := (s.size + (s.heap g).underlyingBufferSize) % sizeModulus } [g] where
  resources := rfl
  size := by simp [packageSize]
  nodup := List.nodup_singleton g
  fresh := by simpa using h
  stamped := by simp
  frame := by
    intro a ha
    exact setInspectionId_other _ _ _ _ (by simpa using ha)
  bufsize := by simp

theorem Extends.followedBy {cur : Nat} {s r t : PackState} {app₁ app₂ : List Nat}
    (h₁ : Extends cur s r app₁) (h₂ : Extends cur r t app₂) :
    Extends cur s t (app₁ ++ app₂) := by
  have hdisj : ∀ a ∈ app₂, a ∉ app₁ := by
    intro a ha hmem
    have h1 := h₁.stamped a hmem
    have h2 := h₂.fresh a ha
    omega
  refine ⟨?_, ?_, ?_, ?_, ?_, ?_, ?_⟩
  · rw [h₂.resources, h₁.resources, List.append_assoc]
  · rw [h₂.size, h₁.size, packageSize_append,
      packageSize_congr r.heap s.heap app₂ h₁.bufsize]
    by_cases h1 : app₁ = []
    · subst h1
      by_cases h2 : app₂ = []
      · simp [h2]
      · simp [h2]
    · by_cases h2 : app₂ = []
      · subst h2
        simp [h1]
      · simp only [h1, h2, if_false, List.append_eq_nil, and_self]
        rw [Nat.mod_add_mod, Nat.add_assoc]
  · refine List.Nodup.append h₁.nodup h₂.nodup ?_
    intro a ha1 ha2
    exact hdisj a ha2 ha1
  · intro a ha
    rcases List.mem_append.1 ha with h | h
    · exact h₁.fresh a h
    · have := h₂.fresh a h
      rwa [h₁.frame a (hdisj a h)] at this
  · intro a ha
    rcases List.mem_append.1 ha with h | h
    · by_cases h' : a ∈ app₂
      · exact h₂.stamped a h'
      · rw [h₂.frame a h']; exact h₁.stamped a h
    · exact h₂.stamped a h
  · intro a ha
    have ha' : a ∉ app₁ ∧ a ∉ app₂ := by simpa [not_or] using ha
    rw [h₂.frame a ha'.2, h₁.frame a ha'.1]
  · intro a
    rw [h₂.bufsize, h₁.bufsize]

theorem collectNewSurfaces_extends (cur : Nat) (pb : Option Nat) (l : List Nat) (s : PackState) :
    ∃ app, Extends cur s (collectNewSurfaces cur pb l s) app ∧
      ∀ a ∈ app, a ∈ l ∧ some a ≠ pb := by
  induction l generalizing s with
  | nil => exact ⟨[], Extends.nothing cur s, by simp⟩
  | cons g gs ih =>
    unfold collectNewSurfaces
    split
    · obtain ⟨app, h, hm⟩ := ih s
      exact ⟨app, h, fun a ha => ⟨List.mem_cons_of_mem _ (hm a ha).1, (hm a ha).2⟩⟩
    · rename_i hne
      split
      · rename_i hlt
        obtain ⟨app, h, hm⟩ := ih
          { heap := setInspectionId s.heap g cur
            resources := s.resources ++ [g]
            size := (s.size + (s.heap g).underlyingBufferSize) % sizeModulus }
        refine ⟨[g] ++ app, (Extends.push cur s g hlt).followedBy h, ?_⟩
        intro a ha
        rcases List.mem_append.1 ha with h' | h'
        · have : a = g := by simpa using h'
          subst this
          exact ⟨List.mem_cons_self _ _, hne⟩
        · exact ⟨List.mem_cons_of_mem _ (hm a h').1, (hm a h').2⟩
      · obtain ⟨app, h, hm⟩ := ih s
        exact ⟨app, h, fun a ha => ⟨List.mem_cons_of_mem _ (hm a ha).1, (hm a ha).2⟩⟩

theorem addPrimarySurfaces_eq (cur : Nat) (l : List Nat) (s : PackState) :
    addPrimarySurfaces cur l s = collectNewSurfaces cur none l s := by
  induction l generalizing s with
  | nil => rfl
  | cons g gs ih =>
    unfold addPrimarySurfaces collectNewSurfaces
    simp only [reduceCtorEq, if_false]
    split <;> exact ih _

theorem addPrimarySurfaces_extends (cur : Nat) (l : List Nat) (s : PackState) :
    ∃ app, Extends cur s (addPrimarySurfaces cur l s) app ∧ ∀ a ∈ app, a ∈ l := by
  rw [addPrimarySurfaces_eq]
  obtain ⟨app, h, hm⟩ := collectNewSurfaces_extends cur none l s
  exact ⟨app, h, fun a ha => (hm a ha).1⟩

theorem collectBatchAllocation_extends (cur : Nat) (pb cb : Option Nat) (s : PackState) :
    ∃ app, Extends cur s (collectBatchAllocation cur pb cb s) app ∧
      ∀ a ∈ app, a ∈ cb.toList ∧ some a ≠ pb := by
  unfold collectBatchAllocation
  cases cb with
  | none => exact ⟨[], Extends.nothing cur s, by simp⟩
  | some g =>
    simp only
    split
    · rename_i hne
      split
      · rename_i hlt
        refine ⟨[g], Extends.push cur s g hlt, ?_⟩
        intro a ha
        have : a = g := by simpa using ha
        subst this
        exact ⟨by simp, hne⟩
      · exact ⟨[], Extends.nothing cur s, by simp⟩
    · exact ⟨[], Extends.nothing cur s, by simp⟩

theorem stageSuccessor_extends (cur : Nat) (pb : Option Nat) (heap : Nat → GraphicsAllocation)
    (cb : CommandBuffer) :
    Extends cur { heap := heap, resources := [], size := 0 } (stageSuccessor cur pb heap cb)
        (stageSuccessor cur pb heap cb).resources ∧
      ∀ a ∈ (stageSuccessor cur pb heap cb).resources, a ∈ cb.footprint ∧ some a ≠ pb := by
  unfold stageSuccessor
  obtain ⟨app₁, h₁, hm₁⟩ := collectNewSurfaces_extends cur pb cb.surfaces
    { heap := heap, resources := [], size := 0 }
  obtain ⟨app₂, h₂, hm₂⟩ := collectBatchAllocation_extends cur pb
    cb.batchBuffer.commandBufferAllocation
    (collectNewSurfaces cur pb cb.surfaces { heap := heap, resources := [], size := 0 })
  have h := h₁.followedBy h₂
  have hr := h.resources
  simp only [List.nil_append] at hr
  rw [hr]
  refine ⟨h, ?_⟩
  intro a ha
  rcases List.mem_append.1 ha with h' | h'
  · exact ⟨List.mem_append_left _ (hm₁ a h').1, (hm₁ a h').2⟩
  · exact ⟨List.mem_append_right _ (hm₂ a h').1, (hm₂ a h').2⟩

/-- The used size after the primary loop and the walk, from the two steps. -/
theorem wrappedTotal_eq (used sizeP sizeW sizeAll afterPrimary total merged : Nat)
    (appP appW : List Nat)
    (hp : afterPrimary = if appP = [] then used else (used + sizeP) % sizeModulus)
    (hw : total = if merged = 0 then afterPrimary else (afterPrimary + sizeW) % sizeModulus)
    (h0 : merged = 0 → appW = [])
    (hsum : (appP = [] → sizeP = 0) ∧ (appW = [] → sizeW = 0) ∧ sizeAll = sizeP + sizeW) :
    total = if appP ++ appW = [] ∧ merged + 1 ≤ 1 then used
      else (used + sizeAll) % sizeModulus := by
  obtain ⟨hP0, hW0, hall⟩ := hsum
  subst hall
  by_cases hm : merged = 0
  · have hnil := h0 hm
    rw [hw, if_pos hm, hp, hW0 hnil]
    by_cases hP : appP = []
    · simp [hP, hnil, hm]
    · simp [hP, hm]
  · rw [hw, if_neg hm, hp]
    have hcond : ¬ (appP ++ appW = [] ∧ merged + 1 ≤ 1) := fun hand => hm (by omega)
    rw [if_neg hcond]
    by_cases hP : appP = []
    · rw [if_pos hP, hP0 hP, Nat.zero_add]
    · rw [if_neg hP, Nat.mod_add_mod, Nat.add_assoc]

theorem WalkSpec.app_nil {cur budget : Nat} {q : List CommandBuffer}
    {heap : Nat → GraphicsAllocation} {pkg : List Nat} {used : Nat} {w : WalkState}
    {app : List Nat} (h : WalkSpec cur budget q heap pkg used w app) (hz : w.merged = 0) :
    app = [] := by
  cases app with
  | nil => rfl
  | cons a t =>
    obtain ⟨c, hc, _⟩ := h.origin a (List.mem_cons_self _ _)
    rw [hz] at hc
    simp at hc

theorem mergeSuccessors_spec (cur : Nat) (pb : Option Nat) (budget : Nat)
    (q : List CommandBuffer) (heap : Nat → GraphicsAllocation) (pkg : List Nat) (used : Nat) :
    ∃ app, WalkSpec cur budget q heap pkg used
      (mergeSuccessors cur pb budget q heap pkg used) app := by
  induction q generalizing heap pkg used with
  | nil =>
    refine ⟨[], ?_⟩
    unfold mergeSuccessors
    exact ⟨by simp, by simp, List.nodup_nil, by simp, by simp, fun _ => rfl, by simp,
      by simp, by simp, fun _ _ => rfl⟩
  | cons cb rest ih =>
    obtain ⟨hst, hfoot⟩ := stageSuccessor_extends cur pb heap cb
    have hsize : (used + (stageSuccessor cur pb heap cb).size) % sizeModulus =
        (used + packageSize heap (stageSuccessor cur pb heap cb).resources) % sizeModulus := by
      rw [hst.size]
      by_cases hnil : (stageSuccessor cur pb heap cb).resources = []
      · simp [hnil]
      · simp only [hnil, if_false, Nat.zero_add]
        rw [Nat.add_mod_mod]
    unfold mergeSuccessors
    simp only
    split
    · rename_i hfit
      obtain ⟨app, h⟩ := ih (stageSuccessor cur pb heap cb).heap
        (pkg ++ (stageSuccessor cur pb heap cb).resources)
        ((used + (stageSuccessor cur pb heap cb).size) % sizeModulus)
      have hdisj : ∀ a ∈ app, a ∉ (stageSuccessor cur pb heap cb).resources := by
        intro a ha hmem
        have h1 := hst.stamped a hmem
        have h2 := h.fresh a ha
        omega
      have happ0 : (mergeSuccessors cur pb budget rest (stageSuccessor cur pb heap cb).heap
          (pkg ++ (stageSuccessor cur pb heap cb).resources)
          ((used + (stageSuccessor cur pb heap cb).size) % sizeModulus)).merged = 0 →
          app = [] := by
        intro hz
        cases app with
        | nil => rfl
        | cons a t =>
          obtain ⟨c, hc, _⟩ := h.origin a (List.mem_cons_self _ _)
          rw [hz] at hc
          simp at hc
      refine ⟨(stageSuccessor cur pb heap cb).resources ++ app, ?_⟩
      refine ⟨?_, ?_, ?_, ?_, ?_, ?_, ?_, ?_, ?_, ?_⟩
      · simp only [h.resourcePackage, List.append_assoc]
      · show (mergeSuccessors cur pb budget rest (stageSuccessor cur pb heap cb).heap
            (pkg ++ (stageSuccessor cur pb heap cb).resources)
            ((used + (stageSuccessor cur pb heap cb).size) % sizeModulus)).totalUsedSize = _
        rw [if_neg (Nat.succ_ne_zero _), h.totalUsedSize]
        split
        · rename_i hz
          rw [happ0 hz, List.append_nil, hsize]
        · rw [packageSize_append, packageSize_congr _ heap app hst.bufsize, hsize,
            Nat.mod_add_mod, Nat.add_assoc]
      · refine List.Nodup.append hst.nodup h.nodup ?_
        intro a ha1 ha2
        exact hdisj a ha2 ha1
      · intro a ha
        rcases List.mem_append.1 ha with h' | h'
        · exact hst.fresh a h'
        · have := h.fresh a h'
          rwa [hst.frame a (hdisj a h')] at this
      · intro a ha
        rcases List.mem_append.1 ha with h' | h'
        · exact ⟨cb, by simp, (hfoot a h').1⟩
        · obtain ⟨c, hc, hac⟩ := h.origin a h'
          exact ⟨c, by simp [hc], hac⟩
      · intro a
        simp only [h.bufsize, hst.bufsize]
      · simpa using h.merged_le
      · simp only [List.take_succ_cons, List.map_cons, List.drop_succ_cons, List.cons_append]
        rw [h.cmdBuffers]
        rfl
      · intro _
        show (mergeSuccessors cur pb budget rest (stageSuccessor cur pb heap cb).heap
            (pkg ++ (stageSuccessor cur pb heap cb).resources)
            ((used + (stageSuccessor cur pb heap cb).size) % sizeModulus)).totalUsedSize ≤ budget
        by_cases hm : 0 < (mergeSuccessors cur pb budget rest (stageSuccessor cur pb heap cb).heap
            (pkg ++ (stageSuccessor cur pb heap cb).resources)
            ((used + (stageSuccessor cur pb heap cb).size) % sizeModulus)).merged
        · exact h.budget hm
        · rw [h.totalUsedSize, if_pos (by omega), Nat.add_comm]
          exact hfit
      · intro a ha
        have h1 : a ∉ (stageSuccessor cur pb heap cb).resources := by
          intro hmem
          exact ha cb (by simp) (hfoot a hmem).1
        rw [h.frame a (fun c hc => ha c (by simp [hc])), hst.frame a h1]
    · refine ⟨[], ?_⟩
      refine ⟨by simp, by simp, List.nodup_nil, by simp, by simp, hst.bufsize, by simp,
        by simp, by simp, ?_⟩
      intro a ha
      have h1 : a ∉ (stageSuccessor cur pb heap cb).resources := by
        intro hmem
        exact ha cb (by simp) (hfoot a hmem).1
      exact hst.frame a h1

/-- The walk does not look past the first command buffer it does not commit. -/
theorem mergeSuccessors_append (cur : Nat) (pb : Option Nat) (budget : Nat)
    (q later : List CommandBuffer) (heap : Nat → GraphicsAllocation) (pkg : List Nat) (used : Nat)
    (h : (mergeSuccessors cur pb budget q heap pkg used).merged < q.length) :
    mergeSuccessors cur pb budget (q ++ later) heap pkg used =
      { mergeSuccessors cur pb budget q heap pkg used with
        cmdBuffers := (mergeSuccessors cur pb budget q heap pkg used).cmdBuffers ++ later } := by
  induction q generalizing heap pkg used with
  | nil => simp [mergeSuccessors] at h
  | cons cb rest ih =>
    unfold mergeSuccessors at h ⊢
    simp only [List.cons_append] at h ⊢
    split
    · rename_i hfit
      simp only [hfit, if_true, List.length_cons, Nat.add_lt_add_iff_right] at h
      rw [ih _ _ _ h]
      rfl
    · rfl

theorem Extends.stamped_of_stamped {cur : Nat} {s r : PackState} {app : List Nat}
    (h : Extends cur s r app) (a : Nat) (ha : (s.heap a).inspectionId = cur) :
    (r.heap a).inspectionId = cur := by
  by_cases hm : a ∈ app
  · exact h.stamped a hm
  · rw [h.frame a hm]; exact ha

theorem addPrimarySurfaces_stamps (cur : Nat) (l : List Nat) (s : PackState) (g : Nat)
    (hg : g ∈ l) (hlt : (s.heap g).inspectionId < cur) :
    ((addPrimarySurfaces cur l s).heap g).inspectionId = cur := by
  induction l generalizing s with
  | nil => simp at hg
  | cons x xs ih =>
    unfold addPrimarySurfaces
    by_cases hx : g = x
    · subst hx
      rw [if_pos hlt]
      obtain ⟨app, h, _⟩ := addPrimarySurfaces_extends cur xs
        { heap := setInspectionId s.heap g cur
          resources := s.resources ++ [g]
          size := (s.size + (s.heap g).underlyingBufferSize) % sizeModulus }
      exact h.stamped_of_stamped g (setInspectionId_self _ _ _)
    · have hmem : g ∈ xs := by
        rcases List.mem_cons.1 hg with h | h
        · exact absurd h hx
        · exact h
      split
      · apply ih _ hmem
        show (setInspectionId s.heap x cur g).inspectionId < cur
        rw [setInspectionId_other _ _ _ _ hx]
        exact hlt
      · exact ih s hmem hlt

/-- The pass with nothing to merge: no successor, or a first successor that
differs from the primary in one of the three attributes. -/
theorem aggregate_primaryOnly (cur : Nat) (primary : CommandBuffer)
    (successors : List CommandBuffer) (heap : Nat → GraphicsAllocation) (pkg : List Nat)
    (used budget : Nat)
    (h : ∀ next ∈ successors.head?, ¬ next.batchBuffer.compatible primary.batchBuffer) :
    SubmissionAggregator.aggregateCommandBuffers
        { cmdBuffers := primary :: successors, inspectionId := cur } heap pkg used budget =
      { aggregator := { cmdBuffers := primary.stamp cur :: successors
                        inspectionId := (cur + 1) % inspectionIdModulus }
        heap := (addPrimarySurfaces cur primary.surfaces
          { heap := heap, resources := pkg, size := used }).heap
        resourcePackage := (addPrimarySurfaces cur primary.surfaces
          { heap := heap, resources := pkg, size := used }).resources
        totalUsedSize := (addPrimarySurfaces cur primary.surfaces
          { heap := heap, resources := pkg, size := used }).size
        stamped := 1 } := by
  unfold SubmissionAggregator.aggregateCommandBuffers
  cases successors with
  | nil => rfl
  | cons next rest =>
    have hn := h next (by simp)
    simp only
    split
    · rfl
    · rename_i h1
      split
      · rfl
      · rename_i h2
        split
        · rfl
        · rename_i h3
          exact absurd ⟨not_not.1 h1, not_not.1 h2, not_not.1 h3⟩ hn

/-- The pass when the first successor agrees with the primary in the three
attributes: the walk is run on all successors. -/
theorem aggregate_walk (cur : Nat) (primary next : CommandBuffer)
    (rest : List CommandBuffer) (heap : Nat → GraphicsAllocation) (pkg : List Nat)
    (used budget : Nat) (h : next.batchBuffer.compatible primary.batchBuffer) :
    SubmissionAggregator.aggregateCommandBuffers
        { cmdBuffers := primary :: next :: rest, inspectionId := cur } heap pkg used budget =
      { aggregator :=
          { cmdBuffers := primary.stamp cur ::
              (mergeSuccessors cur primary.batchBuffer.commandBufferAllocation budget (next :: rest)
                (addPrimarySurfaces cur primary.surfaces
                  { heap := heap, resources := pkg, size := used }).heap
                (addPrimarySurfaces cur primary.surfaces
                  { heap := heap, resources := pkg, size := used }).resources
                (addPrimarySurfaces cur primary.surfaces
                  { heap := heap, resources := pkg, size := used }).size).cmdBuffers
            inspectionId := (cur + 1) % inspectionIdModulus }
        heap := (mergeSuccessors cur primary.batchBuffer.commandBufferAllocation budget
          (next :: rest)
          (addPrimarySurfaces cur primary.surfaces
            { heap := heap, resources := pkg, size := used }).heap
          (addPrimarySurfaces cur primary.surfaces
            { heap := heap, resources := pkg, size := used }).resources
          (addPrimarySurfaces cur primary.surfaces
            { heap := heap, resources := pkg, size := used }).size).heap
        resourcePackage := (mergeSuccessors cur primary.batchBuffer.commandBufferAllocation budget
          (next :: rest)
          (addPrimarySurfaces cur primary.surfaces
            { heap := heap, resources := pkg, size := used }).heap
          (addPrimarySurfaces cur primary.surfaces
            { heap := heap, resources := pkg, size := used }).resources
          (addPrimarySurfaces cur primary.surfaces
            { heap := heap, resources := pkg, size := used }).size).resourcePackage
        totalUsedSize := (mergeSuccessors cur primary.batchBuffer.commandBufferAllocation budget
          (next :: rest)
          (addPrimarySurfaces cur primary.surfaces
            { heap := heap, resources := pkg, size := used }).heap
          (addPrimarySurfaces cur primary.surfaces
            { heap := heap, resources := pkg, size := used }).resources
          (addPrimarySurfaces cur primary.surfaces
            { heap := heap, resources := pkg, size := used }).size).totalUsedSize
        stamped := (mergeSuccessors cur primary.batchBuffer.commandBufferAllocation budget
          (next :: rest)
          (addPrimarySurfaces cur primary.surfaces
            { heap := heap, resources := pkg, size := used }).heap
          (addPrimarySurfaces cur primary.surfaces
            { heap := heap, resources := pkg, size := used }).resources
          (addPrimarySurfaces cur primary.surfaces
            { heap := heap, resources := pkg, size := used }).size).merged + 1 } := by
  unfold SubmissionAggregator.aggregateCommandBuffers
  obtain ⟨h1, h2, h3⟩ := h
  simp only [h1, h2, h3, ne_eq, not_true_eq_false, if_false]
  rfl

theorem addPrimarySurfaces_complete (cur : Nat) (l : List Nat) (s : PackState)
    (app : List Nat) (h : Extends cur s (addPrimarySurfaces cur l s) app) :
    ∀ g ∈ l, (s.heap g).inspectionId < cur → g ∈ app := by
  intro g hg hlt
  by_contra hna
  have h1 := h.frame g hna
  have h2 := addPrimarySurfaces_stamps cur l s g hg hlt
  rw [h1] at h2
  omega

theorem aggregate_spec (cur budget : Nat) (primary : CommandBuffer)
    (successors : List CommandBuffer) (heap : Nat → GraphicsAllocation) (pkg : List Nat)
    (used : Nat) :
    ∃ app, AggregateSpec cur budget primary successors heap pkg used
      (SubmissionAggregator.aggregateCommandBuffers
        { cmdBuffers := primary :: successors, inspectionId := cur } heap pkg used budget) app := by
  obtain ⟨appP, hP, hPmem⟩ := addPrimarySurfaces_extends cur primary.surfaces
    { heap := heap, resources := pkg, size := used }
  have hcomplete := addPrimarySurfaces_complete cur primary.surfaces _ appP hP
  by_cases hc : ∀ next ∈ successors.head?, ¬ next.batchBuffer.compatible primary.batchBuffer
  · rw [aggregate_primaryOnly cur primary successors heap pkg used budget hc]
    refine ⟨appP, ?_⟩
    exact
      { resourcePackage := hP.resources
        totalUsedSize := by
          refine hP.size.trans ?_
          simp
        nodup := hP.nodup
        fresh := hP.fresh
        origin := fun a ha => Or.inl (hPmem a ha)
        complete := hcomplete
        bufsize := hP.bufsize
        stamped_pos := Nat.le_refl 1
        stamped_le := by simp
        cmdBuffers := by simp
        counter := rfl
        budget := fun h => absurd h (by simp)
        first_compatible := fun h => absurd h (by simp) }
  · have hex : ∃ next rest, successors = next :: rest ∧
        next.batchBuffer.compatible primary.batchBuffer := by
      cases successors with
      | nil => simp at hc
      | cons next rest =>
        refine ⟨next, rest, rfl, ?_⟩
        simpa using hc
    obtain ⟨next, rest, rfl, hcompat⟩ := hex
    rw [aggregate_walk cur primary next rest heap pkg used budget hcompat]
    obtain ⟨appW, hW⟩ := mergeSuccessors_spec cur primary.batchBuffer.commandBufferAllocation
      budget (next :: rest)
      (addPrimarySurfaces cur primary.surfaces { heap := heap, resources := pkg, size := used }).heap
      (addPrimarySurfaces cur primary.surfaces
        { heap := heap, resources := pkg, size := used }).resources
      (addPrimarySurfaces cur primary.surfaces { heap := heap, resources := pkg, size := used }).size
    have hdisj : ∀ a ∈ appW, a ∉ appP := by
      intro a ha hmem
      have h1 := hP.stamped a hmem
      have h2 := hW.fresh a ha
      omega
    refine ⟨appP ++ appW, ?_⟩
    exact
      { resourcePackage := hW.resourcePackage.trans (by rw [hP.resources, List.append_assoc])
        totalUsedSize := by
          have hw := hW.totalUsedSize
          rw [packageSize_congr _ heap appW hP.bufsize] at hw
          exact wrappedTotal_eq used _ _ _ _ _ _ appP appW hP.size hw hW.app_nil
            ⟨fun h => by rw [h]; rfl, fun h => by rw [h]; rfl,
              packageSize_append heap appP appW⟩
        nodup := List.Nodup.append hP.nodup hW.nodup (fun a ha1 ha2 => hdisj a ha2 ha1)
        fresh := by
          intro a ha
          rcases List.mem_append.1 ha with h | h
          · exact hP.fresh a h
          · have := hW.fresh a h
            rwa [hP.frame a (hdisj a h)] at this
        origin := by
          intro a ha
          rcases List.mem_append.1 ha with h | h
          · exact Or.inl (hPmem a h)
          · right
            simpa using hW.origin a h
        complete := fun g hg hlt => List.mem_append_left _ (hcomplete g hg hlt)
        bufsize := fun a => by simp only [hW.bufsize, hP.bufsize]
        stamped_pos := by simp
        stamped_le := by simpa using hW.merged_le
        cmdBuffers := by
          simp only [List.take_succ_cons, List.map_cons, List.drop_succ_cons, List.cons_append]
          rw [hW.cmdBuffers]
        counter := rfl
        budget := fun h => hW.budget (by simpa using h)
        first_compatible := fun _ => ⟨next, by simp, hcompat⟩ }

theorem aggregate_nil (cur : Nat) (heap : Nat → GraphicsAllocation) (pkg : List Nat)
    (used budget : Nat) :
    SubmissionAggregator.aggregateCommandBuffers { cmdBuffers := [], inspectionId := cur }
        heap pkg used budget =
      { aggregator := { cmdBuffers := [], inspectionId := cur }, heap := heap
        resourcePackage := pkg, totalUsedSize := used, stamped := 0 } := rfl

/-- C1 as stated fails: allocation A has 2^64 - 50 bytes and B has 100; the
sum of line 80 wraps to 50, which is within the budget of 100, so the successor
is merged, and the sizes of the package `[A, B]` add up to 2^64 + 50, above the
budget. -/
theorem aggregateCommandBuffers_wrapped_sum_exceeds_budget :
    (SubmissionAggregator.aggregateCommandBuffers
        { cmdBuffers := exampleQueue, inspectionId := 1 } hugeHeap [] 0 100).stamped = 2 ∧
      (SubmissionAggregator.aggregateCommandBuffers
        { cmdBuffers := exampleQueue, inspectionId := 1 } hugeHeap [] 0 100).resourcePackage =
        [1, 2] ∧
      packageSize (SubmissionAggregator.aggregateCommandBuffers
          { cmdBuffers := exampleQueue, inspectionId := 1 } hugeHeap [] 0 100).heap
        (SubmissionAggregator.aggregateCommandBuffers
          { cmdBuffers := exampleQueue, inspectionId := 1 } hugeHeap [] 0 100).resourcePackage =
        2 ^ 64 + 50 ∧
      ¬ packageSize (SubmissionAggregator.aggregateCommandBuffers
          { cmdBuffers := exampleQueue, inspectionId := 1 } hugeHeap [] 0 100).heap
        (SubmissionAggregator.aggregateCommandBuffers
          { cmdBuffers := exampleQueue, inspectionId := 1 } hugeHeap [] 0 100).resourcePackage
        ≤ 100 := by
  decide

/-- C1, amended: when the pass starts from an empty package and a used size of
0 and merges at least one successor, the underlying buffer sizes of the
allocations in the package, added as `size_t` values (modulo 2^64), give at
most the budget; so whenever their sum is below 2^64 the sum itself is at most
the budget. -/
theorem aggregateCommandBuffers_merged_within_budget (self : SubmissionAggregator)
    (heap : Nat → GraphicsAllocation) (totalMemoryBudget : Nat)
    (hmerged : 2 ≤ (self.aggregateCommandBuffers heap [] 0 totalMemoryBudget).stamped) :
    packageSize (self.aggregateCommandBuffers heap [] 0 totalMemoryBudget).heap
      (self.aggregateCommandBuffers heap [] 0 totalMemoryBudget).resourcePackage % sizeModulus
        ≤ totalMemoryBudget ∧
    (packageSize (self.aggregateCommandBuffers heap [] 0 totalMemoryBudget).heap
      (self.aggregateCommandBuffers heap [] 0 totalMemoryBudget).resourcePackage < sizeModulus →
      packageSize (self.aggregateCommandBuffers heap [] 0 totalMemoryBudget).heap
        (self.aggregateCommandBuffers heap [] 0 totalMemoryBudget).resourcePackage
          ≤ totalMemoryBudget) := by
  obtain ⟨q, cur⟩ := self
  cases q with
  | nil => rw [aggregate_nil] at hmerged; simp at hmerged
  | cons primary successors =>
    obtain ⟨app, h⟩ := aggregate_spec cur totalMemoryBudget primary successors heap [] 0
    have hb := h.budget hmerged
    rw [h.totalUsedSize, if_neg (fun hand => by omega), Nat.zero_add] at hb
    rw [h.resourcePackage, List.nil_append, packageSize_congr _ heap app h.bufsize]
    refine ⟨hb, fun hlt => ?_⟩
    rwa [Nat.mod_eq_of_lt hlt] at hb

/-- Instance of the amended C1 on the worked example: a successor is merged,
the sizes add up to less than 2^64, and the package stays within the budget of
250 bytes. -/
theorem aggregateCommandBuffers_merged_within_budget_witness :
    2 ≤ (SubmissionAggregator.aggregateCommandBuffers
          { cmdBuffers := exampleQueue, inspectionId := 1 } exampleHeap [] 0 250).stamped ∧
      packageSize (SubmissionAggregator.aggregateCommandBuffers
          { cmdBuffers := exampleQueue, inspectionId := 1 } exampleHeap [] 0 250).heap
        (SubmissionAggregator.aggregateCommandBuffers
          { cmdBuffers := exampleQueue, inspectionId := 1 } exampleHeap [] 0 250).resourcePackage
        ≤ 250 :=
  ⟨by decide, (aggregateCommandBuffers_merged_within_budget
    { cmdBuffers := exampleQueue, inspectionId := 1 } exampleHeap 250 (by decide)).2 (by decide)⟩

/-- C2: when every allocation the queue refers to carries an inspection id
below the aggregator's counter and the package starts empty, the package the
pass produces holds no allocation twice, and every surface of the primary is
in it exactly once. -/
theorem aggregateCommandBuffers_package_nodup (self : SubmissionAggregator)
    (heap : Nat → GraphicsAllocation) (totalUsedSize totalMemoryBudget : Nat)
    (hfresh : ∀ cb ∈ self.cmdBuffers, ∀ a ∈ cb.footprint,
      (heap a).inspectionId < self.inspectionId) :
    (self.aggregateCommandBuffers heap [] totalUsedSize totalMemoryBudget).resourcePackage.Nodup ∧
      ∀ primary ∈ self.cmdBuffers.head?, ∀ g ∈ primary.surfaces,
        (self.aggregateCommandBuffers heap [] totalUsedSize
          totalMemoryBudget).resourcePackage.count g = 1 := by
  obtain ⟨q, cur⟩ := self
  cases q with
  | nil => rw [aggregate_nil]; simp
  | cons primary successors =>
    obtain ⟨app, h⟩ := aggregate_spec cur totalMemoryBudget primary successors heap []
      totalUsedSize
    rw [h.resourcePackage, List.nil_append]
    refine ⟨h.nodup, ?_⟩
    intro p hp g hg
    have hp' : p = primary := by simpa using hp.symm
    subst hp'
    have hlt : (heap g).inspectionId < cur :=
      hfresh p (List.mem_cons_self _ _) g (List.mem_append_left _ hg)
    exact List.count_eq_one_of_mem h.nodup (h.complete g hg hlt)

/-- Instance of C2 on the worked example, whose allocations all carry the
inspection id 0 while the counter is 1. -/
theorem aggregateCommandBuffers_package_nodup_witness :
    (∀ cb ∈ exampleQueue, ∀ a ∈ cb.footprint, (exampleHeap a).inspectionId < 1) ∧
      ((SubmissionAggregator.aggregateCommandBuffers
        { cmdBuffers := exampleQueue, inspectionId := 1 } exampleHeap [] 0 250).resourcePackage.Nodup ∧
      ∀ primary ∈ exampleQueue.head?, ∀ g ∈ primary.surfaces,
        (SubmissionAggregator.aggregateCommandBuffers
          { cmdBuffers := exampleQueue, inspectionId := 1 } exampleHeap [] 0
            250).resourcePackage.count g = 1) :=
  have hfresh : ∀ cb ∈ exampleQueue, ∀ a ∈ cb.footprint, (exampleHeap a).inspectionId < 1 := by
    intro cb _ a _
    have hz : (exampleHeap a).inspectionId = 0 := by
      unfold exampleHeap
      split <;> rfl
    rw [hz]
    decide
  ⟨hfresh, aggregateCommandBuffers_package_nodup
    { cmdBuffers := exampleQueue, inspectionId := 1 } exampleHeap 0 250 hfresh⟩

/-- C3 as stated fails: on the worked example called with a used size of
2^64 - 50, the pass appends A and B (200 bytes) and leaves the used size 150,
not 2^64 - 50 + 200: the additions of lines 33 and 83 wrap. -/
theorem aggregateCommandBuffers_totalUsedSize_wraps :
    (SubmissionAggregator.aggregateCommandBuffers
        { cmdBuffers := exampleQueue, inspectionId := 1 } exampleHeap [] (2 ^ 64 - 50)
          250).resourcePackage = [1, 2] ∧
      packageSize exampleHeap [1, 2] = 200 ∧
      (SubmissionAggregator.aggregateCommandBuffers
        { cmdBuffers := exampleQueue, inspectionId := 1 } exampleHeap [] (2 ^ 64 - 50)
          250).totalUsedSize = 150 ∧
      (SubmissionAggregator.aggregateCommandBuffers
        { cmdBuffers := exampleQueue, inspectionId := 1 } exampleHeap [] (2 ^ 64 - 50)
          250).totalUsedSize ≠ 2 ^ 64 - 50 + packageSize exampleHeap [1, 2] := by
  decide

/-- C3, amended: for a used size that is a `size_t` value (below 2^64), the
used size after the pass is the used size before it plus the underlying buffer
sizes of exactly the allocations the pass appended to the package, modulo
2^64; it is the plain sum whenever that sum is below 2^64. -/
theorem aggregateCommandBuffers_totalUsedSize (self : SubmissionAggregator)
    (heap : Nat → GraphicsAllocation) (resourcePackage : List Nat)
    (totalUsedSize totalMemoryBudget : Nat) (hsize : totalUsedSize < sizeModulus) :
    ∃ appended,
      (self.aggregateCommandBuffers heap resourcePackage totalUsedSize
        totalMemoryBudget).resourcePackage = resourcePackage ++ appended ∧
      (self.aggregateCommandBuffers heap resourcePackage totalUsedSize
        totalMemoryBudget).totalUsedSize =
        (totalUsedSize + packageSize (self.aggregateCommandBuffers heap resourcePackage
          totalUsedSize totalMemoryBudget).heap appended) % sizeModulus ∧
      (totalUsedSize + packageSize (self.aggregateCommandBuffers heap resourcePackage
          totalUsedSize totalMemoryBudget).heap appended < sizeModulus →
        (self.aggregateCommandBuffers heap resourcePackage totalUsedSize
          totalMemoryBudget).totalUsedSize =
          totalUsedSize + packageSize (self.aggregateCommandBuffers heap resourcePackage
            totalUsedSize totalMemoryBudget).heap appended) := by
  obtain ⟨q, cur⟩ := self
  cases q with
  | nil =>
    refine ⟨[], ?_⟩
    rw [aggregate_nil]
    simp [Nat.mod_eq_of_lt hsize]
  | cons primary successors =>
    obtain ⟨app, h⟩ := aggregate_spec cur totalMemoryBudget primary successors heap
      resourcePackage totalUsedSize
    have hmod : (SubmissionAggregator.aggregateCommandBuffers
        { cmdBuffers := primary :: successors, inspectionId := cur } heap resourcePackage
        totalUsedSize totalMemoryBudget).totalUsedSize =
        (totalUsedSize + packageSize heap app) % sizeModulus := by
      rw [h.totalUsedSize]
      split
      · rename_i hand
        rw [hand.1, packageSize_nil, Nat.add_zero, Nat.mod_eq_of_lt hsize]
      · rfl
    refine ⟨app, h.resourcePackage, ?_, ?_⟩
    · rw [packageSize_congr _ heap app h.bufsize]
      exact hmod
    · rw [packageSize_congr _ heap app h.bufsize]
      intro hlt
      rw [hmod, Nat.mod_eq_of_lt hlt]

/-- Instance of the amended C3 at the used size 2^64 - 50: the sizes appended
on the worked example make the used size wrap to 150. -/
theorem aggregateCommandBuffers_totalUsedSize_witness :
    2 ^ 64 - 50 < sizeModulus ∧
    ∃ appended,
      (SubmissionAggregator.aggregateCommandBuffers
        { cmdBuffers := exampleQueue, inspectionId := 1 } exampleHeap [] (2 ^ 64 - 50)
          250).resourcePackage = [] ++ appended ∧
      (SubmissionAggregator.aggregateCommandBuffers
        { cmdBuffers := exampleQueue, inspectionId := 1 } exampleHeap [] (2 ^ 64 - 50)
          250).totalUsedSize =
        (2 ^ 64 - 50 + packageSize (SubmissionAggregator.aggregateCommandBuffers
          { cmdBuffers := exampleQueue, inspectionId := 1 } exampleHeap [] (2 ^ 64 - 50)
            250).heap appended) % sizeModulus :=
  ⟨by decide,
    (aggregateCommandBuffers_totalUsedSize { cmdBuffers := exampleQueue, inspectionId := 1 }
      exampleHeap [] (2 ^ 64 - 50) 250 (by decide)).imp fun _ h => ⟨h.1, h.2.1⟩⟩

/-- C4, at the failing input: with a third command buffer whose throttle
differs from the primary's, and a budget that leaves room, the pass stamps
all three command buffers and appends the third one's surface. -/
theorem aggregateCommandBuffers_merges_incompatible_third :
    ((SubmissionAggregator.aggregateCommandBuffers
        { cmdBuffers := mixedThrottleQueue, inspectionId := 1 } exampleHeap [] 0
          1000).aggregator.cmdBuffers.map (fun cb => cb.inspectionId) = [1, 1, 1]) ∧
      (SubmissionAggregator.aggregateCommandBuffers
        { cmdBuffers := mixedThrottleQueue, inspectionId := 1 } exampleHeap [] 0
          1000).resourcePackage = [1, 2, 3] ∧
      (SubmissionAggregator.aggregateCommandBuffers
        { cmdBuffers := mixedThrottleQueue, inspectionId := 1 } exampleHeap [] 0
          1000).aggregator.cmdBuffers.map (fun cb => cb.batchBuffer.throttle) = [1, 1, 0] := by
  decide

/-- C5: when the second command buffer differs from the primary in one of
`requiresCoherency`, `low_priority`, `throttle`, then for every budget the pass
appends only surfaces of the primary, adds only their sizes (with the addition
of `size_t`, which is the plain sum whenever that is below 2^64; nothing is
added when nothing is appended), stamps no command buffer but the primary, and
leaves every allocation that is not a surface of the primary as it was. -/
theorem aggregateCommandBuffers_incompatible_second (cur : Nat) (primary next : CommandBuffer)
    (rest : List CommandBuffer) (heap : Nat → GraphicsAllocation) (resourcePackage : List Nat)
    (totalUsedSize totalMemoryBudget : Nat)
    (hdiff : ¬ next.batchBuffer.compatible primary.batchBuffer) :
    (∃ appended,
      (SubmissionAggregator.aggregateCommandBuffers
        { cmdBuffers := primary :: next :: rest, inspectionId := cur } heap resourcePackage
          totalUsedSize totalMemoryBudget).resourcePackage = resourcePackage ++ appended ∧
      (∀ a ∈ appended, a ∈ primary.surfaces) ∧
      (SubmissionAggregator.aggregateCommandBuffers
        { cmdBuffers := primary :: next :: rest, inspectionId := cur } heap resourcePackage
          totalUsedSize totalMemoryBudget).totalUsedSize =
        (if appended = [] then totalUsedSize
          else (totalUsedSize + packageSize heap appended) % sizeModulus) ∧
      (totalUsedSize + packageSize heap appended < sizeModulus →
        (SubmissionAggregator.aggregateCommandBuffers
          { cmdBuffers := primary :: next :: rest, inspectionId := cur } heap resourcePackage
            totalUsedSize totalMemoryBudget).totalUsedSize =
          totalUsedSize + packageSize heap appended)) ∧
    (SubmissionAggregator.aggregateCommandBuffers
        { cmdBuffers := primary :: next :: rest, inspectionId := cur } heap resourcePackage
          totalUsedSize totalMemoryBudget).aggregator.cmdBuffers =
      primary.stamp cur :: next :: rest ∧
    ∀ a, a ∉ primary.surfaces →
      (SubmissionAggregator.aggregateCommandBuffers
        { cmdBuffers := primary :: next :: rest, inspectionId := cur } heap resourcePackage
          totalUsedSize totalMemoryBudget).heap a = heap a := by
  have hc : ∀ n ∈ (next :: rest).head?, ¬ n.batchBuffer.compatible primary.batchBuffer := by
    intro n hn
    have : n = next := by simpa using hn.symm
    subst this
    exact hdiff
  rw [aggregate_primaryOnly cur primary (next :: rest) heap resourcePackage totalUsedSize
    totalMemoryBudget hc]
  obtain ⟨app, hP, hPmem⟩ := addPrimarySurfaces_extends cur primary.surfaces
    { heap := heap, resources := resourcePackage, size := totalUsedSize }
  refine ⟨⟨app, hP.resources, hPmem, hP.size, fun hlt => ?_⟩, rfl, ?_⟩
  · refine hP.size.trans ?_
    split
    · rename_i hnil
      rw [hnil, packageSize_nil, Nat.add_zero]
    · exact Nat.mod_eq_of_lt hlt
  · intro a ha
    exact hP.frame a (fun hmem => ha (hPmem a hmem))

/-- Instance of C5: a primary of throttle 0 followed by a command buffer of
throttle 1; only the primary is stamped, with a budget that would hold both. -/
theorem aggregateCommandBuffers_incompatible_second_witness :
    ¬ (exampleBatch 1).compatible (exampleBatch 0) ∧
    (SubmissionAggregator.aggregateCommandBuffers
        { cmdBuffers := { batchBuffer := exampleBatch 0, surfaces := [1], inspectionId := 0 } ::
            { batchBuffer := exampleBatch 1, surfaces := [1, 2], inspectionId := 0 } :: []
          inspectionId := 1 } exampleHeap [] 0 1000).aggregator.cmdBuffers =
      CommandBuffer.stamp 1 { batchBuffer := exampleBatch 0, surfaces := [1], inspectionId := 0 } ::
        { batchBuffer := exampleBatch 1, surfaces := [1, 2], inspectionId := 0 } :: [] :=
  ⟨by decide,
    (aggregateCommandBuffers_incompatible_second 1
      { batchBuffer := exampleBatch 0, surfaces := [1], inspectionId := 0 }
      { batchBuffer := exampleBatch 1, surfaces := [1, 2], inspectionId := 0 } [] exampleHeap [] 0
      1000 (by decide)).2.1⟩

/-- C6: the command buffers the pass stamps are a prefix of the queue (the
first `stamped` ones; all others are left as they were), every allocation the
pass appends comes from a command buffer of that prefix, and what stands
behind the first command buffer that was not committed has no effect: with any
other command buffers `later` queued behind, the same prefix is stamped, the
package and the used size are the same, and `later` is left unstamped. -/
theorem aggregateCommandBuffers_stamps_initial_segment (self : SubmissionAggregator)
    (heap : Nat → GraphicsAllocation) (resourcePackage : List Nat)
    (totalUsedSize totalMemoryBudget : Nat) :
    (self.aggregateCommandBuffers heap resourcePackage totalUsedSize
        totalMemoryBudget).aggregator.cmdBuffers =
      (self.cmdBuffers.take (self.aggregateCommandBuffers heap resourcePackage totalUsedSize
          totalMemoryBudget).stamped).map (CommandBuffer.stamp self.inspectionId) ++
        self.cmdBuffers.drop (self.aggregateCommandBuffers heap resourcePackage totalUsedSize
          totalMemoryBudget).stamped ∧
    (∃ appended,
      (self.aggregateCommandBuffers heap resourcePackage totalUsedSize
        totalMemoryBudget).resourcePackage = resourcePackage ++ appended ∧
      ∀ a ∈ appended, ∃ cb ∈ self.cmdBuffers.take (self.aggregateCommandBuffers heap
          resourcePackage totalUsedSize totalMemoryBudget).stamped, a ∈ cb.footprint) ∧
    ∀ later : List CommandBuffer,
      (self.aggregateCommandBuffers heap resourcePackage totalUsedSize
        totalMemoryBudget).stamped < self.cmdBuffers.length →
      (SubmissionAggregator.aggregateCommandBuffers
          { cmdBuffers := self.cmdBuffers ++ later, inspectionId := self.inspectionId } heap
          resourcePackage totalUsedSize totalMemoryBudget).stamped =
        (self.aggregateCommandBuffers heap resourcePackage totalUsedSize
          totalMemoryBudget).stamped ∧
      (SubmissionAggregator.aggregateCommandBuffers
          { cmdBuffers := self.cmdBuffers ++ later, inspectionId := self.inspectionId } heap
          resourcePackage totalUsedSize totalMemoryBudget).resourcePackage =
        (self.aggregateCommandBuffers heap resourcePackage totalUsedSize
          totalMemoryBudget).resourcePackage ∧
      (SubmissionAggregator.aggregateCommandBuffers
          { cmdBuffers := self.cmdBuffers ++ later, inspectionId := self.inspectionId } heap
          resourcePackage totalUsedSize totalMemoryBudget).totalUsedSize =
        (self.aggregateCommandBuffers heap resourcePackage totalUsedSize
          totalMemoryBudget).totalUsedSize ∧
      (SubmissionAggregator.aggregateCommandBuffers
          { cmdBuffers := self.cmdBuffers ++ later, inspectionId := self.inspectionId } heap
          resourcePackage totalUsedSize totalMemoryBudget).aggregator.cmdBuffers =
        (self.aggregateCommandBuffers heap resourcePackage totalUsedSize
          totalMemoryBudget).aggregator.cmdBuffers ++ later := by
  obtain ⟨q, cur⟩ := self
  cases q with
  | nil =>
    refine ⟨by rw [aggregate_nil]; simp, ⟨[], by rw [aggregate_nil]; simp⟩, ?_⟩
    intro later h
    rw [aggregate_nil] at h
    simp at h
  | cons primary successors =>
    obtain ⟨app, h⟩ := aggregate_spec cur totalMemoryBudget primary successors heap
      resourcePackage totalUsedSize
    refine ⟨h.cmdBuffers, ⟨app, h.resourcePackage, ?_⟩, ?_⟩
    · intro a ha
      have hpos := h.stamped_pos
      obtain ⟨k, hk⟩ : ∃ k, (SubmissionAggregator.aggregateCommandBuffers
          { cmdBuffers := primary :: successors, inspectionId := cur } heap resourcePackage
          totalUsedSize totalMemoryBudget).stamped = k + 1 := ⟨_, (Nat.sub_add_cancel hpos).symm⟩
      have ho := h.origin a ha
      simp only [hk, Nat.add_sub_cancel] at ho ⊢
      rcases ho with h' | ⟨cb, hcb, hacb⟩
      · exact ⟨primary, by simp, List.mem_append_left _ h'⟩
      · exact ⟨cb, by simp [hcb], hacb⟩
    · intro later
      simp only [List.cons_append]
      by_cases hc : ∀ next ∈ successors.head?, ¬ next.batchBuffer.compatible primary.batchBuffer
      · intro hlt
        have hne : successors ≠ [] := by
          rintro rfl
          rw [aggregate_primaryOnly cur primary [] heap resourcePackage totalUsedSize
            totalMemoryBudget hc] at hlt
          simp at hlt
        have hc' : ∀ next ∈ (successors ++ later).head?,
            ¬ next.batchBuffer.compatible primary.batchBuffer := by
          cases successors with
          | nil => exact absurd rfl hne
          | cons n r => simpa using hc
        rw [aggregate_primaryOnly cur primary successors heap resourcePackage totalUsedSize
            totalMemoryBudget hc,
          aggregate_primaryOnly cur primary (successors ++ later) heap resourcePackage
            totalUsedSize totalMemoryBudget hc']
        simp
      · have hex : ∃ next rest, successors = next :: rest ∧
            next.batchBuffer.compatible primary.batchBuffer := by
          cases successors with
          | nil => simp at hc
          | cons next rest =>
            refine ⟨next, rest, rfl, ?_⟩
            simpa using hc
        obtain ⟨next, rest, rfl, hcompat⟩ := hex
        simp only [List.cons_append]
        rw [aggregate_walk cur primary next rest heap resourcePackage totalUsedSize
            totalMemoryBudget hcompat,
          aggregate_walk cur primary next (rest ++ later) heap resourcePackage totalUsedSize
            totalMemoryBudget hcompat]
        intro hlt
        simp only [List.length_cons, Nat.add_lt_add_iff_right] at hlt
        have happ := mergeSuccessors_append cur primary.batchBuffer.commandBufferAllocation
          totalMemoryBudget (next :: rest) later
          (addPrimarySurfaces cur primary.surfaces
            { heap := heap, resources := resourcePackage, size := totalUsedSize }).heap
          (addPrimarySurfaces cur primary.surfaces
            { heap := heap, resources := resourcePackage, size := totalUsedSize }).resources
          (addPrimarySurfaces cur primary.surfaces
            { heap := heap, resources := resourcePackage, size := totalUsedSize }).size
          (by simpa using hlt)
        simp only [List.cons_append] at happ
        rw [happ]
        simp

/-- Instance of C6: the successor `{C, B}` (300 new bytes) does not fit the
budget of 250; a third command buffer `{A}`, which would add nothing, is queued
behind it and changes nothing in the package. -/
theorem aggregateCommandBuffers_stamps_initial_segment_witness :
    (SubmissionAggregator.aggregateCommandBuffers
        { cmdBuffers := [{ batchBuffer := exampleBatch 1, surfaces := [1], inspectionId := 0 },
            { batchBuffer := exampleBatch 1, surfaces := [3, 2], inspectionId := 0 }]
          inspectionId := 1 } exampleHeap [] 0 250).stamped < 2 ∧
      (SubmissionAggregator.aggregateCommandBuffers
        { cmdBuffers := [{ batchBuffer := exampleBatch 1, surfaces := [1], inspectionId := 0 },
            { batchBuffer := exampleBatch 1, surfaces := [3, 2], inspectionId := 0 }] ++
            [{ batchBuffer := exampleBatch 1, surfaces := [1], inspectionId := 0 }]
          inspectionId := 1 } exampleHeap [] 0 250).resourcePackage =
        (SubmissionAggregator.aggregateCommandBuffers
        { cmdBuffers := [{ batchBuffer := exampleBatch 1, surfaces := [1], inspectionId := 0 },
            { batchBuffer := exampleBatch 1, surfaces := [3, 2], inspectionId := 0 }]
          inspectionId := 1 } exampleHeap [] 0 250).resourcePackage :=
  ⟨by decide,
    ((aggregateCommandBuffers_stamps_initial_segment
      { cmdBuffers := [{ batchBuffer := exampleBatch 1, surfaces := [1], inspectionId := 0 },
          { batchBuffer := exampleBatch 1, surfaces := [3, 2], inspectionId := 0 }]
        inspectionId := 1 } exampleHeap [] 0 250).2.2
      [{ batchBuffer := exampleBatch 1, surfaces := [1], inspectionId := 0 }] (by decide)).2.1⟩

/-- C7: on the queue `[{A}, {A, B}, {C}]` with A and B of 100 bytes, C of 200
bytes, no command buffer allocations, fresh inspection ids, an empty package
and a used size of 0, the pass with budget 250 yields the package `[A, B]` and
the used size 200, stamps the primary and the successor and leaves the third
command buffer unstamped. -/
theorem aggregateCommandBuffers_worked_example :
    (SubmissionAggregator.aggregateCommandBuffers
        { cmdBuffers := exampleQueue, inspectionId := 1 } exampleHeap [] 0 250).resourcePackage
      = [1, 2] ∧
    (SubmissionAggregator.aggregateCommandBuffers
        { cmdBuffers := exampleQueue, inspectionId := 1 } exampleHeap [] 0 250).totalUsedSize
      = 200 ∧
    (SubmissionAggregator.aggregateCommandBuffers
        { cmdBuffers := exampleQueue, inspectionId := 1 } exampleHeap [] 0
          250).aggregator.cmdBuffers.map (fun cb => cb.inspectionId) = [1, 1, 0] ∧
    (SubmissionAggregator.aggregateCommandBuffers
        { cmdBuffers := exampleQueue, inspectionId := 1 } exampleHeap [] 0 250).stamped = 2 := by
  decide

/-- C8 as stated fails: a surface of the primary whose inspection id (7) is
not the current one (5) but above it is not appended to the package; and from
the greatest value of its type the counter goes to 0. -/
theorem aggregateCommandBuffers_skips_surface_ahead :
    ((aheadHeap 1).inspectionId ≠ 5 ∧
      1 ∉ (SubmissionAggregator.aggregateCommandBuffers
        { cmdBuffers := [{ batchBuffer := exampleBatch 1, surfaces := [1], inspectionId := 0 }]
          inspectionId := 5 } aheadHeap [] 0 250).resourcePackage) ∧
      (SubmissionAggregator.aggregateCommandBuffers
        { cmdBuffers := [{ batchBuffer := exampleBatch 1, surfaces := [1], inspectionId := 0 }]
          inspectionId := inspectionIdModulus - 1 } exampleHeap [] 0
            250).aggregator.inspectionId = 0 := by
  decide

/-- C8, amended: for every non-empty queue and every budget the pass appends
every surface of the primary whose inspection id is below the current one,
stamps the primary with the current inspection id and advances the counter by
one in the arithmetic of its type: by exactly one unless the counter had the
greatest value of its type, from which it goes to 0. -/
theorem aggregateCommandBuffers_primary (cur : Nat) (primary : CommandBuffer)
    (successors : List CommandBuffer) (heap : Nat → GraphicsAllocation)
    (resourcePackage : List Nat) (totalUsedSize totalMemoryBudget : Nat) :
    (∃ appended,
      (SubmissionAggregator.aggregateCommandBuffers
        { cmdBuffers := primary :: successors, inspectionId := cur } heap resourcePackage
        totalUsedSize totalMemoryBudget).resourcePackage = resourcePackage ++ appended ∧
      ∀ g ∈ primary.surfaces, (heap g).inspectionId < cur → g ∈ appended) ∧
    (SubmissionAggregator.aggregateCommandBuffers
        { cmdBuffers := primary :: successors, inspectionId := cur } heap resourcePackage
        totalUsedSize totalMemoryBudget).aggregator.cmdBuffers.head? =
      some (primary.stamp cur) ∧
    (SubmissionAggregator.aggregateCommandBuffers
        { cmdBuffers := primary :: successors, inspectionId := cur } heap resourcePackage
        totalUsedSize totalMemoryBudget).aggregator.inspectionId =
      (cur + 1) % inspectionIdModulus ∧
    (cur + 1 < inspectionIdModulus →
      (SubmissionAggregator.aggregateCommandBuffers
        { cmdBuffers := primary :: successors, inspectionId := cur } heap resourcePackage
        totalUsedSize totalMemoryBudget).aggregator.inspectionId = cur + 1) := by
  obtain ⟨app, h⟩ := aggregate_spec cur totalMemoryBudget primary successors heap
    resourcePackage totalUsedSize
  refine ⟨⟨app, h.resourcePackage, h.complete⟩, ?_, h.counter, fun hlt => ?_⟩
  · rw [h.cmdBuffers]
    have hpos := h.stamped_pos
    obtain ⟨k, hk⟩ : ∃ k, (SubmissionAggregator.aggregateCommandBuffers
        { cmdBuffers := primary :: successors, inspectionId := cur } heap resourcePackage
        totalUsedSize totalMemoryBudget).stamped = k + 1 := ⟨_, (Nat.sub_add_cancel hpos).symm⟩
    rw [hk]
    simp
  · rw [h.counter, Nat.mod_eq_of_lt hlt]

/-- Instance of the amended C8 with budget 0: the fresh surface of the primary
is among the allocations appended, and the counter goes from 1 to 2. -/
theorem aggregateCommandBuffers_primary_witness :
    (exampleHeap 1).inspectionId < 1 ∧
      (∃ appended,
        (SubmissionAggregator.aggregateCommandBuffers
          { cmdBuffers := { batchBuffer := exampleBatch 1, surfaces := [1], inspectionId := 0 } :: []
            inspectionId := 1 } exampleHeap [] 0 0).resourcePackage = [] ++ appended ∧
        1 ∈ appended) ∧
      (SubmissionAggregator.aggregateCommandBuffers
          { cmdBuffers := { batchBuffer := exampleBatch 1, surfaces := [1], inspectionId := 0 } :: []
            inspectionId := 1 } exampleHeap [] 0 0).aggregator.inspectionId = 1 + 1 :=
  ⟨by decide,
    (aggregateCommandBuffers_primary 1
      { batchBuffer := exampleBatch 1, surfaces := [1], inspectionId := 0 } [] exampleHeap [] 0
      0).1.imp fun _ h => ⟨h.1, h.2 1 (by decide) (by decide)⟩,
    (aggregateCommandBuffers_primary 1
      { batchBuffer := exampleBatch 1, surfaces := [1], inspectionId := 0 } [] exampleHeap [] 0
      0).2.2.2 (by decide)⟩

/-! ## Lemmas and claims on `trimResidencyToBudget` -/

theorem SameShape.same (mm : WddmMemoryManager) : SameShape mm mm :=
  ⟨fun _ => rfl, fun _ => rfl, fun _ => rfl, fun _ => rfl, fun _ => rfl, rfl⟩

theorem SameShape.andThen {m₁ m₂ m₃ : WddmMemoryManager} (h₁ : SameShape m₁ m₂)
    (h₂ : SameShape m₂ m₃) : SameShape m₁ m₃ :=
  ⟨fun a => (h₂.handle a).trans (h₁.handle a),
   fun a => (h₂.alignedSize a).trans (h₁.alignedSize a),
   fun a => (h₂.fragments a).trans (h₁.fragments a),
   fun a => (h₂.lastFence a).trans (h₁.lastFence a),
   fun r => (h₂.fragmentFence r).trans (h₁.fragmentFence r),
   h₂.lastSubmittedFence.trans h₁.lastSubmittedFence⟩

theorem sameShape_waitFromCpu (mm : WddmMemoryManager) (v : Nat) :
    SameShape mm (mm.waitFromCpu v) :=
  ⟨fun _ => rfl, fun _ => rfl, fun _ => rfl, fun _ => rfl, fun _ => rfl, rfl⟩

theorem sameShape_evict (mm : WddmMemoryManager) (t : List EvictTarget) :
    SameShape mm (mm.evict t) :=
  ⟨fun _ => rfl, fun _ => rfl, fun _ => rfl, fun _ => rfl, fun _ => rfl, rfl⟩

theorem sameShape_removeFromTrimCandidateList (mm : WddmMemoryManager) (a : Nat) :
    SameShape mm (mm.removeFromTrimCandidateList a) :=
  ⟨fun _ => rfl, fun _ => rfl, fun _ => rfl, fun _ => rfl, fun _ => rfl, rfl⟩

theorem sameShape_setResident (mm : WddmMemoryManager) (a : Nat) (v : Bool) :
    SameShape mm (mm.setResident a v) := by
  refine ⟨?_, ?_, ?_, ?_, fun _ => rfl, rfl⟩ <;>
  · intro b
    simp only [WddmMemoryManager.setResident]
    split <;> rfl

theorem sameShape_setFragmentResident (mm : WddmMemoryManager) (r : Nat) (v : Bool) :
    SameShape mm (mm.setFragmentResident r v) := by
  refine ⟨fun _ => rfl, fun _ => rfl, fun _ => rfl, fun _ => rfl, ?_, rfl⟩
  intro b
  simp only [WddmMemoryManager.setFragmentResident]
  split <;> rfl

theorem fragmentsToEvict_congr (mm mm' : WddmMemoryManager) (a : Nat) (fs : List FragmentStorage)
    (h : SameShape mm mm') : fragmentsToEvict mm' a fs = fragmentsToEvict mm a fs := by
  induction fs with
  | nil => rfl
  | cons f fs ih =>
    unfold fragmentsToEvict
    rw [h.fragmentFence, h.lastSubmittedFence, ih]

theorem credit_congr (mm mm' : WddmMemoryManager) (h : SameShape mm mm') (t : EvictTarget) :
    EvictTarget.credit mm' t = EvictTarget.credit mm t := by
  cases t with
  | allocation a => exact h.alignedSize a
  | fragment a f => rfl

theorem creditedBytes_congr (mm mm' : WddmMemoryManager) (h : SameShape mm mm')
    (calls : List DriverCall) : creditedBytes mm' calls = creditedBytes mm calls := by
  unfold creditedBytes
  congr 1
  exact List.map_congr_left (fun t _ => credit_congr mm mm' h t)

theorem evictedTargets_append (c₁ c₂ : List DriverCall) :
    evictedTargets (c₁ ++ c₂) = evictedTargets c₁ ++ evictedTargets c₂ := by
  induction c₁ with
  | nil => rfl
  | cons c cs ih =>
    cases c with
    | waitFromCpu v => simpa [evictedTargets] using ih
    | evict t => simp [evictedTargets, ih]

theorem creditedBytes_append (mm : WddmMemoryManager) (c₁ c₂ : List DriverCall) :
    creditedBytes mm (c₁ ++ c₂) = creditedBytes mm c₁ + creditedBytes mm c₂ := by
  simp [creditedBytes, evictedTargets_append]

/-- The marking loop leaves everything but the fragments' `resident` flags
alone and adds to `sizeEvicted` the sizes of the fragments that were passed to
`evict`. -/
theorem markFragmentsEvicted_spec (a : Nat) (fs : List FragmentStorage) (mm : WddmMemoryManager)
    (s : Nat) :
    (markFragmentsEvicted fs mm s).2 =
        s + ((fragmentsToEvict mm a fs).map (EvictTarget.credit mm)).sum ∧
      (markFragmentsEvicted fs mm s).1.calls = mm.calls ∧
      (markFragmentsEvicted fs mm s).1.allocations = mm.allocations ∧
      (markFragmentsEvicted fs mm s).1.trimCandidateList = mm.trimCandidateList ∧
      (markFragmentsEvicted fs mm s).1.monitoredFence = mm.monitoredFence ∧
      SameShape mm (markFragmentsEvicted fs mm s).1 := by
  induction fs generalizing mm s with
  | nil => exact ⟨by simp [markFragmentsEvicted, fragmentsToEvict], rfl, rfl, rfl, rfl, SameShape.same mm⟩
  | cons f fs ih =>
    unfold markFragmentsEvicted fragmentsToEvict
    split
    · obtain ⟨h1, h2, h3, h4, h5, h6⟩ := ih (mm.setFragmentResident f.residency false)
        (s + f.fragmentSize)
      have hs := sameShape_setFragmentResident mm f.residency false
      refine ⟨?_, h2, h3, h4, h5, hs.andThen h6⟩
      rw [h1, fragmentsToEvict_congr mm _ a fs hs]
      simp only [List.map_cons, List.sum_cons, EvictTarget.credit]
      have : ((fragmentsToEvict mm a fs).map
          (EvictTarget.credit (mm.setFragmentResident f.residency false))).sum =
          ((fragmentsToEvict mm a fs).map (EvictTarget.credit mm)).sum := by
        congr 1
      rw [this, Nat.add_assoc]
    · exact ih mm s

/-- One eviction: the calls it adds, what it credits, and what it leaves alone. -/
theorem evictHead_spec (mm : WddmMemoryManager) (a : Nat) :
    ∃ new, (evictHead mm a).1.calls = mm.calls ++ new ∧
      (evictHead mm a).2 = creditedBytes mm new ∧
      (evictHead mm a).1.allocations = mm.allocations ∧
      (evictHead mm a).1.trimCandidateList = mm.trimCandidateList ∧
      (evictHead mm a).1.monitoredFence = mm.monitoredFence ∧
      SameShape mm (evictHead mm a).1 := by
  unfold evictHead
  split
  · exact ⟨[DriverCall.evict [EvictTarget.allocation a]], rfl,
      by simp [creditedBytes, evictedTargets, EvictTarget.credit], rfl, rfl, rfl,
      sameShape_evict mm _⟩
  · split
    · obtain ⟨h1, h2, h3, h4, h5, h6⟩ := markFragmentsEvicted_spec a (mm.allocations a).fragments
        (mm.evict (fragmentsToEvict mm a (mm.allocations a).fragments)) 0
      have hs := sameShape_evict mm (fragmentsToEvict mm a (mm.allocations a).fragments)
      refine ⟨[DriverCall.evict (fragmentsToEvict mm a (mm.allocations a).fragments)],
        h2, ?_, h3, h4, h5, hs.andThen h6⟩
      rw [h1, fragmentsToEvict_congr mm _ a _ hs]
      simp only [Nat.zero_add, creditedBytes, evictedTargets, List.append_nil]
      congr 1
    · exact ⟨[], by simp, by simp [creditedBytes, evictedTargets], rfl, rfl, rfl,
        SameShape.same mm⟩

/-- The loop: the calls it adds, and the bytes left to trim at its exit. -/
theorem trimToBudgetLoop_spec (l : List Nat) (mm : WddmMemoryManager) (n : Nat) :
    ∃ new, (trimToBudgetLoop l mm n).1.calls = mm.calls ++ new ∧
      (trimToBudgetLoop l mm n).2 = n - creditedBytes mm new ∧
      (n = 0 → new = []) ∧
      SameShape mm (trimToBudgetLoop l mm n).1 := by
  induction l generalizing mm n with
  | nil => exact ⟨[], by simp [trimToBudgetLoop], by simp [trimToBudgetLoop, creditedBytes, evictedTargets],
      fun _ => rfl, SameShape.same mm⟩
  | cons a rest ih =>
    unfold trimToBudgetLoop
    split
    · exact ⟨[], by simp, by simp [creditedBytes, evictedTargets], fun _ => rfl, SameShape.same mm⟩
    · rename_i hn
      simp only
      split
      · -- the head is evicted
        obtain ⟨w, hw, hwcalls⟩ : ∃ w : WddmMemoryManager,
            w = (if (mm.allocations a).residencyData.lastFence > mm.monitoredFence.cpuValue then
              mm.waitFromCpu (mm.allocations a).residencyData.lastFence else mm) ∧
            ∃ c, w.calls = mm.calls ++ c ∧ creditedBytes mm c = 0 ∧ SameShape mm w := by
          refine ⟨_, rfl, ?_⟩
          split
          · exact ⟨[DriverCall.waitFromCpu _], rfl, by simp [creditedBytes, evictedTargets],
              sameShape_waitFromCpu mm _⟩
          · exact ⟨[], by simp, by simp [creditedBytes, evictedTargets], SameShape.same mm⟩
        obtain ⟨c, hc, hc0, hsw⟩ := hwcalls
        rw [← hw]
        obtain ⟨e, he, hecred, _, _, _, hse⟩ := evictHead_spec w a
        have hs1 : SameShape mm
            (((evictHead w a).1.setResident a false).removeFromTrimCandidateList a) :=
          ((hsw.andThen hse).andThen (sameShape_setResident _ a false)).andThen
            (sameShape_removeFromTrimCandidateList _ a)
        obtain ⟨new, hnew, hleft, _, hs2⟩ := ih
          (((evictHead w a).1.setResident a false).removeFromTrimCandidateList a)
          (if (evictHead w a).2 ≥ n then 0 else n - (evictHead w a).2)
        refine ⟨c ++ e ++ new, ?_, ?_, fun h => absurd h hn, hs1.andThen hs2⟩
        · rw [hnew]
          show (evictHead w a).1.calls ++ new = _
          rw [he, hc]
          simp only [List.append_assoc]
        · rw [hleft, creditedBytes_append, creditedBytes_append, hc0,
            creditedBytes_congr mm _ hs1 new, hecred, creditedBytes_congr mm w hsw e]
          split <;> omega
      · exact ⟨[], by simp, by simp [creditedBytes, evictedTargets], fun h => absurd h hn,
          SameShape.same mm⟩

/-- The list the loop is run on stays the trim candidate list of the state: at
the exit the state holds what is left of it behind the entries taken off. -/
theorem trimToBudgetLoop_trimCandidateList (l : List Nat) (mm : WddmMemoryManager) (n : Nat)
    (hl : mm.trimCandidateList = l) :
    ∃ k, k ≤ l.length ∧ (trimToBudgetLoop l mm n).1.trimCandidateList = l.drop k := by
  induction l generalizing mm n with
  | nil => exact ⟨0, Nat.le_refl _, by simpa [trimToBudgetLoop] using hl⟩
  | cons a rest ih =>
    unfold trimToBudgetLoop
    split
    · exact ⟨0, Nat.zero_le _, by simpa using hl⟩
    · simp only
      split
      · obtain ⟨w, hw, hwl⟩ : ∃ w : WddmMemoryManager,
            w = (if (mm.allocations a).residencyData.lastFence > mm.monitoredFence.cpuValue then
              mm.waitFromCpu (mm.allocations a).residencyData.lastFence else mm) ∧
            w.trimCandidateList = mm.trimCandidateList := by
          refine ⟨_, rfl, ?_⟩
          split <;> rfl
        rw [← hw]
        obtain ⟨_, _, _, _, hel, _, _⟩ := evictHead_spec w a
        obtain ⟨k, hk, hlist⟩ := ih
          (((evictHead w a).1.setResident a false).removeFromTrimCandidateList a)
          (if (evictHead w a).2 ≥ n then 0 else n - (evictHead w a).2)
          (by
            show ((evictHead w a).1.trimCandidateList).erase a = rest
            rw [hel, hwl, hl]
            simp)
        exact ⟨k + 1, by simpa using hk, by simpa using hlist⟩
      · exact ⟨0, Nat.zero_le _, by simpa using hl⟩

/-- At every pass of the loop the allocation it works on is what
`getTrimCandidateHead` returns, and taking it off leaves the tail. -/
theorem trimCandidateList_head (mm : WddmMemoryManager) (a : Nat) (rest : List Nat)
    (hl : mm.trimCandidateList = a :: rest) :
    mm.getTrimCandidateHead = some a ∧
      (mm.removeFromTrimCandidateList a).trimCandidateList = rest := by
  unfold WddmMemoryManager.getTrimCandidateHead WddmMemoryManager.removeFromTrimCandidateList
  rw [hl]
  simp

/-- C9: `trimResidencyToBudget(bytes)` returns true exactly when the bytes
credited for what its `evict` calls evicted (aligned size per allocation,
`fragmentSize` per fragment) reach `bytes`; for `bytes = 0` it returns true and
leaves the state as it is, and for `bytes > 0` on an empty trim list it
returns false. -/
theorem trimResidencyToBudget_true_iff_credited (mm : WddmMemoryManager) (bytes : Nat) :
    (∃ newCalls, (mm.trimResidencyToBudget bytes).2.calls = mm.calls ++ newCalls ∧
      ((mm.trimResidencyToBudget bytes).1 = true ↔ bytes ≤ creditedBytes mm newCalls)) ∧
    (bytes = 0 → mm.trimResidencyToBudget bytes = (true, mm)) ∧
    (0 < bytes → mm.trimCandidateList = [] → (mm.trimResidencyToBudget bytes).1 = false) := by
  refine ⟨?_, ?_, ?_⟩
  · obtain ⟨new, hcalls, hleft, _, _⟩ := trimToBudgetLoop_spec mm.trimCandidateList mm bytes
    refine ⟨new, hcalls, ?_⟩
    show (((trimToBudgetLoop mm.trimCandidateList mm bytes).2 == 0) = true ↔ _)
    rw [hleft]
    simp only [beq_iff_eq]
    omega
  · intro h
    subst h
    unfold WddmMemoryManager.trimResidencyToBudget
    cases mm.trimCandidateList with
    | nil => rfl
    | cons a rest => rfl
  · intro hpos hnil
    unfold WddmMemoryManager.trimResidencyToBudget
    rw [hnil]
    simp only [trimToBudgetLoop, beq_eq_false_iff_ne, ne_eq]
    omega

/-- Instance of C9: 7 bytes requested on an empty trim list. -/
theorem trimResidencyToBudget_true_iff_credited_witness :
    (0 < 7 ∧ exampleManagerEmpty.trimCandidateList = []) ∧
      (exampleManagerEmpty.trimResidencyToBudget 7).1 = false :=
  ⟨⟨by decide, rfl⟩,
    (trimResidencyToBudget_true_iff_credited exampleManagerEmpty 7).2.2 (by decide) rfl⟩

theorem alignedSizeSum_congr (mm mm' : WddmMemoryManager) (h : SameShape mm mm') (l : List Nat) :
    alignedSizeSum mm' l = alignedSizeSum mm l := by
  unfold alignedSizeSum
  congr 1
  exact List.map_congr_left (fun a _ => h.alignedSize a)

/-- The loop on a list of unfragmented allocations none of which is used by
work not yet submitted. -/
theorem trimToBudgetLoop_unfragmented (l : List Nat) (mm : WddmMemoryManager) (n : Nat)
    (hl : mm.trimCandidateList = l)
    (hunfrag : ∀ a ∈ l, (mm.allocations a).fragments = [])
    (hfence : ∀ a ∈ l,
      (mm.allocations a).residencyData.lastFence ≤ mm.monitoredFence.lastSubmittedFence)
    (hnodup : l.Nodup) :
    ∃ k, k ≤ l.length ∧
      (trimToBudgetLoop l mm n).1.trimCandidateList = l.drop k ∧
      (∃ new, (trimToBudgetLoop l mm n).1.calls = mm.calls ++ new ∧
        evictedTargets new = (l.take k).map EvictTarget.allocation) ∧
      (∀ a ∈ l.take k, ((trimToBudgetLoop l mm n).1.allocations a).residencyData.resident = false) ∧
      (∀ a, a ∉ l.take k → (trimToBudgetLoop l mm n).1.allocations a = mm.allocations a) ∧
      (∀ j, j < k → alignedSizeSum mm (l.take j) < n) ∧
      (n ≤ alignedSizeSum mm (l.take k) ∨ k = l.length) := by
  induction l generalizing mm n with
  | nil =>
    refine ⟨0, Nat.le_refl _, by simpa [trimToBudgetLoop] using hl,
      ⟨[], by simp [trimToBudgetLoop], rfl⟩, by simp, fun _ _ => rfl, by simp, Or.inr rfl⟩
  | cons a rest ih =>
    unfold trimToBudgetLoop
    split
    · rename_i hn
      refine ⟨0, Nat.zero_le _, by simpa using hl, ⟨[], by simp, rfl⟩, by simp, fun _ _ => rfl,
        by simp, Or.inl ?_⟩
      simp [hn, alignedSizeSum]
    · rename_i hn
      simp only
      rw [if_pos (hfence a (List.mem_cons_self _ _))]
      obtain ⟨w, hw, hwa, hwl, hwm, c, hc, hc0⟩ : ∃ w : WddmMemoryManager,
          w = (if (mm.allocations a).residencyData.lastFence > mm.monitoredFence.cpuValue then
            mm.waitFromCpu (mm.allocations a).residencyData.lastFence else mm) ∧
          w.allocations = mm.allocations ∧ w.trimCandidateList = mm.trimCandidateList ∧
          w.monitoredFence.lastSubmittedFence = mm.monitoredFence.lastSubmittedFence ∧
          ∃ c, w.calls = mm.calls ++ c ∧ evictedTargets c = [] := by
        refine ⟨_, rfl, ?_⟩
        split
        · exact ⟨rfl, rfl, rfl, [DriverCall.waitFromCpu _], rfl, rfl⟩
        · exact ⟨rfl, rfl, rfl, [], by simp, rfl⟩
      rw [← hw]
      have hev : evictHead w a =
          (w.evict [EvictTarget.allocation a], (w.allocations a).alignedSize) := by
        unfold evictHead
        rw [hwa, hunfrag a (List.mem_cons_self _ _)]
        simp
      rw [hev]
      simp only
      have hnd := List.nodup_cons.1 hnodup
      have hne : ∀ b ∈ rest, b ≠ a := fun b hb hba => hnd.1 (hba ▸ hb)
      have halloc : ∀ b, b ≠ a →
          (((w.evict [EvictTarget.allocation a]).setResident a false).removeFromTrimCandidateList
            a).allocations b = mm.allocations b := by
        intro b hb
        show (if b = a then _ else w.allocations b) = _
        rw [if_neg hb, hwa]
      have hshape : SameShape mm
          (((w.evict [EvictTarget.allocation a]).setResident a false).removeFromTrimCandidateList
            a) := by
        have h0 : SameShape mm w := by
          rw [hw]
          split
          · exact sameShape_waitFromCpu mm _
          · exact SameShape.same mm
        exact ((h0.andThen (sameShape_evict w _)).andThen (sameShape_setResident _ a false)).andThen
          (sameShape_removeFromTrimCandidateList _ a)
      obtain ⟨k, hk, hlist, ⟨new, hnew, htargets⟩, hres, hframe, hmin, hreach⟩ := ih
        (((w.evict [EvictTarget.allocation a]).setResident a false).removeFromTrimCandidateList a)
        (if (w.allocations a).alignedSize ≥ n then 0 else n - (w.allocations a).alignedSize)
        (by
          show (w.trimCandidateList).erase a = rest
          rw [hwl, hl]
          simp)
        (fun b hb => by rw [halloc b (hne b hb)]; exact hunfrag b (List.mem_cons_of_mem _ hb))
        (fun b hb => by
          rw [halloc b (hne b hb)]
          show _ ≤ w.monitoredFence.lastSubmittedFence
          rw [hwm]
          exact hfence b (List.mem_cons_of_mem _ hb))
        hnd.2
      refine ⟨k + 1, by simpa using hk, by simpa using hlist, ⟨c ++ [DriverCall.evict
        [EvictTarget.allocation a]] ++ new, ?_, ?_⟩, ?_, ?_, ?_, ?_⟩
      · rw [hnew]
        show (w.calls ++ [DriverCall.evict [EvictTarget.allocation a]]) ++ new = _
        rw [hc]
        simp only [List.append_assoc]
      · rw [evictedTargets_append, evictedTargets_append, hc0, htargets]
        simp [evictedTargets]
      · intro b hb
        simp only [List.take_succ_cons, List.mem_cons] at hb
        by_cases hbm : b ∈ rest.take k
        · exact hres b hbm
        · have hba : b = a := by
            rcases hb with h | h
            · exact h
            · exact absurd h hbm
          rw [hframe b hbm, hba]
          show (if a = a then _ else w.allocations a).residencyData.resident = false
          rw [if_pos rfl]
      · intro b hb
        simp only [List.take_succ_cons, List.mem_cons, not_or] at hb
        rw [hframe b hb.2, halloc b hb.1]
      · intro j hj
        cases j with
        | zero =>
          simp only [List.take_zero, alignedSizeSum, List.map_nil, List.sum_nil]
          omega
        | succ j =>
          have h1 := hmin j (by omega)
          rw [alignedSizeSum_congr mm _ hshape] at h1
          simp only [List.take_succ_cons, alignedSizeSum, List.map_cons, List.sum_cons] at h1 ⊢
          rw [hwa] at h1
          split at h1 <;> omega
      · rcases hreach with h1 | h1
        · left
          rw [alignedSizeSum_congr mm _ hshape] at h1
          simp only [List.take_succ_cons, alignedSizeSum, List.map_cons, List.sum_cons] at h1 ⊢
          rw [hwa] at h1
          split at h1 <;> omega
        · right
          simp [h1]

/-- C10: on a trim list of pairwise different unfragmented allocations whose
fences are all at most the last submitted fence, `trimResidencyToBudget(bytes)`
with `bytes > 0` evicts, marks non-resident and takes off the list exactly the
first `k` allocations, where `k` is the length of the shortest prefix whose
aligned sizes add up to at least `bytes` (the whole list when no prefix does);
the allocations behind that prefix stay on the list in their order, unchanged. -/
theorem trimResidencyToBudget_evicts_shortest_initial_segment (mm : WddmMemoryManager) (bytes : Nat)
    (hbytes : 0 < bytes)
    (hunfrag : ∀ a ∈ mm.trimCandidateList, (mm.allocations a).fragments = [])
    (hfence : ∀ a ∈ mm.trimCandidateList,
      (mm.allocations a).residencyData.lastFence ≤ mm.monitoredFence.lastSubmittedFence)
    (hnodup : mm.trimCandidateList.Nodup) :
    ∃ k, k ≤ mm.trimCandidateList.length ∧
      (∀ j, j < k → alignedSizeSum mm (mm.trimCandidateList.take j) < bytes) ∧
      (bytes ≤ alignedSizeSum mm (mm.trimCandidateList.take k) ∨
        k = mm.trimCandidateList.length) ∧
      (mm.trimResidencyToBudget bytes).2.trimCandidateList = mm.trimCandidateList.drop k ∧
      (∃ newCalls, (mm.trimResidencyToBudget bytes).2.calls = mm.calls ++ newCalls ∧
        evictedTargets newCalls = (mm.trimCandidateList.take k).map EvictTarget.allocation) ∧
      (∀ a ∈ mm.trimCandidateList.take k,
        ((mm.trimResidencyToBudget bytes).2.allocations a).residencyData.resident = false) ∧
      (∀ a ∈ mm.trimCandidateList.drop k,
        (mm.trimResidencyToBudget bytes).2.allocations a = mm.allocations a) ∧
      ((mm.trimCandidateList ≠ [] → 0 < k)) := by
  obtain ⟨k, hk, hlist, hcalls, hres, hframe, hmin, hreach⟩ :=
    trimToBudgetLoop_unfragmented mm.trimCandidateList mm bytes rfl hunfrag hfence hnodup
  refine ⟨k, hk, hmin, hreach, hlist, hcalls, hres, ?_, ?_⟩
  · intro a ha
    apply hframe a
    intro hmem
    have hnd : (mm.trimCandidateList.take k ++ mm.trimCandidateList.drop k).Nodup := by
      rw [List.take_append_drop]; exact hnodup
    exact (List.nodup_append.1 hnd).2.2 hmem ha
  · intro hne
    rcases hreach with h | h
    · rcases Nat.eq_zero_or_pos k with hz | hp
      · rw [hz] at h
        simp [alignedSizeSum] at h
        omega
      · exact hp
    · rw [h]
      exact List.length_pos.2 hne

/-- Instance of C10: 25 bytes requested with the allocations 1, 2, 3 (aligned
sizes 10, 20, 30) on the trim list. -/
theorem trimResidencyToBudget_evicts_shortest_initial_segment_witness :
    (0 < 25 ∧
      (∀ a ∈ exampleManagerThree.trimCandidateList,
        (exampleManagerThree.allocations a).fragments = []) ∧
      (∀ a ∈ exampleManagerThree.trimCandidateList,
        (exampleManagerThree.allocations a).residencyData.lastFence ≤
          exampleManagerThree.monitoredFence.lastSubmittedFence) ∧
      exampleManagerThree.trimCandidateList.Nodup) ∧
    ∃ k, k ≤ exampleManagerThree.trimCandidateList.length ∧
      (∀ j, j < k → alignedSizeSum exampleManagerThree
        (exampleManagerThree.trimCandidateList.take j) < 25) ∧
      (25 ≤ alignedSizeSum exampleManagerThree (exampleManagerThree.trimCandidateList.take k) ∨
        k = exampleManagerThree.trimCandidateList.length) ∧
      (exampleManagerThree.trimResidencyToBudget 25).2.trimCandidateList =
        exampleManagerThree.trimCandidateList.drop k ∧
      (∃ newCalls, (exampleManagerThree.trimResidencyToBudget 25).2.calls =
          exampleManagerThree.calls ++ newCalls ∧
        evictedTargets newCalls =
          (exampleManagerThree.trimCandidateList.take k).map EvictTarget.allocation) ∧
      (∀ a ∈ exampleManagerThree.trimCandidateList.take k,
        ((exampleManagerThree.trimResidencyToBudget 25).2.allocations a).residencyData.resident
          = false) ∧
      (∀ a ∈ exampleManagerThree.trimCandidateList.drop k,
        (exampleManagerThree.trimResidencyToBudget 25).2.allocations a =
          exampleManagerThree.allocations a) ∧
      ((exampleManagerThree.trimCandidateList ≠ [] → 0 < k)) :=
  have hunfrag : ∀ a ∈ exampleManagerThree.trimCandidateList,
      (exampleManagerThree.allocations a).fragments = [] := fun _ _ => rfl
  have hfence : ∀ a ∈ exampleManagerThree.trimCandidateList,
      (exampleManagerThree.allocations a).residencyData.lastFence ≤
        exampleManagerThree.monitoredFence.lastSubmittedFence := by
    intro a ha
    have h3 : a = 1 ∨ a = 2 ∨ a = 3 := by
      simpa [exampleManagerThree, exampleManager] using ha
    show a ≤ 4
    omega
  ⟨⟨by decide, hunfrag, hfence, by decide⟩,
    trimResidencyToBudget_evicts_shortest_initial_segment exampleManagerThree 25 (by decide)
      hunfrag hfence (by decide)⟩

/-! ## The passes of `trimResidencyToBudget` and what stops them -/

theorem fragmentsToEvict_mem (mm : WddmMemoryManager) (a : Nat) (fs : List FragmentStorage) :
    ∀ t ∈ fragmentsToEvict mm a fs, ∃ f ∈ fs, t = EvictTarget.fragment a f ∧
      (mm.fragmentResidency f.residency).lastFence ≤ mm.monitoredFence.lastSubmittedFence := by
  induction fs with
  | nil => intro t ht; simp [fragmentsToEvict] at ht
  | cons f fs ih =>
    intro t ht
    unfold fragmentsToEvict at ht
    split at ht
    · rename_i hle
      rcases List.mem_cons.1 ht with h | h
      · exact ⟨f, List.mem_cons_self _ _, h, hle⟩
      · obtain ⟨g, hg, hgt, hgle⟩ := ih t h
        exact ⟨g, List.mem_cons_of_mem _ hg, hgt, hgle⟩
    · obtain ⟨g, hg, hgt, hgle⟩ := ih t ht
      exact ⟨g, List.mem_cons_of_mem _ hg, hgt, hgle⟩

/-- The calls of one eviction, spelled out. -/
theorem evictHead_calls (mm : WddmMemoryManager) (a : Nat) :
    (evictHead mm a).1.calls = mm.calls ++ headEvictCalls mm a := by
  unfold evictHead headEvictCalls
  split
  · rfl
  · split
    · obtain ⟨_, h2, _⟩ := markFragmentsEvicted_spec a (mm.allocations a).fragments
        (mm.evict (fragmentsToEvict mm a (mm.allocations a).fragments)) 0
      rw [h2]
      rfl
    · simp

theorem headEvictCalls_congr (mm mm' : WddmMemoryManager) (h : SameShape mm mm') (a : Nat) :
    headEvictCalls mm' a = headEvictCalls mm a := by
  unfold headEvictCalls
  rw [h.fragments a, fragmentsToEvict_congr mm mm' a _ h]

theorem TrimPass.faithful_congr (mm mm' : WddmMemoryManager) (h : SameShape mm mm')
    (p : TrimPass) (hp : p.Faithful mm') : p.Faithful mm := by
  obtain ⟨h1, h2, h3⟩ := hp
  refine ⟨?_, ?_, ?_⟩
  · rw [h1, h.lastFence]
  · rw [← h.lastSubmittedFence]; exact h2
  · rw [h3, headEvictCalls_congr mm mm' h]

/-- The state after the wait of lines 670-672. -/
theorem waited_spec (mm : WddmMemoryManager) (v : Nat) :
    (if v > mm.monitoredFence.cpuValue then mm.waitFromCpu v else mm).calls =
        mm.calls ++ (if v > mm.monitoredFence.cpuValue then [DriverCall.waitFromCpu v] else []) ∧
      (if v > mm.monitoredFence.cpuValue then mm.waitFromCpu v else mm).allocations =
        mm.allocations ∧
      (if v > mm.monitoredFence.cpuValue then mm.waitFromCpu v else mm).fragmentResidency =
        mm.fragmentResidency ∧
      (if v > mm.monitoredFence.cpuValue then mm.waitFromCpu v else mm).trimCandidateList =
        mm.trimCandidateList ∧
      (if v > mm.monitoredFence.cpuValue then mm.waitFromCpu v else mm).lastTrimFenceValue =
        mm.lastTrimFenceValue ∧
      (if v > mm.monitoredFence.cpuValue then
          mm.waitFromCpu v else mm).monitoredFence.currentFenceValue =
        mm.monitoredFence.currentFenceValue ∧
      SameShape mm (if v > mm.monitoredFence.cpuValue then mm.waitFromCpu v else mm) := by
  split
  · exact ⟨rfl, rfl, rfl, rfl, rfl, rfl, sameShape_waitFromCpu mm v⟩
  · exact ⟨by simp, rfl, rfl, rfl, rfl, rfl, SameShape.same mm⟩

/-- The state a pass of the loop hands to the next one. -/
theorem trimPass_next (mm : WddmMemoryManager) (a : Nat) :
    SameShape mm
        (((evictHead (if (mm.allocations a).residencyData.lastFence > mm.monitoredFence.cpuValue
            then mm.waitFromCpu (mm.allocations a).residencyData.lastFence else mm)
          a).1.setResident a false).removeFromTrimCandidateList a) ∧
      (((evictHead (if (mm.allocations a).residencyData.lastFence > mm.monitoredFence.cpuValue
            then mm.waitFromCpu (mm.allocations a).residencyData.lastFence else mm)
          a).1.setResident a false).removeFromTrimCandidateList a).calls =
        mm.calls ++
          ((if (mm.allocations a).residencyData.lastFence > mm.monitoredFence.cpuValue then
              [DriverCall.waitFromCpu (mm.allocations a).residencyData.lastFence] else []) ++
            headEvictCalls mm a) ∧
      (((evictHead (if (mm.allocations a).residencyData.lastFence > mm.monitoredFence.cpuValue
            then mm.waitFromCpu (mm.allocations a).residencyData.lastFence else mm)
          a).1.setResident a false).removeFromTrimCandidateList a).trimCandidateList =
        mm.trimCandidateList.erase a ∧
      (∀ b, b ≠ a →
        (((evictHead (if (mm.allocations a).residencyData.lastFence > mm.monitoredFence.cpuValue
            then mm.waitFromCpu (mm.allocations a).residencyData.lastFence else mm)
          a).1.setResident a false).removeFromTrimCandidateList a).allocations b =
          mm.allocations b) := by
  obtain ⟨hwc, hwa, _, hwl, _, _, hws⟩ :=
    waited_spec mm (mm.allocations a).residencyData.lastFence
  obtain ⟨_, _, _, hea, hel, _, hes⟩ := evictHead_spec
    (if (mm.allocations a).residencyData.lastFence > mm.monitoredFence.cpuValue
      then mm.waitFromCpu (mm.allocations a).residencyData.lastFence else mm) a
  refine ⟨?_, ?_, ?_, ?_⟩
  · exact ((hws.andThen hes).andThen (sameShape_setResident _ a false)).andThen
      (sameShape_removeFromTrimCandidateList _ a)
  · show (evictHead _ a).1.calls = _
    rw [evictHead_calls, hwc, headEvictCalls_congr mm _ hws, List.append_assoc]
  · show ((evictHead _ a).1.trimCandidateList).erase a = _
    rw [hel, hwl]
  · intro b hb
    show (if b = a then _ else (evictHead _ a).1.allocations b) = _
    rw [if_neg hb, hea, hwa]

/-- The log the loop leaves is the log it found followed by the calls of its
passes, and every pass is faithful to lines 662-696. -/
theorem trimToBudgetPasses_spec (l : List Nat) (mm : WddmMemoryManager) (n : Nat) :
    (trimToBudgetLoop l mm n).1.calls =
        mm.calls ++ ((trimToBudgetPasses l mm n).map TrimPass.calls).flatten ∧
      ∀ p ∈ trimToBudgetPasses l mm n,
        p.Faithful mm ∧ mm.monitoredFence.cpuValue ≤ p.completedRead := by
  induction l generalizing mm n with
  | nil => exact ⟨by simp [trimToBudgetLoop, trimToBudgetPasses], by simp [trimToBudgetPasses]⟩
  | cons a rest ih =>
    unfold trimToBudgetLoop trimToBudgetPasses
    split
    · exact ⟨by simp, by simp⟩
    · simp only
      split
      · rename_i hle
        obtain ⟨hshape, hcalls, _, _⟩ := trimPass_next mm a
        obtain ⟨ih1, ih2⟩ := ih
          (((evictHead (if (mm.allocations a).residencyData.lastFence > mm.monitoredFence.cpuValue
              then mm.waitFromCpu (mm.allocations a).residencyData.lastFence else mm)
            a).1.setResident a false).removeFromTrimCandidateList a)
          (if (evictHead (if (mm.allocations a).residencyData.lastFence >
                mm.monitoredFence.cpuValue
              then mm.waitFromCpu (mm.allocations a).residencyData.lastFence else mm) a).2 ≥ n
            then 0
            else n - (evictHead (if (mm.allocations a).residencyData.lastFence >
                mm.monitoredFence.cpuValue
              then mm.waitFromCpu (mm.allocations a).residencyData.lastFence else mm) a).2)
        have hdrop : (evictHead (if (mm.allocations a).residencyData.lastFence >
              mm.monitoredFence.cpuValue
            then mm.waitFromCpu (mm.allocations a).residencyData.lastFence else mm)
            a).1.calls.drop mm.calls.length =
            (if (mm.allocations a).residencyData.lastFence > mm.monitoredFence.cpuValue then
              [DriverCall.waitFromCpu (mm.allocations a).residencyData.lastFence] else []) ++
            headEvictCalls mm a := by
          have hc : (evictHead (if (mm.allocations a).residencyData.lastFence >
              mm.monitoredFence.cpuValue
            then mm.waitFromCpu (mm.allocations a).residencyData.lastFence else mm) a).1.calls =
              mm.calls ++
              ((if (mm.allocations a).residencyData.lastFence > mm.monitoredFence.cpuValue then
                [DriverCall.waitFromCpu (mm.allocations a).residencyData.lastFence] else []) ++
              headEvictCalls mm a) := hcalls
          rw [hc, List.drop_left]
        have hcpu : mm.monitoredFence.cpuValue ≤
            (((evictHead (if (mm.allocations a).residencyData.lastFence >
                mm.monitoredFence.cpuValue
              then mm.waitFromCpu (mm.allocations a).residencyData.lastFence else mm)
            a).1.setResident a false).removeFromTrimCandidateList a).monitoredFence.cpuValue := by
          obtain ⟨_, _, _, _, _, hm, _⟩ := evictHead_spec
            (if (mm.allocations a).residencyData.lastFence > mm.monitoredFence.cpuValue
              then mm.waitFromCpu (mm.allocations a).residencyData.lastFence else mm) a
          show _ ≤ (evictHead _ a).1.monitoredFence.cpuValue
          rw [hm]
          split
          · exact Nat.le_max_left _ _
          · exact Nat.le_refl _
        refine ⟨?_, ?_⟩
        · rw [ih1, hcalls]
          simp only [List.map_cons, List.flatten_cons, hdrop, List.append_assoc]
        · intro p hp
          rcases List.mem_cons.1 hp with h | h
          · subst h
            exact ⟨⟨rfl, hle, hdrop⟩, Nat.le_refl _⟩
          · exact ⟨TrimPass.faithful_congr mm _ hshape p (ih2 p h).1,
              Nat.le_trans hcpu (ih2 p h).2⟩
      · exact ⟨by simp, by simp⟩

/-- C11: the log `trimResidencyToBudget` leaves is the log it found followed by
the calls of its passes, pass after pass; and in every pass that passes the
handle of an unfragmented allocation `a` to `evict`, the fence read is the
fence of `a`, and when it is above the completed value read in that pass the
calls of the pass are exactly `waitFromCpu` for that fence value followed by
the `evict` call, so that the wait comes right before the `evict`. -/
theorem trimResidencyToBudget_waits_before_evict (mm : WddmMemoryManager) (bytes : Nat) :
    (mm.trimResidencyToBudget bytes).2.calls =
        mm.calls ++
          ((trimToBudgetPasses mm.trimCandidateList mm bytes).map TrimPass.calls).flatten ∧
      ∀ p ∈ trimToBudgetPasses mm.trimCandidateList mm bytes, ∀ a,
        DriverCall.evict [EvictTarget.allocation a] ∈ p.calls →
          p.allocation = a ∧ (mm.allocations a).fragments = [] ∧
          p.lastFence = (mm.allocations a).residencyData.lastFence ∧
          (p.completedRead < p.lastFence →
            p.calls = [DriverCall.waitFromCpu (mm.allocations a).residencyData.lastFence,
              DriverCall.evict [EvictTarget.allocation a]]) ∧
          (p.lastFence ≤ p.completedRead →
            p.calls = [DriverCall.evict [EvictTarget.allocation a]]) := by
  obtain ⟨hcalls, hpass⟩ := trimToBudgetPasses_spec mm.trimCandidateList mm bytes
  refine ⟨hcalls, ?_⟩
  intro p hp a ha
  obtain ⟨⟨hfence, _, hpc⟩, _⟩ := hpass p hp
  have hhead : DriverCall.evict [EvictTarget.allocation a] ∈ headEvictCalls mm p.allocation := by
    rw [hpc] at ha
    rcases List.mem_append.1 ha with h | h
    · split at h <;> simp at h
    · exact h
  have hunfrag : (mm.allocations p.allocation).fragments.length = 0 ∧ p.allocation = a := by
    unfold headEvictCalls at hhead
    split at hhead
    · rename_i h0
      refine ⟨h0, ?_⟩
      have : a = p.allocation := by simpa using hhead
      exact this.symm
    · split at hhead
      · have heq : [EvictTarget.allocation a] =
            fragmentsToEvict mm p.allocation (mm.allocations p.allocation).fragments := by
          simpa using hhead
        have hmem : EvictTarget.allocation a ∈
            fragmentsToEvict mm p.allocation (mm.allocations p.allocation).fragments := by
          rw [← heq]; exact List.mem_cons_self _ _
        obtain ⟨f, _, hf, _⟩ := fragmentsToEvict_mem mm p.allocation _ _ hmem
        cases hf
      · simp at hhead
  obtain ⟨h0, hpa⟩ := hunfrag
  subst hpa
  have hcalls' : headEvictCalls mm p.allocation =
      [DriverCall.evict [EvictTarget.allocation p.allocation]] := by
    unfold headEvictCalls
    rw [if_pos h0]
  refine ⟨rfl, List.length_eq_zero.1 h0, hfence, ?_, ?_⟩
  · intro hlt
    rw [hpc, hcalls', if_pos hlt, hfence]
    rfl
  · intro hle
    rw [hpc, hcalls', if_neg (Nat.not_lt.2 hle)]
    rfl

/-- Instance of C11: with the allocations 1 to 5 on the trim list and fence 2
completed, the pass for allocation 3 (fence 3) waits for fence 3 and then
evicts. -/
theorem trimResidencyToBudget_waits_before_evict_witness :
    ({ allocation := 3, lastFence := 3, completedRead := 2
       calls := [DriverCall.waitFromCpu 3, DriverCall.evict [EvictTarget.allocation 3]] } : TrimPass)
        ∈ trimToBudgetPasses exampleManager.trimCandidateList exampleManager 1000 ∧
      DriverCall.evict [EvictTarget.allocation 3] ∈
        [DriverCall.waitFromCpu 3, DriverCall.evict [EvictTarget.allocation 3]] ∧
      (2 < 3 →
        [DriverCall.waitFromCpu 3, DriverCall.evict [EvictTarget.allocation 3]] =
          [DriverCall.waitFromCpu (exampleManager.allocations 3).residencyData.lastFence,
            DriverCall.evict [EvictTarget.allocation 3]]) :=
  ⟨by decide, by decide,
    ((trimResidencyToBudget_waits_before_evict exampleManager 1000).2
      { allocation := 3, lastFence := 3, completedRead := 2
        calls := [DriverCall.waitFromCpu 3, DriverCall.evict [EvictTarget.allocation 3]] }
      (by decide) 3 (by decide)).2.2.2.1⟩

theorem NoneMadeResident.unchanged (mm : WddmMemoryManager) : NoneMadeResident mm mm :=
  ⟨fun _ => rfl, fun _ h => h, fun _ => rfl, fun _ h => h⟩

theorem NoneMadeResident.next {m₁ m₂ m₃ : WddmMemoryManager} (h₁ : NoneMadeResident m₁ m₂)
    (h₂ : NoneMadeResident m₂ m₃) : NoneMadeResident m₁ m₃ :=
  ⟨fun a => (h₂.allocationFence a).trans (h₁.allocationFence a),
   fun a h => h₁.allocationFlag a (h₂.allocationFlag a h),
   fun r => (h₂.fragmentFence r).trans (h₁.fragmentFence r),
   fun r h => h₁.fragmentFlag r (h₂.fragmentFlag r h)⟩

theorem noneMadeResident_setResident (mm : WddmMemoryManager) (a : Nat) :
    NoneMadeResident mm (mm.setResident a false) := by
  refine ⟨?_, ?_, fun _ => rfl, fun _ h => h⟩
  · intro b
    simp only [WddmMemoryManager.setResident]
    split <;> rfl
  · intro b
    simp only [WddmMemoryManager.setResident]
    split
    · intro h; simp at h
    · exact fun h => h

theorem noneMadeResident_setFragmentResident (mm : WddmMemoryManager) (r : Nat) :
    NoneMadeResident mm (mm.setFragmentResident r false) := by
  refine ⟨fun _ => rfl, fun _ h => h, ?_, ?_⟩
  · intro b
    simp only [WddmMemoryManager.setFragmentResident]
    split <;> rfl
  · intro b
    simp only [WddmMemoryManager.setFragmentResident]
    split
    · intro h; simp at h
    · exact fun h => h

/-- The marking loop of the periodic trim. -/
theorem periodicFragments_spec (a : Nat) (fs : List FragmentStorage) (mm : WddmMemoryManager)
    (acc : List EvictTarget) :
    (∃ new, (periodicFragments a fs mm acc).2 = acc ++ new ∧
      ∀ t ∈ new, t.allocationOf = a ∧ t.notUsedSince mm mm.lastTrimFenceValue) ∧
    (periodicFragments a fs mm acc).1.calls = mm.calls ∧
    (periodicFragments a fs mm acc).1.allocations = mm.allocations ∧
    (periodicFragments a fs mm acc).1.trimCandidateList = mm.trimCandidateList ∧
    (periodicFragments a fs mm acc).1.monitoredFence = mm.monitoredFence ∧
    (periodicFragments a fs mm acc).1.lastTrimFenceValue = mm.lastTrimFenceValue ∧
    SameShape mm (periodicFragments a fs mm acc).1 ∧
    NoneMadeResident mm (periodicFragments a fs mm acc).1 ∧
    (∀ r, mm.lastTrimFenceValue < (mm.fragmentResidency r).lastFence →
      (periodicFragments a fs mm acc).1.fragmentResidency r = mm.fragmentResidency r) := by
  induction fs generalizing mm acc with
  | nil =>
    exact ⟨⟨[], by simp [periodicFragments], by simp⟩, rfl, rfl, rfl, rfl, rfl, SameShape.same mm,
      NoneMadeResident.unchanged mm, fun _ _ => rfl⟩
  | cons f fs ih =>
    unfold periodicFragments
    split
    · rename_i hle
      obtain ⟨⟨new, hnew, hold⟩, h2, h3, h4, h5, h6, h7, h8, h9⟩ :=
        ih (mm.setFragmentResident f.residency false) (acc ++ [EvictTarget.fragment a f])
      have hs := sameShape_setFragmentResident mm f.residency false
      refine ⟨⟨EvictTarget.fragment a f :: new, by rw [hnew]; simp, ?_⟩, h2, h3, h4, h5, h6,
        hs.andThen h7, (noneMadeResident_setFragmentResident mm f.residency).next h8, ?_⟩
      · intro t ht
        rcases List.mem_cons.1 ht with h | h
        · rw [h]
          exact ⟨rfl, hle⟩
        · obtain ⟨hta, htold⟩ := hold t h
          refine ⟨hta, ?_⟩
          cases t with
          | allocation b => exact htold
          | fragment b g =>
            show (mm.fragmentResidency g.residency).lastFence ≤ mm.lastTrimFenceValue
            have := hs.fragmentFence g.residency
            rw [← this]
            exact htold
      · intro r hr
        have hne : r ≠ f.residency := by
          intro h
          rw [h] at hr
          omega
        rw [h9 r (by
          show mm.lastTrimFenceValue < ((mm.setFragmentResident f.residency false).fragmentResidency
            r).lastFence
          rw [hs.fragmentFence]; exact hr)]
        show (if r = f.residency then _ else mm.fragmentResidency r) = _
        rw [if_neg hne]
    · exact ih mm acc

/-- One pass of the periodic loop. -/
theorem periodicEvict_spec (mm : WddmMemoryManager) (a : Nat)
    (hle : (mm.allocations a).residencyData.lastFence ≤ mm.lastTrimFenceValue) :
    (∃ new, (periodicEvict mm a).calls = mm.calls ++ new ∧
      ∀ t ∈ evictedTargets new, t.allocationOf = a ∧ t.notUsedSince mm mm.lastTrimFenceValue) ∧
    (periodicEvict mm a).trimCandidateList = mm.trimCandidateList.erase a ∧
    ((periodicEvict mm a).allocations a).residencyData.resident = false ∧
    (∀ b, b ≠ a → (periodicEvict mm a).allocations b = mm.allocations b) ∧
    (periodicEvict mm a).monitoredFence = mm.monitoredFence ∧
    (periodicEvict mm a).lastTrimFenceValue = mm.lastTrimFenceValue ∧
    SameShape mm (periodicEvict mm a) ∧
    NoneMadeResident mm (periodicEvict mm a) ∧
    (∀ r, mm.lastTrimFenceValue < (mm.fragmentResidency r).lastFence →
      (periodicEvict mm a).fragmentResidency r = mm.fragmentResidency r) := by
  obtain ⟨w, hw, hwc, hwa, hwl, hwm, hwt, hwf, hws⟩ : ∃ w : WddmMemoryManager,
      w = (if (mm.allocations a).fragments.length = 0 then
        mm.evict [EvictTarget.allocation a] else mm) ∧
      (∃ c, w.calls = mm.calls ++ c ∧
        ∀ t ∈ evictedTargets c, t.allocationOf = a ∧ t.notUsedSince mm mm.lastTrimFenceValue) ∧
      w.allocations = mm.allocations ∧ w.trimCandidateList = mm.trimCandidateList ∧
      w.monitoredFence = mm.monitoredFence ∧ w.lastTrimFenceValue = mm.lastTrimFenceValue ∧
      w.fragmentResidency = mm.fragmentResidency ∧ SameShape mm w := by
    refine ⟨_, rfl, ?_⟩
    split
    · rename_i h0
      refine ⟨⟨[DriverCall.evict [EvictTarget.allocation a]], rfl, ?_⟩, rfl, rfl, rfl, rfl, rfl,
        sameShape_evict mm _⟩
      intro t ht
      have : t = EvictTarget.allocation a := by simpa [evictedTargets] using ht
      rw [this]
      exact ⟨rfl, List.length_eq_zero.1 h0, hle⟩
    · exact ⟨⟨[], by simp, by simp [evictedTargets]⟩, rfl, rfl, rfl, rfl, rfl, SameShape.same mm⟩
  obtain ⟨c, hc, hcold⟩ := hwc
  have hnm : NoneMadeResident mm w :=
    ⟨fun b => by rw [hwa], fun b h => by rw [hwa] at h; exact h,
      fun r => by rw [hwf], fun r h => by rw [hwf] at h; exact h⟩
  unfold periodicEvict
  simp only
  rw [← hw, ← hwa]
  obtain ⟨⟨new, hnew, hold⟩, h2, h3, h4, h5, h6, h7, h8, h9⟩ :=
    periodicFragments_spec a (w.allocations a).fragments w []
  simp only [List.nil_append] at hnew
  have hold' : ∀ t ∈ new, t.allocationOf = a ∧ t.notUsedSince mm mm.lastTrimFenceValue := by
    intro t ht
    obtain ⟨h1, h2'⟩ := hold t ht
    refine ⟨h1, ?_⟩
    cases t with
    | allocation b =>
      have h2'' : (w.allocations b).fragments = [] ∧
          (w.allocations b).residencyData.lastFence ≤ w.lastTrimFenceValue := h2'
      rw [hwa, hwt] at h2''
      exact h2''
    | fragment b g =>
      have h2'' : (w.fragmentResidency g.residency).lastFence ≤ w.lastTrimFenceValue := h2'
      rw [hwf, hwt] at h2''
      exact h2''
  obtain ⟨e, he, hec, hea, hel, hem, het, hef, hes, hen⟩ : ∃ e : WddmMemoryManager,
      e = (if (periodicFragments a (w.allocations a).fragments w []).2.length ≠ 0 then
        (periodicFragments a (w.allocations a).fragments w []).1.evict
          (periodicFragments a (w.allocations a).fragments w []).2
        else (periodicFragments a (w.allocations a).fragments w []).1) ∧
      (∃ c', e.calls = w.calls ++ c' ∧ ∀ t ∈ evictedTargets c', t ∈ new) ∧
      e.allocations = w.allocations ∧ e.trimCandidateList = w.trimCandidateList ∧
      e.monitoredFence = w.monitoredFence ∧ e.lastTrimFenceValue = w.lastTrimFenceValue ∧
      e.fragmentResidency =
        (periodicFragments a (w.allocations a).fragments w []).1.fragmentResidency ∧
      SameShape w e ∧ NoneMadeResident w e := by
    refine ⟨_, rfl, ?_⟩
    split
    · refine ⟨⟨[DriverCall.evict new], ?_, ?_⟩, h3, h4, h5, h6, rfl,
        h7.andThen (sameShape_evict _ _), ?_⟩
      · show (periodicFragments a (w.allocations a).fragments w []).1.calls ++ _ = _
        rw [h2, hnew]
      · intro t ht
        simpa [evictedTargets] using ht
      · exact ⟨h8.allocationFence, h8.allocationFlag, h8.fragmentFence, h8.fragmentFlag⟩
    · exact ⟨⟨[], by rw [h2]; simp, by simp [evictedTargets]⟩, h3, h4, h5, h6, rfl, h7, h8⟩
  rw [← he]
  obtain ⟨c', hc', hc'new⟩ := hec
  refine ⟨⟨c ++ c', ?_, ?_⟩, ?_, ?_, ?_, ?_, ?_, ?_, ?_, ?_⟩
  · show e.calls = _
    rw [hc', hc, List.append_assoc]
  · intro t ht
    rw [evictedTargets_append] at ht
    rcases List.mem_append.1 ht with h | h
    · exact hcold t h
    · exact hold' t (hc'new t h)
  · show (e.trimCandidateList).erase a = _
    rw [hel, hwl]
  · show (if a = a then _ else e.allocations a).residencyData.resident = false
    rw [if_pos rfl]
  · intro b hb
    show (if b = a then _ else e.allocations b) = _
    rw [if_neg hb, hea, hwa]
  · show e.monitoredFence = _
    rw [hem, hwm]
  · show e.lastTrimFenceValue = _
    rw [het, hwt]
  · exact ((hws.andThen hes).andThen (sameShape_setResident _ a false)).andThen
      (sameShape_removeFromTrimCandidateList _ a)
  · refine ((hnm.next hen).next (noneMadeResident_setResident e a)).next ?_
    exact ⟨fun _ => rfl, fun _ h => h, fun _ => rfl, fun _ h => h⟩
  · intro r hr
    show e.fragmentResidency r = _
    rw [hef, h9 r (by rw [hwt, hwf]; exact hr), hwf]

theorem notUsedSinceLastTrim_congr (mm mm' : WddmMemoryManager) (h : SameShape mm mm')
    (ht : mm'.lastTrimFenceValue = mm.lastTrimFenceValue) :
    mm'.notUsedSinceLastTrim = mm.notUsedSinceLastTrim := by
  funext a
  unfold WddmMemoryManager.notUsedSinceLastTrim
  rw [h.lastFence, ht]

/-- The periodic loop takes the leading entries not used since the last
periodic trim off the list and leaves the rest alone. -/
theorem periodicTrimLoop_spec (l : List Nat) (mm : WddmMemoryManager)
    (hl : mm.trimCandidateList = l) :
    (periodicTrimLoop l mm).trimCandidateList = l.dropWhile mm.notUsedSinceLastTrim ∧
    (∃ new, (periodicTrimLoop l mm).calls = mm.calls ++ new ∧
      ∀ t ∈ evictedTargets new, t.allocationOf ∈ l.takeWhile mm.notUsedSinceLastTrim ∧
        t.notUsedSince mm mm.lastTrimFenceValue) ∧
    (∀ a ∈ l.takeWhile mm.notUsedSinceLastTrim,
      ((periodicTrimLoop l mm).allocations a).residencyData.resident = false) ∧
    (∀ a, a ∉ l.takeWhile mm.notUsedSinceLastTrim →
      (periodicTrimLoop l mm).allocations a = mm.allocations a) ∧
    (periodicTrimLoop l mm).monitoredFence = mm.monitoredFence ∧
    (periodicTrimLoop l mm).lastTrimFenceValue = mm.lastTrimFenceValue ∧
    SameShape mm (periodicTrimLoop l mm) ∧
    NoneMadeResident mm (periodicTrimLoop l mm) ∧
    (∀ r, mm.lastTrimFenceValue < (mm.fragmentResidency r).lastFence →
      (periodicTrimLoop l mm).fragmentResidency r = mm.fragmentResidency r) := by
  induction l generalizing mm with
  | nil =>
    exact ⟨by simpa [periodicTrimLoop] using hl, ⟨[], by simp [periodicTrimLoop],
      by simp [evictedTargets]⟩, by simp, fun _ _ => rfl, rfl, rfl, SameShape.same mm,
      NoneMadeResident.unchanged mm, fun _ _ => rfl⟩
  | cons a rest ih =>
    unfold periodicTrimLoop
    split
    · rename_i hle
      have hp : mm.notUsedSinceLastTrim a = true := by
        unfold WddmMemoryManager.notUsedSinceLastTrim
        exact decide_eq_true hle
      obtain ⟨⟨c, hc, hcold⟩, hlist, hres, hframe, hm, ht, hs, hn, hfr⟩ :=
        periodicEvict_spec mm a hle
      have hpred := notUsedSinceLastTrim_congr mm (periodicEvict mm a) hs ht
      obtain ⟨i1, ⟨new, hnew, hold⟩, i3, i4, i5, i6, i7, i8, i9⟩ :=
        ih (periodicEvict mm a) (by rw [hlist, hl]; simp)
      rw [hpred] at i1 hold i3 i4
      simp only [List.dropWhile_cons, List.takeWhile_cons, hp, if_true]
      refine ⟨i1, ⟨c ++ new, by rw [hnew, hc, List.append_assoc], ?_⟩, ?_, ?_,
        i5.trans hm, i6.trans ht, hs.andThen i7, hn.next i8, ?_⟩
      · intro t htm
        rw [evictedTargets_append] at htm
        rcases List.mem_append.1 htm with h | h
        · exact ⟨by rw [(hcold t h).1]; exact List.mem_cons_self _ _, (hcold t h).2⟩
        · obtain ⟨h1, h2⟩ := hold t h
          refine ⟨List.mem_cons_of_mem _ h1, ?_⟩
          cases t with
          | allocation b =>
            have h2' : ((periodicEvict mm a).allocations b).fragments = [] ∧
              ((periodicEvict mm a).allocations b).residencyData.lastFence ≤
                (periodicEvict mm a).lastTrimFenceValue := h2
            rw [hs.fragments, hs.lastFence, ht] at h2'
            exact h2'
          | fragment b g =>
            have h2' : ((periodicEvict mm a).fragmentResidency g.residency).lastFence ≤
                (periodicEvict mm a).lastTrimFenceValue := h2
            rw [hs.fragmentFence, ht] at h2'
            exact h2'
      · intro b hb
        by_cases hbm : b ∈ rest.takeWhile mm.notUsedSinceLastTrim
        · exact i3 b hbm
        · have hba : b = a := by
            rcases List.mem_cons.1 hb with h | h
            · exact h
            · exact absurd h hbm
          rw [i4 b hbm, hba]
          exact hres
      · intro b hb
        simp only [List.mem_cons, not_or] at hb
        rw [i4 b hb.2, hframe b hb.1]
      · intro r hr
        rw [i9 r (by rw [ht, hs.fragmentFence]; exact hr), hfr r hr]
    · rename_i hgt
      have hp : mm.notUsedSinceLastTrim a = false := by
        unfold WddmMemoryManager.notUsedSinceLastTrim
        exact decide_eq_false hgt
      have hdw : (a :: rest).dropWhile mm.notUsedSinceLastTrim = a :: rest := by
        simp [List.dropWhile_cons, hp]
      have htw : (a :: rest).takeWhile mm.notUsedSinceLastTrim = [] := by
        simp [List.takeWhile_cons, hp]
      rw [hdw, htw]
      exact ⟨hl, ⟨[], by simp, by simp [evictedTargets]⟩, by simp,
        fun _ _ => rfl, rfl, rfl, SameShape.same mm, NoneMadeResident.unchanged mm, fun _ _ => rfl⟩

/-- The marking loop of `trimResidencyToBudget` makes nothing resident. -/
theorem markFragmentsEvicted_noneMadeResident (fs : List FragmentStorage)
    (mm : WddmMemoryManager) (s : Nat) :
    NoneMadeResident mm (markFragmentsEvicted fs mm s).1 := by
  induction fs generalizing mm s with
  | nil => exact NoneMadeResident.unchanged mm
  | cons f fs ih =>
    unfold markFragmentsEvicted
    split
    · exact (noneMadeResident_setFragmentResident mm f.residency).next (ih _ _)
    · exact ih mm s

theorem markFragmentsEvicted_lastTrimFenceValue (fs : List FragmentStorage)
    (mm : WddmMemoryManager) (s : Nat) :
    (markFragmentsEvicted fs mm s).1.lastTrimFenceValue = mm.lastTrimFenceValue := by
  induction fs generalizing mm s with
  | nil => rfl
  | cons f fs ih =>
    unfold markFragmentsEvicted
    split
    · rw [ih]; rfl
    · exact ih mm s

theorem evictHead_lastTrimFenceValue (mm : WddmMemoryManager) (a : Nat) :
    (evictHead mm a).1.lastTrimFenceValue = mm.lastTrimFenceValue := by
  unfold evictHead
  split
  · rfl
  · split
    · rw [markFragmentsEvicted_lastTrimFenceValue]; rfl
    · rfl

theorem evictHead_noneMadeResident (mm : WddmMemoryManager) (a : Nat) :
    NoneMadeResident mm (evictHead mm a).1 := by
  unfold evictHead
  split
  · exact ⟨fun _ => rfl, fun _ h => h, fun _ => rfl, fun _ h => h⟩
  · split
    · have h := markFragmentsEvicted_noneMadeResident (mm.allocations a).fragments
        (mm.evict (fragmentsToEvict mm a (mm.allocations a).fragments)) 0
      exact ⟨h.allocationFence, h.allocationFlag, h.fragmentFence, h.fragmentFlag⟩
    · exact NoneMadeResident.unchanged mm

/-- The loop of `trimResidencyToBudget` makes nothing resident, stamps no fence
and leaves the fence values of the context as they are, apart from the
completed value. -/
theorem trimToBudgetLoop_noneMadeResident (l : List Nat) (mm : WddmMemoryManager) (n : Nat) :
    NoneMadeResident mm (trimToBudgetLoop l mm n).1 ∧
      (trimToBudgetLoop l mm n).1.monitoredFence.currentFenceValue =
        mm.monitoredFence.currentFenceValue ∧
      (trimToBudgetLoop l mm n).1.lastTrimFenceValue = mm.lastTrimFenceValue := by
  induction l generalizing mm n with
  | nil => exact ⟨NoneMadeResident.unchanged mm, rfl, rfl⟩
  | cons a rest ih =>
    unfold trimToBudgetLoop
    split
    · exact ⟨NoneMadeResident.unchanged mm, rfl, rfl⟩
    · simp only
      split
      · obtain ⟨_, hwa, hwf, _, hwt, hwc, _⟩ :=
          waited_spec mm (mm.allocations a).residencyData.lastFence
        obtain ⟨_, _, _, _, _, hem, _⟩ := evictHead_spec
          (if (mm.allocations a).residencyData.lastFence > mm.monitoredFence.cpuValue
            then mm.waitFromCpu (mm.allocations a).residencyData.lastFence else mm) a
        have hev := evictHead_noneMadeResident
          (if (mm.allocations a).residencyData.lastFence > mm.monitoredFence.cpuValue
            then mm.waitFromCpu (mm.allocations a).residencyData.lastFence else mm) a
        have hw : NoneMadeResident mm
            (if (mm.allocations a).residencyData.lastFence > mm.monitoredFence.cpuValue
              then mm.waitFromCpu (mm.allocations a).residencyData.lastFence else mm) :=
          ⟨fun b => by rw [hwa], fun b h => by rw [hwa] at h; exact h,
            fun r => by rw [hwf], fun r h => by rw [hwf] at h; exact h⟩
        obtain ⟨i1, i2, i3⟩ := ih
          (((evictHead (if (mm.allocations a).residencyData.lastFence > mm.monitoredFence.cpuValue
              then mm.waitFromCpu (mm.allocations a).residencyData.lastFence else mm)
            a).1.setResident a false).removeFromTrimCandidateList a)
          (if (evictHead (if (mm.allocations a).residencyData.lastFence >
                mm.monitoredFence.cpuValue
              then mm.waitFromCpu (mm.allocations a).residencyData.lastFence else mm) a).2 ≥ n
            then 0
            else n - (evictHead (if (mm.allocations a).residencyData.lastFence >
                mm.monitoredFence.cpuValue
              then mm.waitFromCpu (mm.allocations a).residencyData.lastFence else mm) a).2)
        refine ⟨?_, ?_, ?_⟩
        · refine (((hw.next hev).next (noneMadeResident_setResident _ a)).next ?_).next
            i1
          exact ⟨fun _ => rfl, fun _ h => h, fun _ => rfl, fun _ h => h⟩
        · rw [i2]
          show (evictHead _ a).1.monitoredFence.currentFenceValue = _
          rw [hem, hwc]
        · rw [i3]
          show (evictHead _ a).1.lastTrimFenceValue = _
          rw [evictHead_lastTrimFenceValue, hwt]
      · exact ⟨NoneMadeResident.unchanged mm, rfl, rfl⟩

theorem trimResidency_periodic_only (mm : WddmMemoryManager) (flags : TrimFlags) (bytes : Nat)
    (hp : flags.PeriodicTrim = true) (hb : flags.TrimToBudget = false) :
    mm.trimResidency flags bytes =
      { periodicTrimLoop mm.trimCandidateList mm with
        lastTrimFenceValue := (periodicTrimLoop mm.trimCandidateList mm).monitoredFence.cpuValue } := by
  unfold WddmMemoryManager.trimResidency
  simp [hp, hb]

/-- C13: in a `trimResidency` call with `PeriodicTrim` set and `TrimToBudget`
clear, every handle passed to `evict` is read from an unfragmented allocation
whose fence is at most the stored last periodic trim fence value, or from a
fragment whose own fence is at most that value; an allocation whose fence is
above that value keeps its record (so it is not marked non-resident) and its
place on the trim list, and a fragment residency record whose fence is above
that value is left as it is. -/
theorem trimResidency_periodic_spares_used (mm : WddmMemoryManager) (flags : TrimFlags)
    (bytes : Nat) (hp : flags.PeriodicTrim = true) (hb : flags.TrimToBudget = false) :
    (∃ newCalls, (mm.trimResidency flags bytes).calls = mm.calls ++ newCalls ∧
      ∀ t ∈ evictedTargets newCalls, t.notUsedSince mm mm.lastTrimFenceValue) ∧
    (∀ a, mm.lastTrimFenceValue < (mm.allocations a).residencyData.lastFence →
      (mm.trimResidency flags bytes).allocations a = mm.allocations a ∧
      (a ∈ mm.trimCandidateList → a ∈ (mm.trimResidency flags bytes).trimCandidateList)) ∧
    (∀ r, mm.lastTrimFenceValue < (mm.fragmentResidency r).lastFence →
      (mm.trimResidency flags bytes).fragmentResidency r = mm.fragmentResidency r) := by
  rw [trimResidency_periodic_only mm flags bytes hp hb]
  obtain ⟨hlist, ⟨new, hnew, hold⟩, _, hframe, _, _, _, _, hfr⟩ :=
    periodicTrimLoop_spec mm.trimCandidateList mm rfl
  have hnot : ∀ a, mm.lastTrimFenceValue < (mm.allocations a).residencyData.lastFence →
      a ∉ mm.trimCandidateList.takeWhile mm.notUsedSinceLastTrim := by
    intro a ha hmem
    have := List.mem_takeWhile_imp hmem
    unfold WddmMemoryManager.notUsedSinceLastTrim at this
    have hle := of_decide_eq_true this
    omega
  refine ⟨⟨new, hnew, fun t ht => (hold t ht).2⟩, ?_, fun r hr => hfr r hr⟩
  intro a ha
  refine ⟨hframe a (hnot a ha), ?_⟩
  intro hmem
  show a ∈ (periodicTrimLoop mm.trimCandidateList mm).trimCandidateList
  rw [hlist]
  have hsplit := List.takeWhile_append_dropWhile mm.notUsedSinceLastTrim mm.trimCandidateList
  rw [← hsplit] at hmem
  rcases List.mem_append.1 hmem with h | h
  · exact absurd h (hnot a ha)
  · exact h

/-- Instance of C13: periodic trim at fence 3 with the allocations 1 to 5 on
the list; allocation 4 (fence 4) keeps its record and its place. -/
theorem trimResidency_periodic_spares_used_witness :
    (({ PeriodicTrim := true, TrimToBudget := false, RestartPeriodicTrim := false } :
        TrimFlags).PeriodicTrim = true ∧
      ({ PeriodicTrim := true, TrimToBudget := false, RestartPeriodicTrim := false } :
        TrimFlags).TrimToBudget = false ∧
      exampleManagerTrimmedAt3.lastTrimFenceValue <
        (exampleManagerTrimmedAt3.allocations 4).residencyData.lastFence) ∧
    ((exampleManagerTrimmedAt3.trimResidency
        { PeriodicTrim := true, TrimToBudget := false, RestartPeriodicTrim := false }
        0).allocations 4 = exampleManagerTrimmedAt3.allocations 4 ∧
      (4 ∈ exampleManagerTrimmedAt3.trimCandidateList →
        4 ∈ (exampleManagerTrimmedAt3.trimResidency
          { PeriodicTrim := true, TrimToBudget := false, RestartPeriodicTrim := false }
          0).trimCandidateList)) :=
  ⟨⟨rfl, rfl, by decide⟩,
    (trimResidency_periodic_spares_used exampleManagerTrimmedAt3
      { PeriodicTrim := true, TrimToBudget := false, RestartPeriodicTrim := false } 0 rfl
      rfl).2.1 4 (by decide)⟩

theorem handlesForFragments_mem (g : FragmentStorage → Bool) (fs : List FragmentStorage)
    (h : Nat) :
    h ∈ handlesForFragments fs (fs.map g) ↔ ∃ f ∈ fs, h = f.handle ∧ g f = false := by
  induction fs with
  | nil => simp [handlesForFragments]
  | cons f fs ih =>
    simp only [List.map_cons, handlesForFragments]
    cases hg : g f with
    | true =>
      simp only [Bool.not_true, Bool.false_eq_true, if_false, ih, List.mem_cons]
      constructor
      · rintro ⟨x, hx, hh, hgx⟩
        exact ⟨x, Or.inr hx, hh, hgx⟩
      · rintro ⟨x, hx | hx, hh, hgx⟩
        · rw [hx, hg] at hgx
          exact absurd hgx (by decide)
        · exact ⟨x, hx, hh, hgx⟩
    | false =>
      simp only [Bool.not_false, if_true, List.mem_cons, ih]
      constructor
      · rintro (hh | ⟨x, hx, hh, hgx⟩)
        · exact ⟨f, Or.inl rfl, hh, hg⟩
        · exact ⟨x, Or.inr hx, hh, hgx⟩
      · rintro ⟨x, hx | hx, hh, hgx⟩
        · left; rw [hh, hx]
        · exact Or.inr ⟨x, hx, hh, hgx⟩

/-- The handles one allocation adds are the ones `PassedFor` describes. -/
theorem handlesOfAllocation_mem (mm : WddmMemoryManager) (a h : Nat) :
    h ∈ handlesOfAllocation mm a ↔ PassedFor mm a h := by
  unfold handlesOfAllocation PassedFor
  split
  · rename_i h0
    have hnil := List.length_eq_zero.1 h0
    rw [hnil]
    cases hr : (mm.allocations a).residencyData.resident <;> simp
  · rename_i h0
    have hne : (mm.allocations a).fragments ≠ [] := fun h => h0 (by rw [h]; rfl)
    unfold readFragmentResidency
    split
    · rename_i hon
      rw [handlesForFragments_mem (fun _ => false)]
      simp [hne, hon]
    · rename_i hoff
      rw [handlesForFragments_mem (fun f => (mm.fragmentResidency f.residency).resident)]
      simp [hne, hoff]

/-- The loop over the container: what it collects and what it leaves alone. -/
theorem collectHandles_spec (l : List Nat) (mm : WddmMemoryManager) (hs : List Nat) :
    (∀ h, h ∈ (collectHandles l mm hs).2 ↔ h ∈ hs ∨ ∃ a ∈ l, PassedFor mm a h) ∧
    (collectHandles l mm hs).1.allocations = mm.allocations ∧
    (collectHandles l mm hs).1.fragmentResidency = mm.fragmentResidency ∧
    (collectHandles l mm hs).1.monitoredFence = mm.monitoredFence ∧
    (collectHandles l mm hs).1.calls = mm.calls ∧
    (collectHandles l mm hs).1.trimCandidateList.length ≤ mm.trimCandidateList.length ∧
    (∀ a, a ∈ (collectHandles l mm hs).1.trimCandidateList → a ∈ mm.trimCandidateList) := by
  induction l generalizing mm hs with
  | nil => exact ⟨by simp [collectHandles], rfl, rfl, rfl, rfl, Nat.le_refl _, fun _ h => h⟩
  | cons a rest ih =>
    unfold collectHandles
    obtain ⟨w, hw, hwa, hwf, hwm, hwc, hwlen, hwsub, hwne⟩ : ∃ w : WddmMemoryManager,
        w = (if a ∈ mm.trimCandidateList then mm.removeFromTrimCandidateList a else mm) ∧
        w.allocations = mm.allocations ∧ w.fragmentResidency = mm.fragmentResidency ∧
        w.monitoredFence = mm.monitoredFence ∧ w.calls = mm.calls ∧
        w.trimCandidateList.length ≤ mm.trimCandidateList.length ∧
        (∀ b, b ∈ w.trimCandidateList → b ∈ mm.trimCandidateList) ∧
        (∀ b, b ≠ a → b ∈ mm.trimCandidateList → b ∈ w.trimCandidateList) := by
      refine ⟨_, rfl, ?_⟩
      split
      · refine ⟨rfl, rfl, rfl, rfl, ?_, ?_, ?_⟩
        · show (mm.trimCandidateList.erase a).length ≤ _
          exact List.length_erase_le _ _
        · intro b hb
          exact List.mem_of_mem_erase hb
        · intro b hb hmem
          exact (List.mem_erase_of_ne hb).2 hmem
      · exact ⟨rfl, rfl, rfl, rfl, Nat.le_refl _, fun _ h => h, fun _ _ h => h⟩
    rw [← hw]
    obtain ⟨i1, i2, i3, i4, i5, i6, i7⟩ := ih w (hs ++ handlesOfAllocation mm a)
    refine ⟨?_, i2.trans hwa, i3.trans hwf, i4.trans hwm, i5.trans hwc, Nat.le_trans i6 hwlen,
      fun b hb => hwsub b (i7 b hb)⟩
    intro h
    rw [i1 h, List.mem_append, handlesOfAllocation_mem]
    have hpw : ∀ b, PassedFor w b h → PassedFor mm b h := by
      intro b hb
      unfold PassedFor at hb ⊢
      rw [hwa, hwf] at hb
      rcases hb with hb | ⟨f, hf, hh, hon | hoff⟩
      · exact Or.inl hb
      · exact Or.inr ⟨f, hf, hh, Or.inl (hwsub b hon)⟩
      · exact Or.inr ⟨f, hf, hh, Or.inr hoff⟩
    have hpm : ∀ b, b ≠ a → PassedFor mm b h → PassedFor w b h := by
      intro b hne hb
      unfold PassedFor at hb ⊢
      rw [hwa, hwf]
      rcases hb with hb | ⟨f, hf, hh, hon | hoff⟩
      · exact Or.inl hb
      · exact Or.inr ⟨f, hf, hh, Or.inl (hwne b hne hon)⟩
      · exact Or.inr ⟨f, hf, hh, Or.inr hoff⟩
    constructor
    · rintro ((h1 | h1) | ⟨b, hb, hpb⟩)
      · exact Or.inl h1
      · exact Or.inr ⟨a, List.mem_cons_self _ _, h1⟩
      · exact Or.inr ⟨b, List.mem_cons_of_mem _ hb, hpw b hpb⟩
    · rintro (h1 | ⟨b, hb, hpb⟩)
      · exact Or.inl (Or.inl h1)
      · by_cases hba : b = a
        · rw [hba] at hpb
          exact Or.inl (Or.inr hpb)
        · rcases List.mem_cons.1 hb with h' | h'
          · exact absurd h' hba
          · exact Or.inr ⟨b, h', hpm b hba hpb⟩

/-- A call of `trimResidencyToBudget` for more than 0 bytes that returns true
has taken an entry off the trim list. -/
theorem trimResidencyToBudget_progress (mm : WddmMemoryManager) (bytes : Nat)
    (hbytes : 0 < bytes) (htrue : (mm.trimResidencyToBudget bytes).1 = true) :
    (mm.trimResidencyToBudget bytes).2.trimCandidateList.length <
      mm.trimCandidateList.length := by
  unfold WddmMemoryManager.trimResidencyToBudget at htrue ⊢
  simp only [beq_iff_eq] at htrue
  cases hl : mm.trimCandidateList with
  | nil =>
    rw [hl] at htrue
    simp only [trimToBudgetLoop] at htrue
    omega
  | cons a rest =>
    rw [hl] at htrue
    unfold trimToBudgetLoop at htrue ⊢
    rw [if_neg (by omega)] at htrue ⊢
    simp only at htrue ⊢
    split
    · obtain ⟨_, _, hlist, _⟩ := trimPass_next mm a
      obtain ⟨k, _, hk⟩ := trimToBudgetLoop_trimCandidateList rest
        (((evictHead (if (mm.allocations a).residencyData.lastFence > mm.monitoredFence.cpuValue
            then mm.waitFromCpu (mm.allocations a).residencyData.lastFence else mm)
          a).1.setResident a false).removeFromTrimCandidateList a)
        (if (evictHead (if (mm.allocations a).residencyData.lastFence >
              mm.monitoredFence.cpuValue
            then mm.waitFromCpu (mm.allocations a).residencyData.lastFence else mm) a).2 ≥ bytes
          then 0
          else bytes - (evictHead (if (mm.allocations a).residencyData.lastFence >
              mm.monitoredFence.cpuValue
            then mm.waitFromCpu (mm.allocations a).residencyData.lastFence else mm) a).2)
        (by rw [hlist, hl]; simp)
      rw [hk]
      simp only [List.length_drop, List.length_cons]
      omega
    · rename_i hgt
      rw [if_neg hgt] at htrue
      simp only at htrue
      omega

theorem trimResidencyToBudget_zero (mm : WddmMemoryManager) :
    mm.trimResidencyToBudget 0 = (true, mm) := by
  unfold WddmMemoryManager.trimResidencyToBudget
  cases mm.trimCandidateList with
  | nil => rfl
  | cons a rest => rfl

theorem trimResidencyToBudget_length_le (mm : WddmMemoryManager) (bytes : Nat) :
    (mm.trimResidencyToBudget bytes).2.trimCandidateList.length ≤
      mm.trimCandidateList.length := by
  obtain ⟨k, _, hk⟩ := trimToBudgetLoop_trimCandidateList mm.trimCandidateList mm bytes rfl
  show (trimToBudgetLoop mm.trimCandidateList mm bytes).1.trimCandidateList.length ≤ _
  rw [hk]
  simp

/-- The retry loop, when it ends: it has added calls with the collected
handles, all but possibly the last without the overcommit flag, and has made
nothing resident. -/
theorem makeResidentRetry_spec (driver : Nat → MakeResidentReply) (handles : List Nat)
    (fuel : Nat) (run : ResidencyRun) (r : Bool × ResidencyRun)
    (h : makeResidentRetry driver handles fuel run = some r) :
    (∃ newCalls, r.2.makeResidentCalls = run.makeResidentCalls ++ newCalls ∧
      newCalls ≠ [] ∧ (∀ c ∈ newCalls, c.handles = handles) ∧
      (∀ c ∈ newCalls.dropLast, c.cantTrimFurther = false) ∧
      (∀ c ∈ newCalls.getLast?, c.callsBefore = r.2.mm.calls.length)) ∧
    NoneMadeResident run.mm r.2.mm ∧
    r.2.mm.monitoredFence.currentFenceValue = run.mm.monitoredFence.currentFenceValue := by
  induction fuel generalizing run r with
  | zero => simp [makeResidentRetry] at h
  | succ fuel ih =>
    unfold makeResidentRetry at h
    simp only [ResidencyRun.makeResident] at h
    split at h
    · cases h
      exact ⟨⟨[_], rfl, by simp, by simp, by simp, by simp⟩, NoneMadeResident.unchanged _, rfl⟩
    · obtain ⟨hn, hcur, _⟩ := trimToBudgetLoop_noneMadeResident run.mm.trimCandidateList run.mm
        (driver run.makeResidentCalls.length).bytesToTrim
      split at h
      · cases h
        refine ⟨⟨[{ handles := handles, cantTrimFurther := false,
                     callsBefore := run.mm.calls.length },
                   { handles := handles, cantTrimFurther := true,
                     callsBefore := (run.mm.trimResidencyToBudget
                       (driver run.makeResidentCalls.length).bytesToTrim).2.calls.length }],
          by simp, by simp, by simp, by simp, ?_⟩, hn, hcur⟩
        simp only [List.getLast?_cons_cons, List.getLast?_singleton, Option.mem_def,
          Option.some.injEq]
        intro c hc
        rw [← hc]
      · obtain ⟨⟨new, hnew, hne, hhandles, hflags, hlast⟩, hn', hcur'⟩ := ih _ r h
        refine ⟨⟨{ handles := handles, cantTrimFurther := false,
                   callsBefore := run.mm.calls.length } :: new, by rw [hnew]; simp, by simp,
          ?_, ?_, ?_⟩, hn.next hn', hcur'.trans hcur⟩
        · intro c hc
          rcases List.mem_cons.1 hc with hc | hc
          · rw [hc]
          · exact hhandles c hc
        · intro c hc
          cases new with
          | nil => exact absurd rfl hne
          | cons x xs =>
            simp only [List.dropLast_cons₂, List.mem_cons] at hc
            rcases hc with hc | hc
            · rw [hc]
            · exact hflags c hc
        · intro c hc
          cases new with
          | nil => exact absurd rfl hne
          | cons x xs =>
            simp only [List.getLast?_cons_cons] at hc
            exact hlast c hc

/-- The retry loop ends within one pass more than there are entries on the
trim list, when every failing call reports more than 0 bytes to trim. -/
theorem makeResidentRetry_ends (driver : Nat → MakeResidentReply) (handles : List Nat)
    (hdriver : ∀ k, (driver k).success = false → 0 < (driver k).bytesToTrim)
    (fuel : Nat) (run : ResidencyRun) (hfuel : run.mm.trimCandidateList.length < fuel) :
    ∃ r, makeResidentRetry driver handles fuel run = some r := by
  induction fuel generalizing run with
  | zero => omega
  | succ fuel ih =>
    unfold makeResidentRetry
    simp only [ResidencyRun.makeResident]
    split
    · exact ⟨_, rfl⟩
    · rename_i hfail
      split
      · exact ⟨_, rfl⟩
      · rename_i htrim
        have htrue : (run.mm.trimResidencyToBudget
            (driver run.makeResidentCalls.length).bytesToTrim).1 = true := by
          simpa using htrim
        have hpos := hdriver run.makeResidentCalls.length (by simpa using hfail)
        have hprog := trimResidencyToBudget_progress run.mm _ hpos htrue
        apply ih
        show (run.mm.trimResidencyToBudget _).2.trimCandidateList.length < fuel
        omega

/-- A driver that fails every time and reports 0 bytes to trim keeps the retry
loop going: whatever number of passes is allowed, the loop has not ended. -/
theorem makeResidentRetry_failsWithZero (handles : List Nat) (fuel : Nat) (run : ResidencyRun) :
    makeResidentRetry driverFailsWithZero handles fuel run = none := by
  induction fuel generalizing run with
  | zero => rfl
  | succ fuel ih =>
    unfold makeResidentRetry
    simp only [ResidencyRun.makeResident, driverFailsWithZero, trimResidencyToBudget_zero]
    exact ih _

theorem stampAllocation_fields (mm : WddmMemoryManager) (a : Nat) :
    (∀ b, ((mm.stampAllocation a).allocations b).fragments = (mm.allocations b).fragments) ∧
      (mm.stampAllocation a).fragmentResidency = mm.fragmentResidency ∧
      (mm.stampAllocation a).monitoredFence = mm.monitoredFence := by
  refine ⟨?_, rfl, rfl⟩
  intro b
  simp only [WddmMemoryManager.stampAllocation]
  split <;> rfl

/-- Stamping keeps what is stamped stamped. -/
theorem stamped_stampAllocation (mm : WddmMemoryManager) (a b : Nat)
    (h : Stamped mm.monitoredFence.currentFenceValue mm b) :
    Stamped mm.monitoredFence.currentFenceValue (mm.stampAllocation a) b := by
  obtain ⟨h1, h2⟩ := h
  refine ⟨?_, ?_⟩
  · simp only [WddmMemoryManager.stampAllocation]
    split
    · rfl
    · exact h1
  · intro f hf
    rw [(stampAllocation_fields mm a).1 b] at hf
    exact h2 f hf

theorem stamped_stampFragment (mm : WddmMemoryManager) (r b : Nat)
    (h : Stamped mm.monitoredFence.currentFenceValue mm b) :
    Stamped mm.monitoredFence.currentFenceValue (mm.stampFragment r) b := by
  obtain ⟨h1, h2⟩ := h
  refine ⟨h1, ?_⟩
  intro f hf
  show (if f.residency = r then _ else mm.fragmentResidency f.residency) = _
  split
  · rfl
  · exact h2 f hf

/-- The loop over the fragments of one allocation. -/
theorem stampFragments_spec (fs : List FragmentStorage) (mm : WddmMemoryManager) :
    (stampFragments fs mm).allocations = mm.allocations ∧
      (stampFragments fs mm).monitoredFence = mm.monitoredFence ∧
      (∀ b, Stamped mm.monitoredFence.currentFenceValue mm b →
        Stamped mm.monitoredFence.currentFenceValue (stampFragments fs mm) b) ∧
      (∀ f ∈ fs, (stampFragments fs mm).fragmentResidency f.residency =
        { resident := true, lastFence := mm.monitoredFence.currentFenceValue }) ∧
      (∀ r, mm.fragmentResidency r =
          { resident := true, lastFence := mm.monitoredFence.currentFenceValue } →
        (stampFragments fs mm).fragmentResidency r =
          { resident := true, lastFence := mm.monitoredFence.currentFenceValue }) := by
  induction fs generalizing mm with
  | nil => exact ⟨rfl, rfl, fun _ h => h, by simp, fun _ h => h⟩
  | cons f fs ih =>
    unfold stampFragments
    obtain ⟨i1, i2, i3, i4, i5⟩ := ih (mm.stampFragment f.residency)
    have hm : (mm.stampFragment f.residency).monitoredFence = mm.monitoredFence := rfl
    rw [hm] at i3 i4 i5
    refine ⟨i1, i2, fun b hb => i3 b (stamped_stampFragment mm f.residency b hb), ?_, ?_⟩
    · intro g hg
      rcases List.mem_cons.1 hg with h | h
      · rw [h]
        apply i5
        show (if f.residency = f.residency then _ else _) = _
        rw [if_pos rfl]
      · exact i4 g h
    · intro r hr
      apply i5
      show (if r = f.residency then _ else mm.fragmentResidency r) = _
      split
      · rfl
      · exact hr

/-- The loop over the container after a successful call stamps every
allocation of the container and each of its fragments. -/
theorem stampResident_spec (l : List Nat) (mm : WddmMemoryManager) :
    (∀ b, Stamped mm.monitoredFence.currentFenceValue mm b →
        Stamped mm.monitoredFence.currentFenceValue (stampResident l mm) b) ∧
      ∀ a ∈ l, Stamped mm.monitoredFence.currentFenceValue (stampResident l mm) a := by
  induction l generalizing mm with
  | nil => exact ⟨fun _ h => h, by simp⟩
  | cons a rest ih =>
    unfold stampResident
    obtain ⟨s1, s2, s3, s4, _⟩ :=
      stampFragments_spec ((mm.stampAllocation a).allocations a).fragments (mm.stampAllocation a)
    have hm : (mm.stampAllocation a).monitoredFence = mm.monitoredFence := rfl
    rw [hm] at s3 s4
    obtain ⟨i1, i2⟩ := ih (stampFragments ((mm.stampAllocation a).allocations a).fragments
      (mm.stampAllocation a))
    rw [s2, hm] at i1 i2
    have ha : Stamped mm.monitoredFence.currentFenceValue
        (stampFragments ((mm.stampAllocation a).allocations a).fragments
          (mm.stampAllocation a)) a := by
      refine ⟨?_, ?_⟩
      · rw [s1]
        show (if a = a then _ else mm.allocations a).residencyData = _
        rw [if_pos rfl]
      · intro f hf
        rw [s1] at hf
        exact s4 f hf
    refine ⟨fun b hb => i1 b (s3 b (stamped_stampAllocation mm a b hb)), ?_⟩
    intro b hb
    rcases List.mem_cons.1 hb with h | h
    · rw [h]; exact i1 a ha
    · exact i2 b h

theorem stampFragments_calls (fs : List FragmentStorage) (mm : WddmMemoryManager) :
    (stampFragments fs mm).calls = mm.calls := by
  induction fs generalizing mm with
  | nil => rfl
  | cons f fs ih =>
    unfold stampFragments
    rw [ih]
    rfl

/-- The stamping loop makes no driver call. -/
theorem stampResident_calls (l : List Nat) (mm : WddmMemoryManager) :
    (stampResident l mm).calls = mm.calls := by
  induction l generalizing mm with
  | nil => rfl
  | cons a rest ih =>
    unfold stampResident
    rw [ih, stampFragments_calls]
    rfl

/-- The part of `makeResidentResidencyAllocations` before the stamping (lines
478-535), when it ends. -/
theorem makeResident_called_spec (driver : Nat → MakeResidentReply) (fuel : Nat)
    (run : ResidencyRun) (container : List Nat) (res : Bool) (left : ResidencyRun)
    (h : (if (collectHandles container run.mm []).2.length ≠ 0 then
          makeResidentRetry driver (collectHandles container run.mm []).2 fuel
            { run with mm := (collectHandles container run.mm []).1 }
        else some (true, { run with mm := (collectHandles container run.mm []).1 })) =
      some (res, left)) :
    NoneMadeResident run.mm left.mm ∧
    left.mm.monitoredFence.currentFenceValue = run.mm.monitoredFence.currentFenceValue ∧
    ∃ newCalls, left.makeResidentCalls = run.makeResidentCalls ++ newCalls ∧
      (∀ c ∈ newCalls, c.handles = (collectHandles container run.mm []).2) ∧
      (∀ c ∈ newCalls.dropLast, c.cantTrimFurther = false) ∧
      ((collectHandles container run.mm []).2 = [] → newCalls = [] ∧ res = true) := by
  obtain ⟨_, ha, hf, hm, _, _, _⟩ := collectHandles_spec container run.mm []
  have hentered : NoneMadeResident run.mm (collectHandles container run.mm []).1 :=
    ⟨fun b => by rw [ha], fun b h => by rw [ha] at h; exact h,
      fun r => by rw [hf], fun r h => by rw [hf] at h; exact h⟩
  split at h
  · rename_i hlen
    obtain ⟨⟨new, hnew, _, hhandles, hflags, _⟩, hn, hcur⟩ :=
      makeResidentRetry_spec driver _ fuel _ (res, left) h
    refine ⟨hentered.next hn, ?_, new, hnew, hhandles, hflags, ?_⟩
    · rw [hcur]
      show (collectHandles container run.mm []).1.monitoredFence.currentFenceValue = _
      rw [hm]
    · intro hnil
      rw [hnil] at hlen
      exact absurd rfl hlen
  · rename_i hlen
    have hres : res = true ∧ left = { run with mm := (collectHandles container run.mm []).1 } := by
      have := Option.some.inj h
      exact ⟨(congrArg Prod.fst this).symm, (congrArg Prod.snd this).symm⟩
    obtain ⟨hr, hleft⟩ := hres
    rw [hleft]
    refine ⟨hentered, ?_, [], by simp, by simp, by simp, fun _ => ⟨rfl, hr⟩⟩
    show (collectHandles container run.mm []).1.monitoredFence.currentFenceValue = _
    rw [hm]

/-- How the result of `makeResidentResidencyAllocations` comes about. -/
theorem makeResidentResidencyAllocations_some (driver : Nat → MakeResidentReply) (fuel : Nat)
    (run : ResidencyRun) (container : List Nat) (r : Bool × ResidencyRun)
    (h : makeResidentResidencyAllocations driver fuel run container = some r) :
    ∃ left, (if (collectHandles container run.mm []).2.length ≠ 0 then
          makeResidentRetry driver (collectHandles container run.mm []).2 fuel
            { run with mm := (collectHandles container run.mm []).1 }
        else some (true, { run with mm := (collectHandles container run.mm []).1 })) =
      some (r.1, left) ∧
      r.2.makeResidentCalls = left.makeResidentCalls ∧
      (r.1 = true → r.2.mm = stampResident container left.mm) ∧
      (r.1 = false → r.2 = left) := by
  unfold makeResidentResidencyAllocations at h
  simp only at h
  split at h
  · exact absurd h (by simp)
  · rename_i result left heq
    cases result with
    | true =>
      simp only [if_true] at h
      have := Option.some.inj h
      rw [← this]
      exact ⟨left, heq, rfl, fun _ => rfl, fun h => by simp at h⟩
    | false =>
      simp only [Bool.false_eq_true, if_false] at h
      have := Option.some.inj h
      rw [← this]
      exact ⟨left, heq, rfl, fun h => by simp at h, fun _ => rfl⟩

/-- C15: when `makeResidentResidencyAllocations` returns true, every allocation
of the container and each of its fragments is resident and stamped with the
context's `currentFenceValue`; when it returns false, no `resident` flag has
gone from false to true and every fence value is as before. It does return
whenever each failing `makeResident` call reports more than 0 bytes to trim
(within one retry more than the trim list has entries). -/
theorem makeResidentResidencyAllocations_stamps (driver : Nat → MakeResidentReply) (fuel : Nat)
    (run : ResidencyRun) (container : List Nat) :
    (∀ after, makeResidentResidencyAllocations driver fuel run container = some (true, after) →
      ∀ a ∈ container, Stamped run.mm.monitoredFence.currentFenceValue after.mm a) ∧
    (∀ after, makeResidentResidencyAllocations driver fuel run container = some (false, after) →
      NoneMadeResident run.mm after.mm) ∧
    ((∀ k, (driver k).success = false → 0 < (driver k).bytesToTrim) →
      run.mm.trimCandidateList.length < fuel →
      ∃ r, makeResidentResidencyAllocations driver fuel run container = some r) := by
  refine ⟨?_, ?_, ?_⟩
  · intro after h a ha
    obtain ⟨left, hcalled, _, hstamp, _⟩ :=
      makeResidentResidencyAllocations_some driver fuel run container _ h
    obtain ⟨_, hcur, _⟩ := makeResident_called_spec driver fuel run container _ left hcalled
    have hmm : after.mm = stampResident container left.mm := hstamp rfl
    rw [hmm, ← hcur]
    exact (stampResident_spec container left.mm).2 a ha
  · intro after h
    obtain ⟨left, hcalled, _, _, hsame⟩ :=
      makeResidentResidencyAllocations_some driver fuel run container _ h
    obtain ⟨hn, _, _⟩ := makeResident_called_spec driver fuel run container _ left hcalled
    have hleft : after = left := hsame rfl
    rw [hleft]
    exact hn
  · intro hdriver hfuel
    obtain ⟨_, _, _, _, _, hlen, _⟩ := collectHandles_spec container run.mm []
    obtain ⟨res, left, hcalled⟩ : ∃ res left,
        (if (collectHandles container run.mm []).2.length ≠ 0 then
          makeResidentRetry driver (collectHandles container run.mm []).2 fuel
            { run with mm := (collectHandles container run.mm []).1 }
        else some (true, { run with mm := (collectHandles container run.mm []).1 })) =
          some (res, left) := by
      split
      · obtain ⟨r, hr⟩ := makeResidentRetry_ends driver (collectHandles container run.mm []).2
          hdriver fuel { run with mm := (collectHandles container run.mm []).1 }
          (Nat.lt_of_le_of_lt hlen hfuel)
        exact ⟨r.1, r.2, hr⟩
      · exact ⟨true, _, rfl⟩
    unfold makeResidentResidencyAllocations
    simp only
    rw [hcalled]
    cases res with
    | true => exact ⟨_, rfl⟩
    | false => exact ⟨_, rfl⟩

/-- Instance of C15: the allocations 1, 2, 3 with a driver that succeeds at
once; allocation 3 is resident afterwards and stamped with fence 5. -/
theorem makeResidentResidencyAllocations_stamps_witness :
    (∃ after, makeResidentResidencyAllocations driverSucceeds 1 exampleRun [1, 2, 3] =
        some (true, after)) ∧
      ∀ after, makeResidentResidencyAllocations driverSucceeds 1 exampleRun [1, 2, 3] =
          some (true, after) →
        Stamped exampleRun.mm.monitoredFence.currentFenceValue after.mm 3 :=
  ⟨⟨_, rfl⟩, fun after h =>
    (makeResidentResidencyAllocations_stamps driverSucceeds 1 exampleRun [1, 2, 3]).1 after h 3
      (by decide)⟩

/-- C16, at the failing input: with a driver whose `makeResident` fails every
time and reports 0 bytes to trim, and the non-resident allocation 3 in the
container, the retry loop has not ended after any number of passes. -/
theorem makeResidentResidencyAllocations_livelock (fuel : Nat) :
    makeResidentResidencyAllocations driverFailsWithZero fuel exampleRun [3] = none := by
  have hlen : (collectHandles [3] exampleRun.mm []).2.length ≠ 0 := by decide
  unfold makeResidentResidencyAllocations
  simp only [hlen, ne_eq, not_false_eq_true, if_true, makeResidentRetry_failsWithZero]

/-- C17 as stated fails: allocation 7 is on the trim list and its one fragment
(handle 70) is resident, yet the handle is passed to `makeResident`. -/
theorem makeResidentResidencyAllocations_passes_resident_fragment :
    (exampleRunFragmented.mm.fragmentResidency 0).resident = true ∧
      (exampleRunFragmented.mm.allocations 7).fragments =
        [{ handle := 70, fragmentSize := 4096, residency := 0 }] ∧
      (makeResidentResidencyAllocations driverSucceeds 1 exampleRunFragmented [7]).map
          (fun r => r.2.makeResidentCalls.map (fun c => c.handles)) = some [[70]] := by
  decide

/-- C17, amended: the handles passed to every `makeResident` call of the
operation are those of the unfragmented allocations of the container that are
not resident, and those of the fragments of its fragmented allocations that
are not resident or belong to an allocation that was on the trim list. When no
handle is collected the operation returns true, whatever number of passes is
allowed, and has made no driver call. When handles are collected it returns
whenever each failing `makeResident` call reports more than 0 bytes to trim
(within one retry more than the trim list has entries). -/
theorem makeResidentResidencyAllocations_handles (driver : Nat → MakeResidentReply) (fuel : Nat)
    (run : ResidencyRun) (container : List Nat) :
    (∀ h, h ∈ (collectHandles container run.mm []).2 ↔ ∃ a ∈ container, PassedFor run.mm a h) ∧
    (∀ r, makeResidentResidencyAllocations driver fuel run container = some r →
      ∃ newCalls, r.2.makeResidentCalls = run.makeResidentCalls ++ newCalls ∧
        (∀ c ∈ newCalls, c.handles = (collectHandles container run.mm []).2) ∧
        ((collectHandles container run.mm []).2 = [] → newCalls = [] ∧ r.1 = true)) ∧
    ((collectHandles container run.mm []).2 = [] →
      ∃ after, makeResidentResidencyAllocations driver fuel run container = some (true, after) ∧
        after.makeResidentCalls = run.makeResidentCalls ∧ after.mm.calls = run.mm.calls) ∧
    ((∀ k, (driver k).success = false → 0 < (driver k).bytesToTrim) →
      run.mm.trimCandidateList.length < fuel →
      ∃ r, makeResidentResidencyAllocations driver fuel run container = some r) := by
  refine ⟨?_, ?_, ?_, ?_⟩
  · intro h
    rw [(collectHandles_spec container run.mm []).1 h]
    simp
  · intro r hr
    obtain ⟨left, hcalled, hcalls, _, _⟩ :=
      makeResidentResidencyAllocations_some driver fuel run container r hr
    obtain ⟨_, _, new, hnew, hhandles, _, hnil⟩ :=
      makeResident_called_spec driver fuel run container _ left hcalled
    exact ⟨new, hcalls.trans hnew, hhandles, hnil⟩
  · intro hnil
    obtain ⟨_, _, _, _, hc, _, _⟩ := collectHandles_spec container run.mm []
    have hlen : ¬ (collectHandles container run.mm []).2.length ≠ 0 := by
      rw [hnil]
      simp
    unfold makeResidentResidencyAllocations
    simp only [hlen, if_false, if_true]
    refine ⟨_, rfl, rfl, ?_⟩
    show (stampResident container (collectHandles container run.mm []).1).calls = _
    rw [stampResident_calls, hc]
  · intro hdriver hfuel
    obtain ⟨_, _, _, _, _, hlen, _⟩ := collectHandles_spec container run.mm []
    obtain ⟨res, left, hcalled⟩ : ∃ res left,
        (if (collectHandles container run.mm []).2.length ≠ 0 then
          makeResidentRetry driver (collectHandles container run.mm []).2 fuel
            { run with mm := (collectHandles container run.mm []).1 }
        else some (true, { run with mm := (collectHandles container run.mm []).1 })) =
          some (res, left) := by
      split
      · obtain ⟨r, hr⟩ := makeResidentRetry_ends driver (collectHandles container run.mm []).2
          hdriver fuel { run with mm := (collectHandles container run.mm []).1 }
          (Nat.lt_of_le_of_lt hlen hfuel)
        exact ⟨r.1, r.2, hr⟩
      · exact ⟨true, _, rfl⟩
    unfold makeResidentResidencyAllocations
    simp only
    rw [hcalled]
    cases res with
    | true => exact ⟨_, rfl⟩
    | false => exact ⟨_, rfl⟩

/-- Instance of the amended C17. For the container of the resident allocations
1 and 2 no handle is collected: the operation returns true, even with no pass
allowed, and makes no `makeResident` call. For the container 1, 2, 3, of which
only 3 is not resident, it returns and passes the handle 3. -/
theorem makeResidentResidencyAllocations_handles_witness :
    ((collectHandles [1, 2] exampleRun.mm []).2 = [] ∧
      ∃ after, makeResidentResidencyAllocations driverFailsWithZero 0 exampleRun [1, 2] =
          some (true, after) ∧
        after.makeResidentCalls = exampleRun.makeResidentCalls ∧
        after.mm.calls = exampleRun.mm.calls) ∧
    ((∀ k, (driverSucceeds k).success = false → 0 < (driverSucceeds k).bytesToTrim) ∧
      exampleRun.mm.trimCandidateList.length < 6 ∧
      (collectHandles [1, 2, 3] exampleRun.mm []).2 = [3] ∧
      ∃ r, makeResidentResidencyAllocations driverSucceeds 6 exampleRun [1, 2, 3] = some r ∧
        ∃ newCalls, r.2.makeResidentCalls = exampleRun.makeResidentCalls ++ newCalls ∧
          ∀ c ∈ newCalls, c.handles = (collectHandles [1, 2, 3] exampleRun.mm []).2) :=
  have hdriver : ∀ k, (driverSucceeds k).success = false → 0 < (driverSucceeds k).bytesToTrim :=
    fun _ h => by simp [driverSucceeds] at h
  ⟨⟨by decide,
      (makeResidentResidencyAllocations_handles driverFailsWithZero 0 exampleRun [1, 2]).2.2.1
        (by decide)⟩,
    hdriver, by decide, by decide,
    ((makeResidentResidencyAllocations_handles driverSucceeds 6 exampleRun [1, 2, 3]).2.2.2
      hdriver (by decide)).imp fun r hr =>
      ⟨hr, ((makeResidentResidencyAllocations_handles driverSucceeds 6 exampleRun
        [1, 2, 3]).2.1 r hr).imp fun _ h => ⟨h.1, h.2.1⟩⟩⟩

/-! ## Claims on `createWddmAllocation` -/

/-- C18 as stated fails: without a deferred deleter a `createAllocation` result
of `STATUS_GRAPHICS_NO_VIDEO_MEMORY` is not retried and nothing is drained;
the function returns false after the one call. The same holds for a failed
`mapGpuVirtualAddress`, after which the allocation is destroyed at once. -/
theorem createWddmAllocation_no_retry_without_deleter :
    createWddmAllocation false (fun _ => STATUS_GRAPHICS_NO_VIDEO_MEMORY) (fun _ => true) =
        (false, [AllocationCall.createAllocation]) ∧
      createWddmAllocation false (fun _ => STATUS_SUCCESS) (fun _ => false) =
        (false, [AllocationCall.createAllocation, AllocationCall.mapGpuVirtualAddress,
          AllocationCall.destroyAllocations]) := by
  decide

/-- C18, amended: with a deferred deleter, a `createAllocation` result of
`STATUS_GRAPHICS_NO_VIDEO_MEMORY` and a failed `mapGpuVirtualAddress` are each
retried once, after a drain, and the function returns false when the retry
fails too; without a deferred deleter nothing is drained and every driver call
is made at most once. In both cases no driver call is made more than twice,
and when the mapping has failed for good the function returns false with
`destroyAllocations` as its last call. -/
theorem createWddmAllocation_retries (createReply : Nat → Nat) (mapReply : Nat → Bool) :
    (createReply 0 = STATUS_GRAPHICS_NO_VIDEO_MEMORY → createReply 1 ≠ STATUS_SUCCESS →
      createWddmAllocation true createReply mapReply =
        (false, [AllocationCall.createAllocation, AllocationCall.drain,
          AllocationCall.createAllocation])) ∧
    (createReply 0 = STATUS_SUCCESS → mapReply 0 = false → mapReply 1 = false →
      createWddmAllocation true createReply mapReply =
        (false, [AllocationCall.createAllocation, AllocationCall.mapGpuVirtualAddress,
          AllocationCall.drain, AllocationCall.mapGpuVirtualAddress,
          AllocationCall.destroyAllocations])) ∧
    (createReply 0 = STATUS_SUCCESS → mapReply 0 = false → mapReply 1 = true →
      createWddmAllocation true createReply mapReply =
        (true, [AllocationCall.createAllocation, AllocationCall.mapGpuVirtualAddress,
          AllocationCall.drain, AllocationCall.mapGpuVirtualAddress])) ∧
    ((createWddmAllocation false createReply mapReply).2.count AllocationCall.drain = 0 ∧
      (createWddmAllocation false createReply mapReply).2.count AllocationCall.createAllocation
        = 1 ∧
      (createWddmAllocation false createReply mapReply).2.count
        AllocationCall.mapGpuVirtualAddress ≤ 1) ∧
    ∀ deferredDeleter,
      (createWddmAllocation deferredDeleter createReply mapReply).2.count
          AllocationCall.createAllocation ≤ 2 ∧
        (createWddmAllocation deferredDeleter createReply mapReply).2.count
          AllocationCall.mapGpuVirtualAddress ≤ 2 ∧
        (AllocationCall.destroyAllocations ∈
            (createWddmAllocation deferredDeleter createReply mapReply).2 →
          (createWddmAllocation deferredDeleter createReply mapReply).1 = false ∧
          (createWddmAllocation deferredDeleter createReply mapReply).2.getLast? =
            some AllocationCall.destroyAllocations) ∧
        ((createWddmAllocation deferredDeleter createReply mapReply).1 = false →
          AllocationCall.mapGpuVirtualAddress ∈
            (createWddmAllocation deferredDeleter createReply mapReply).2 →
          (createWddmAllocation deferredDeleter createReply mapReply).2.getLast? =
            some AllocationCall.destroyAllocations) := by
  refine ⟨?_, ?_, ?_, ?_, ?_⟩
  · intro h0 h1
    simp [createWddmAllocation, h0, h1]
  · intro h0 m0 m1
    have hne : STATUS_SUCCESS ≠ STATUS_GRAPHICS_NO_VIDEO_MEMORY := by decide
    simp [createWddmAllocation, h0, m0, m1, hne]
  · intro h0 m0 m1
    have hne : STATUS_SUCCESS ≠ STATUS_GRAPHICS_NO_VIDEO_MEMORY := by decide
    simp [createWddmAllocation, h0, m0, m1, hne]
  · unfold createWddmAllocation
    simp only [Bool.false_eq_true, and_false, if_false]
    split
    · cases mapReply 0 <;> simp
    · simp
  · intro deferredDeleter
    have hne : STATUS_GRAPHICS_NO_VIDEO_MEMORY ≠ STATUS_SUCCESS := by decide
    have hne' : STATUS_SUCCESS ≠ STATUS_GRAPHICS_NO_VIDEO_MEMORY := by decide
    unfold createWddmAllocation
    cases deferredDeleter <;>
    by_cases h0 : createReply 0 = STATUS_GRAPHICS_NO_VIDEO_MEMORY <;>
    by_cases h1 : createReply 1 = STATUS_SUCCESS <;>
    by_cases h2 : createReply 0 = STATUS_SUCCESS <;>
    cases m0 : mapReply 0 <;> cases m1 : mapReply 1 <;>
    simp [h0, h1, h2, m0, m1, hne, hne']

/-- Instance of the amended C18: with a deferred deleter and a driver out of
video memory twice, the creation is tried, drained for, and tried again. -/
theorem createWddmAllocation_retries_witness :
    ((fun _ : Nat => STATUS_GRAPHICS_NO_VIDEO_MEMORY) 0 = STATUS_GRAPHICS_NO_VIDEO_MEMORY ∧
      (fun _ : Nat => STATUS_GRAPHICS_NO_VIDEO_MEMORY) 1 ≠ STATUS_SUCCESS) ∧
    createWddmAllocation true (fun _ => STATUS_GRAPHICS_NO_VIDEO_MEMORY) (fun _ => true) =
      (false, [AllocationCall.createAllocation, AllocationCall.drain,
        AllocationCall.createAllocation]) :=
  ⟨⟨rfl, by decide⟩,
    (createWddmAllocation_retries (fun _ => STATUS_GRAPHICS_NO_VIDEO_MEMORY) (fun _ => true)).1
      rfl (by decide)⟩

/-! ## Claims on the constructor and the destructor -/

theorem destructorCalls_counts (contexts : List (Option Nat)) :
    (destructorCalls contexts).count CallbackCall.registerTrimCallback = 0 ∧
      (destructorCalls contexts).count CallbackCall.unregisterTrimCallback =
        (contexts.filter Option.isSome).length := by
  induction contexts with
  | nil => exact ⟨rfl, rfl⟩
  | cons c rest ih =>
    cases c with
    | none => simpa [destructorCalls] using ih
    | some c =>
      obtain ⟨h1, h2⟩ := ih
      refine ⟨?_, ?_⟩
      · simp only [destructorCalls, List.count_append, h1]
        simp [List.count_cons]
      · simp only [destructorCalls, List.count_append, h2, List.filter_cons, Option.isSome_some,
          if_true, List.length_cons]
        have : List.count CallbackCall.unregisterTrimCallback
            [CallbackCall.acquireTrimCallbackLock c, CallbackCall.unregisterTrimCallback,
              CallbackCall.releaseTrimCallbackLock c, CallbackCall.acquireTrimCallbackLock c,
              CallbackCall.releaseTrimCallbackLock c] = 1 := by
          simp [List.count_cons]
        rw [this]
        omega

/-- C19, at the failing inputs: over the lifetime of a memory manager
`registerTrimCallback` is called once, and `unregisterTrimCallback` once per
registered context that is not null; with no registered context it is not
called at all, with two it is called twice. -/
theorem lifetimeCalls_unregister_per_context :
    (∀ contexts : List (Option Nat),
      (lifetimeCalls contexts).count CallbackCall.registerTrimCallback = 1 ∧
      (lifetimeCalls contexts).count CallbackCall.unregisterTrimCallback =
        (contexts.filter Option.isSome).length) ∧
    (lifetimeCalls []).count CallbackCall.unregisterTrimCallback = 0 ∧
    (lifetimeCalls [some 0, some 1]).count CallbackCall.unregisterTrimCallback = 2 := by
  refine ⟨?_, by decide, by decide⟩
  intro contexts
  obtain ⟨h1, h2⟩ := destructorCalls_counts contexts
  unfold lifetimeCalls constructorCalls
  simp only [List.count_append, h1, h2]
  exact ⟨by decide, by simp [List.count_cons]⟩

/-! ## What a pass of `aggregateCommandBuffers` writes to the allocations -/

/-- The heap after a loop that stamps and appends `app`: the allocations of
`app` carry the current inspection id, and nothing else has changed. -/
theorem Extends.heap_eq {cur : Nat} {s r : PackState} {app : List Nat}
    (h : Extends cur s r app) (a : Nat) :
    r.heap a = if a ∈ app then { s.heap a with inspectionId := cur } else s.heap a := by
  by_cases hm : a ∈ app
  · rw [if_pos hm]
    have h1 := h.stamped a hm
    have h2 := h.bufsize a
    cases hr : r.heap a with
    | mk i b =>
      rw [hr] at h1 h2
      simp only at h1 h2
      rw [h1, h2]
  · rw [if_neg hm]
    exact h.frame a hm

theorem collectNewSurfaces_stamps (cur : Nat) (pb : Option Nat) (l : List Nat) (s : PackState)
    (g : Nat) (hg : g ∈ l) (hne : some g ≠ pb) (hlt : (s.heap g).inspectionId < cur) :
    ((collectNewSurfaces cur pb l s).heap g).inspectionId = cur := by
  induction l generalizing s with
  | nil => simp at hg
  | cons x xs ih =>
    unfold collectNewSurfaces
    by_cases hx : g = x
    · subst hx
      rw [if_neg hne, if_pos hlt]
      obtain ⟨app, h, _⟩ := collectNewSurfaces_extends cur pb xs
        { heap := setInspectionId s.heap g cur
          resources := s.resources ++ [g]
          size := (s.size + (s.heap g).underlyingBufferSize) % sizeModulus }
      exact h.stamped_of_stamped g (setInspectionId_self _ _ _)
    · have hmem : g ∈ xs := by
        rcases List.mem_cons.1 hg with h | h
        · exact absurd h hx
        · exact h
      split
      · exact ih s hmem hlt
      · split
        · apply ih _ hmem
          show (setInspectionId s.heap x cur g).inspectionId < cur
          rw [setInspectionId_other _ _ _ _ hx]
          exact hlt
        · exact ih s hmem hlt

/-- Staging stamps every allocation of the successor that is not the
allocation of the primary batch buffer and carried an inspection id below the
current one. -/
theorem stageSuccessor_stamps (cur : Nat) (pb : Option Nat) (heap : Nat → GraphicsAllocation)
    (cb : CommandBuffer) (a : Nat) (ha : a ∈ cb.footprint) (hne : some a ≠ pb)
    (hlt : (heap a).inspectionId < cur) :
    ((stageSuccessor cur pb heap cb).heap a).inspectionId = cur := by
  unfold stageSuccessor
  obtain ⟨app₁, h₁, _⟩ := collectNewSurfaces_extends cur pb cb.surfaces
    { heap := heap, resources := [], size := 0 }
  obtain ⟨app₂, h₂, _⟩ := collectBatchAllocation_extends cur pb
    cb.batchBuffer.commandBufferAllocation
    (collectNewSurfaces cur pb cb.surfaces { heap := heap, resources := [], size := 0 })
  rcases List.mem_append.1 ha with hs | hb
  · exact h₂.stamped_of_stamped a
      (collectNewSurfaces_stamps cur pb cb.surfaces _ a hs hne hlt)
  · have hcb : cb.batchBuffer.commandBufferAllocation = some a := by
      cases hc : cb.batchBuffer.commandBufferAllocation with
      | none => rw [hc] at hb; simp at hb
      | some g =>
        rw [hc] at hb
        have : a = g := by simpa using hb
        rw [this]
    by_cases hold : ((collectNewSurfaces cur pb cb.surfaces
        { heap := heap, resources := [], size := 0 }).heap a).inspectionId < cur
    · rw [hcb]
      unfold collectBatchAllocation
      simp only
      rw [if_pos hne, if_pos hold]
      exact setInspectionId_self _ _ _
    · refine h₂.stamped_of_stamped a ?_
      have hq := h₁.heap_eq a
      by_cases hm : a ∈ app₁
      · exact h₁.stamped a hm
      · rw [h₁.frame a hm] at hold
        exact absurd hlt hold

/-- The allocations staged for a successor. -/
theorem stageSuccessor_mem (cur : Nat) (pb : Option Nat) (heap : Nat → GraphicsAllocation)
    (cb : CommandBuffer) (a : Nat) :
    a ∈ (stageSuccessor cur pb heap cb).resources ↔
      a ∈ cb.footprint ∧ some a ≠ pb ∧ (heap a).inspectionId < cur := by
  obtain ⟨hst, hfoot⟩ := stageSuccessor_extends cur pb heap cb
  constructor
  · intro hm
    exact ⟨(hfoot a hm).1, (hfoot a hm).2, hst.fresh a hm⟩
  · intro ⟨hf, hne, hlt⟩
    by_contra hm
    have h1 : (stageSuccessor cur pb heap cb).heap a = heap a := hst.frame a hm
    have h2 := stageSuccessor_stamps cur pb heap cb a hf hne hlt
    rw [h1] at h2
    omega

/-- What the walk writes to the heap. The allocations that carry the current
inspection id afterwards and did not before are those appended and those
staged for the first command buffer the walk did not commit; nothing else has
changed. -/
theorem mergeSuccessors_heap (cur : Nat) (pb : Option Nat) (budget : Nat)
    (q : List CommandBuffer) (heap : Nat → GraphicsAllocation) (pkg : List Nat) (used : Nat) :
    ∃ app staged : List Nat,
      (mergeSuccessors cur pb budget q heap pkg used).resourcePackage = pkg ++ app ∧
      (∀ a ∈ app, (heap a).inspectionId < cur) ∧
      staged.Nodup ∧
      (∀ a, a ∈ staged ↔ a ∉ app ∧ (heap a).inspectionId < cur ∧ some a ≠ pb ∧
        ∃ cb ∈ (q.drop (mergeSuccessors cur pb budget q heap pkg used).merged).head?,
          a ∈ cb.footprint) ∧
      (∀ a, (mergeSuccessors cur pb budget q heap pkg used).heap a =
        if a ∈ app ∨ a ∈ staged then { heap a with inspectionId := cur } else heap a) ∧
      ∀ cb ∈ (q.drop (mergeSuccessors cur pb budget q heap pkg used).merged).head?,
        ¬ (packageSize heap staged % sizeModulus +
          (mergeSuccessors cur pb budget q heap pkg used).totalUsedSize) % sizeModulus ≤
            budget := by
  induction q generalizing heap pkg used with
  | nil =>
    refine ⟨[], [], ?_⟩
    unfold mergeSuccessors
    simp
  | cons cb rest ih =>
    obtain ⟨hst, _⟩ := stageSuccessor_extends cur pb heap cb
    have hmem := stageSuccessor_mem cur pb heap cb
    have hbuf : ∀ a, ((stageSuccessor cur pb heap cb).heap a).underlyingBufferSize =
        (heap a).underlyingBufferSize := hst.bufsize
    have hsz : (stageSuccessor cur pb heap cb).size =
        packageSize heap (stageSuccessor cur pb heap cb).resources % sizeModulus := by
      rw [hst.size]
      split
      · rename_i hnil
        rw [hnil]
        rfl
      · simp only [Nat.zero_add]
    have hsth : ∀ a, (stageSuccessor cur pb heap cb).heap a =
        if a ∈ (stageSuccessor cur pb heap cb).resources then
          { heap a with inspectionId := cur } else heap a := hst.heap_eq
    have hfresh : ∀ a ∈ (stageSuccessor cur pb heap cb).resources,
        (heap a).inspectionId < cur := hst.fresh
    have hid : ∀ a, ((stageSuccessor cur pb heap cb).heap a).inspectionId < cur ↔
        a ∉ (stageSuccessor cur pb heap cb).resources ∧ (heap a).inspectionId < cur := by
      intro a
      rw [hsth a]
      by_cases hm : a ∈ (stageSuccessor cur pb heap cb).resources
      · simp [hm]
      · simp [hm]
    unfold mergeSuccessors
    simp only
    split
    · obtain ⟨app', staged', hpkg, hfr, hnd, hstg, hheap, hstop⟩ :=
        ih (stageSuccessor cur pb heap cb).heap
        (pkg ++ (stageSuccessor cur pb heap cb).resources)
        ((used + (stageSuccessor cur pb heap cb).size) % sizeModulus)
      generalize mergeSuccessors cur pb budget rest (stageSuccessor cur pb heap cb).heap
        (pkg ++ (stageSuccessor cur pb heap cb).resources)
        ((used + (stageSuccessor cur pb heap cb).size) % sizeModulus) = w
        at hpkg hstg hheap hstop ⊢
      generalize stageSuccessor cur pb heap cb = st
        at hmem hsth hfresh hid hbuf hpkg hfr hstg hheap hstop ⊢
      refine ⟨st.resources ++ app', staged', ?_, ?_, hnd, ?_, ?_, ?_⟩
      · show w.resourcePackage = _
        rw [hpkg, List.append_assoc]
      · intro a ha
        rcases List.mem_append.1 ha with h | h
        · exact hfresh a h
        · exact ((hid a).1 (hfr a h)).2
      · intro a
        show a ∈ staged' ↔ a ∉ st.resources ++ app' ∧ (heap a).inspectionId < cur ∧ some a ≠ pb ∧
          ∃ c ∈ ((cb :: rest).drop (w.merged + 1)).head?, a ∈ c.footprint
        rw [hstg a, hid a, List.drop_succ_cons, List.mem_append, not_or]
        tauto
      · intro a
        show w.heap a = _
        rw [hheap a, hsth a]
        by_cases h1 : a ∈ st.resources <;> by_cases h2 : a ∈ app' <;>
          by_cases h3 : a ∈ staged' <;> simp [h1, h2, h3]
      · intro c hc
        show ¬ (packageSize heap staged' % sizeModulus + w.totalUsedSize) % sizeModulus ≤ budget
        rw [← packageSize_congr st.heap heap staged' hbuf]
        exact hstop c (by simpa using hc)
    · rename_i hfit
      refine ⟨[], (stageSuccessor cur pb heap cb).resources, by simp, by simp, hst.nodup,
        ?_, ?_, ?_⟩
      · intro a
        rw [hmem a]
        constructor
        · intro ⟨h1, h2, h3⟩
          exact ⟨by simp, h3, h2, cb, by simp, h1⟩
        · intro ⟨_, h3, h2, c, hc, h1⟩
          have hcb : c = cb := by simpa using hc.symm
          subst hcb
          exact ⟨h1, h2, h3⟩
      · intro a
        show (stageSuccessor cur pb heap cb).heap a = _
        rw [hsth a]
        simp
      · intro _ _
        show ¬ (packageSize heap (stageSuccessor cur pb heap cb).resources % sizeModulus + used) %
          sizeModulus ≤ budget
        rw [← hsz]
        exact hfit

/-- C21 as stated fails: in the worked example the third command buffer does
not fit and is not stamped, and its surface C (allocation 3) is not in the
package, yet the inspection id of C has gone from 0 to the id of the pass. -/
theorem aggregateCommandBuffers_stamps_uncommitted :
    (SubmissionAggregator.aggregateCommandBuffers
        { cmdBuffers := exampleQueue, inspectionId := 1 } exampleHeap [] 0 250).stamped = 2 ∧
      3 ∉ (SubmissionAggregator.aggregateCommandBuffers
        { cmdBuffers := exampleQueue, inspectionId := 1 } exampleHeap [] 0 250).resourcePackage ∧
      (exampleHeap 3).inspectionId = 0 ∧
      ((SubmissionAggregator.aggregateCommandBuffers
        { cmdBuffers := exampleQueue, inspectionId := 1 } exampleHeap [] 0 250).heap
          3).inspectionId = 1 := by
  decide

/-- C21, amended: a pass changes an allocation only by setting its inspection
id to the id of the pass, and it does so for exactly two kinds of allocation,
all with an id below that of the pass before: those it appends to the package,
and those staged for the first successor the walk does not commit, whose
net-new size does not fit the budget (the allocations of that successor, other
than the allocation of the primary batch buffer, that were not appended).
The staged ones are stamped at staging and keep the stamp. The walk is entered
only when the second command buffer agrees with the primary; the command
buffer it stops at, if any, is one whose staged size, added to the used size,
exceeds the budget. -/
theorem aggregateCommandBuffers_stamps_staged (self : SubmissionAggregator)
    (heap : Nat → GraphicsAllocation) (resourcePackage : List Nat)
    (totalUsedSize totalMemoryBudget : Nat) :
    ∃ appended staged : List Nat,
      (self.aggregateCommandBuffers heap resourcePackage totalUsedSize
        totalMemoryBudget).resourcePackage = resourcePackage ++ appended ∧
      (∀ a ∈ appended, (heap a).inspectionId < self.inspectionId) ∧
      staged.Nodup ∧
      (∀ a, a ∈ staged ↔
        a ∉ appended ∧ (heap a).inspectionId < self.inspectionId ∧
        ∃ primary ∈ self.cmdBuffers.head?,
          some a ≠ primary.batchBuffer.commandBufferAllocation ∧
          (∃ next ∈ self.cmdBuffers.tail.head?,
            next.batchBuffer.compatible primary.batchBuffer) ∧
          ∃ cb ∈ (self.cmdBuffers.drop (self.aggregateCommandBuffers heap resourcePackage
              totalUsedSize totalMemoryBudget).stamped).head?, a ∈ cb.footprint) ∧
      (∀ a, (self.aggregateCommandBuffers heap resourcePackage totalUsedSize
          totalMemoryBudget).heap a =
        if a ∈ appended ∨ a ∈ staged then { heap a with inspectionId := self.inspectionId }
        else heap a) ∧
      ((∃ primary ∈ self.cmdBuffers.head?, ∃ next ∈ self.cmdBuffers.tail.head?,
          next.batchBuffer.compatible primary.batchBuffer) →
        ∀ cb ∈ (self.cmdBuffers.drop (self.aggregateCommandBuffers heap resourcePackage
            totalUsedSize totalMemoryBudget).stamped).head?,
          ¬ (packageSize heap staged % sizeModulus +
            (self.aggregateCommandBuffers heap resourcePackage totalUsedSize
              totalMemoryBudget).totalUsedSize) % sizeModulus ≤ totalMemoryBudget) := by
  obtain ⟨q, cur⟩ := self
  cases q with
  | nil =>
    rw [aggregate_nil]
    exact ⟨[], [], by simp, by simp, by simp, by simp, by simp, by simp⟩
  | cons primary successors =>
    obtain ⟨appP, hP, _⟩ := addPrimarySurfaces_extends cur primary.surfaces
      { heap := heap, resources := resourcePackage, size := totalUsedSize }
    have hPres : (addPrimarySurfaces cur primary.surfaces
        { heap := heap, resources := resourcePackage, size := totalUsedSize }).resources =
        resourcePackage ++ appP := hP.resources
    have hPfresh : ∀ a ∈ appP, (heap a).inspectionId < cur := hP.fresh
    have hPbuf : ∀ a, ((addPrimarySurfaces cur primary.surfaces
        { heap := heap, resources := resourcePackage, size := totalUsedSize }).heap
          a).underlyingBufferSize = (heap a).underlyingBufferSize := hP.bufsize
    have hPheap : ∀ a, (addPrimarySurfaces cur primary.surfaces
        { heap := heap, resources := resourcePackage, size := totalUsedSize }).heap a =
        if a ∈ appP then { heap a with inspectionId := cur } else heap a := hP.heap_eq
    have hPid : ∀ a, ((addPrimarySurfaces cur primary.surfaces
        { heap := heap, resources := resourcePackage, size := totalUsedSize }).heap
          a).inspectionId < cur ↔ a ∉ appP ∧ (heap a).inspectionId < cur := by
      intro a
      rw [hPheap a]
      by_cases hm : a ∈ appP
      · simp [hm]
      · simp [hm]
    by_cases hc : ∀ next ∈ successors.head?, ¬ next.batchBuffer.compatible primary.batchBuffer
    · rw [aggregate_primaryOnly cur primary successors heap resourcePackage totalUsedSize
        totalMemoryBudget hc]
      refine ⟨appP, [], hPres, hPfresh, List.nodup_nil, ?_, ?_, ?_⟩
      · intro a
        constructor
        · intro h
          simp at h
        · intro ⟨_, _, p, hp, _, ⟨next, hnext, hcompat⟩, _⟩
          have hp' : p = primary := by simpa using hp.symm
          subst hp'
          exact absurd hcompat (hc next (by simpa using hnext))
      · intro a
        show (addPrimarySurfaces cur primary.surfaces
          { heap := heap, resources := resourcePackage, size := totalUsedSize }).heap a = _
        rw [hPheap a]
        simp
      · intro ⟨p, hp, next, hnext, hcompat⟩
        have hp' : p = primary := by simpa using hp.symm
        subst hp'
        exact absurd hcompat (hc next (by simpa using hnext))
    · have hex : ∃ next rest, successors = next :: rest ∧
          next.batchBuffer.compatible primary.batchBuffer := by
        cases successors with
        | nil => simp at hc
        | cons next rest =>
          refine ⟨next, rest, rfl, ?_⟩
          simpa using hc
      obtain ⟨next, rest, rfl, hcompat⟩ := hex
      rw [aggregate_walk cur primary next rest heap resourcePackage totalUsedSize
        totalMemoryBudget hcompat]
      obtain ⟨appW, staged, hpkg, hfr, hnd, hstg, hheap, hstop⟩ := mergeSuccessors_heap cur
        primary.batchBuffer.commandBufferAllocation totalMemoryBudget (next :: rest)
        (addPrimarySurfaces cur primary.surfaces
          { heap := heap, resources := resourcePackage, size := totalUsedSize }).heap
        (addPrimarySurfaces cur primary.surfaces
          { heap := heap, resources := resourcePackage, size := totalUsedSize }).resources
        (addPrimarySurfaces cur primary.surfaces
          { heap := heap, resources := resourcePackage, size := totalUsedSize }).size
      generalize mergeSuccessors cur primary.batchBuffer.commandBufferAllocation totalMemoryBudget
        (next :: rest)
        (addPrimarySurfaces cur primary.surfaces
          { heap := heap, resources := resourcePackage, size := totalUsedSize }).heap
        (addPrimarySurfaces cur primary.surfaces
          { heap := heap, resources := resourcePackage, size := totalUsedSize }).resources
        (addPrimarySurfaces cur primary.surfaces
          { heap := heap, resources := resourcePackage, size := totalUsedSize }).size = w
        at hpkg hstg hheap hstop ⊢
      generalize addPrimarySurfaces cur primary.surfaces
          { heap := heap, resources := resourcePackage, size := totalUsedSize } = p
        at hPres hPbuf hPheap hPid hpkg hfr hstg hheap hstop ⊢
      refine ⟨appP ++ appW, staged, ?_, ?_, hnd, ?_, ?_, ?_⟩
      · show w.resourcePackage = _
        rw [hpkg, hPres, List.append_assoc]
      · intro a ha
        rcases List.mem_append.1 ha with h | h
        · exact hPfresh a h
        · exact ((hPid a).1 (hfr a h)).2
      · intro a
        show a ∈ staged ↔ a ∉ appP ++ appW ∧ (heap a).inspectionId < cur ∧
          ∃ pr ∈ (primary :: next :: rest).head?,
            some a ≠ pr.batchBuffer.commandBufferAllocation ∧
            (∃ n ∈ (primary :: next :: rest).tail.head?,
              n.batchBuffer.compatible pr.batchBuffer) ∧
            ∃ c ∈ ((primary :: next :: rest).drop (w.merged + 1)).head?, a ∈ c.footprint
        rw [hstg a, hPid a, List.drop_succ_cons, List.mem_append, not_or]
        constructor
        · intro ⟨h1, ⟨h2, h3⟩, h4, h5⟩
          exact ⟨⟨h2, h1⟩, h3, primary, by simp, h4, ⟨next, by simp, hcompat⟩, h5⟩
        · intro ⟨⟨h2, h1⟩, h3, pr, hpr, h4, _, h5⟩
          have hp' : pr = primary := by simpa using hpr.symm
          subst hp'
          exact ⟨h1, ⟨h2, h3⟩, h4, h5⟩
      · intro a
        show w.heap a = _
        rw [hheap a, hPheap a]
        by_cases h1 : a ∈ appP <;> by_cases h2 : a ∈ appW <;>
          by_cases h3 : a ∈ staged <;> simp [h1, h2, h3]
      · intro _ c hc'
        show ¬ (packageSize heap staged % sizeModulus + w.totalUsedSize) % sizeModulus ≤
          totalMemoryBudget
        rw [← packageSize_congr p.heap heap staged hPbuf]
        exact hstop c (by simpa using hc')

/-- Instance of the amended C21 on the worked example: the surface C of the
third command buffer, which does not fit, is not appended but staged, and it
carries the inspection id of the pass afterwards. -/
theorem aggregateCommandBuffers_stamps_staged_witness :
    ∃ appended staged : List Nat,
      (SubmissionAggregator.aggregateCommandBuffers
        { cmdBuffers := exampleQueue, inspectionId := 1 } exampleHeap [] 0 250).resourcePackage =
        [] ++ appended ∧
      3 ∉ appended ∧ 3 ∈ staged ∧
      (SubmissionAggregator.aggregateCommandBuffers
        { cmdBuffers := exampleQueue, inspectionId := 1 } exampleHeap [] 0 250).heap 3 =
        { exampleHeap 3 with inspectionId := 1 } := by
  obtain ⟨appended, staged, hpkg, _, _, hstg, hheap, _⟩ := aggregateCommandBuffers_stamps_staged
    { cmdBuffers := exampleQueue, inspectionId := 1 } exampleHeap [] 0 250
  have hval : (SubmissionAggregator.aggregateCommandBuffers
      { cmdBuffers := exampleQueue, inspectionId := 1 } exampleHeap [] 0 250).resourcePackage =
      [1, 2] := by decide
  have happ : appended = [1, 2] := by
    rw [hval] at hpkg
    simpa using hpkg.symm
  have h3 : 3 ∉ appended := by
    rw [happ]
    decide
  have hs : 3 ∈ staged := by
    rw [hstg 3]
    exact ⟨h3, by decide, _, rfl, by decide, ⟨_, rfl, by decide⟩,
      { batchBuffer := exampleBatch 1, surfaces := [3], inspectionId := 0 }, by decide,
      by decide⟩
  refine ⟨appended, staged, hpkg, h3, hs, ?_⟩
  rw [hheap 3, if_pos (Or.inr hs)]

/-! ## Fragments evicted by `trimResidencyToBudget` -/

/-- C22, at the failing input: allocation 7 (fence 1) heads the trim list; its
fragment carries fence 4, which is submitted but above the completed value 2.
The one pass reads the completed value 2, makes no `waitFromCpu` call and
passes the handle of the fragment to `evict`; the fragment is marked
non-resident and its 4096 bytes are credited, so the call returns true, and
the completed value is still 2 afterwards. -/
theorem trimResidencyToBudget_evicts_uncompleted_fragment :
    trimToBudgetPasses exampleManagerSharedFragment.trimCandidateList
        exampleManagerSharedFragment 4096 =
      [{ allocation := 7, lastFence := 1, completedRead := 2,
         calls := [DriverCall.evict
           [EvictTarget.fragment 7 { handle := 70, fragmentSize := 4096, residency := 0 }]] }] ∧
    (exampleManagerSharedFragment.fragmentResidency 0).lastFence = 4 ∧
    (exampleManagerSharedFragment.trimResidencyToBudget 4096).1 = true ∧
    (exampleManagerSharedFragment.trimResidencyToBudget 4096).2.calls =
      [DriverCall.evict
        [EvictTarget.fragment 7 { handle := 70, fragmentSize := 4096, residency := 0 }]] ∧
    (exampleManagerSharedFragment.trimResidencyToBudget 4096).2.monitoredFence.cpuValue = 2 ∧
    ((exampleManagerSharedFragment.trimResidencyToBudget 4096).2.fragmentResidency 0).resident =
      false := by
  decide

/-! ## Bounds of the handle arrays -/

theorem readFragmentResidency_length (mm : WddmMemoryManager) (a : Nat) :
    (readFragmentResidency mm a).length = (mm.allocations a).fragments.length := by
  unfold readFragmentResidency
  split <;> simp

theorem handlesForFragments_length (fs : List FragmentStorage) (bs : List Bool) :
    (handlesForFragments fs bs).length ≤ fs.length := by
  induction fs generalizing bs with
  | nil => simp [handlesForFragments]
  | cons f fs ih =>
    cases bs with
    | nil => simp [handlesForFragments]
    | cons b bs =>
      simp only [handlesForFragments]
      split
      · simpa using ih bs
      · exact Nat.le_trans (ih bs) (by simp)

theorem handlesOfAllocation_length (mm : WddmMemoryManager) (a : Nat)
    (hmax : (mm.allocations a).fragments.length ≤ maxFragmentsCount) :
    (handlesOfAllocation mm a).length ≤ maxFragmentsCount := by
  unfold handlesOfAllocation
  split
  · split
    · show 1 ≤ 3
      decide
    · exact Nat.zero_le _
  · exact Nat.le_trans (handlesForFragments_length _ _) hmax

/-- The loop over the container adds at most `maxFragmentsCount` handles per
allocation. -/
theorem collectHandles_length (l : List Nat) (mm : WddmMemoryManager) (hs : List Nat)
    (hmax : ∀ a, (mm.allocations a).fragments.length ≤ maxFragmentsCount) :
    (collectHandles l mm hs).2.length ≤ hs.length + l.length * maxFragmentsCount := by
  induction l generalizing mm hs with
  | nil => simp [collectHandles]
  | cons a rest ih =>
    unfold collectHandles
    have hmax' : ∀ b, ((if a ∈ mm.trimCandidateList then mm.removeFromTrimCandidateList a
        else mm).allocations b).fragments.length ≤ maxFragmentsCount := by
      intro b
      split
      · exact hmax b
      · exact hmax b
    have h1 := ih (if a ∈ mm.trimCandidateList then mm.removeFromTrimCandidateList a else mm)
      (hs ++ handlesOfAllocation mm a) hmax'
    have h2 := handlesOfAllocation_length mm a (hmax a)
    rw [List.length_append] at h1
    rw [List.length_cons, Nat.add_mul, Nat.one_mul]
    omega

/-- The state after a part of the container is the state the rest of the loop
starts from. -/
theorem collectHandles_append (pre post : List Nat) (mm : WddmMemoryManager) (hs : List Nat) :
    collectHandles (pre ++ post) mm hs =
      collectHandles post (collectHandles pre mm hs).1 (collectHandles pre mm hs).2 := by
  induction pre generalizing mm hs with
  | nil => rfl
  | cons a rest ih =>
    show collectHandles (rest ++ post) _ _ = collectHandles post (collectHandles rest _ _).1
      (collectHandles rest _ _).2
    exact ih _ _

theorem fragmentsToEvict_length (mm : WddmMemoryManager) (a : Nat) (fs : List FragmentStorage) :
    (fragmentsToEvict mm a fs).length ≤ fs.length := by
  induction fs with
  | nil => simp [fragmentsToEvict]
  | cons f fs ih =>
    unfold fragmentsToEvict
    split
    · simpa using ih
    · exact Nat.le_trans ih (by simp)

theorem periodicFragments_length (a : Nat) (fs : List FragmentStorage) (mm : WddmMemoryManager)
    (acc : List EvictTarget) :
    (periodicFragments a fs mm acc).2.length ≤ acc.length + fs.length := by
  induction fs generalizing mm acc with
  | nil => simp [periodicFragments]
  | cons f fs ih =>
    unfold periodicFragments
    split
    · have := ih (mm.setFragmentResident f.residency false) (acc ++ [EvictTarget.fragment a f])
      rw [List.length_append, List.length_singleton] at this
      rw [List.length_cons]
      omega
    · have := ih mm acc
      rw [List.length_cons]
      omega

theorem headEvictCalls_handleCount (mm : WddmMemoryManager) (a : Nat)
    (hmax : (mm.allocations a).fragments.length ≤ maxFragmentsCount) :
    ∀ c ∈ headEvictCalls mm a, c.handleCount ≤ maxFragmentsCount := by
  intro c hc
  unfold headEvictCalls at hc
  split at hc
  · have : c = DriverCall.evict [EvictTarget.allocation a] := by simpa using hc
    rw [this]
    show 1 ≤ 3
    decide
  · split at hc
    · have : c = DriverCall.evict (fragmentsToEvict mm a (mm.allocations a).fragments) := by
        simpa using hc
      rw [this]
      exact Nat.le_trans (fragmentsToEvict_length mm a _) hmax
    · simp at hc

/-- Every call `trimResidencyToBudget` makes passes at most `maxFragmentsCount`
handles. -/
theorem trimResidencyToBudget_handleCount (mm : WddmMemoryManager) (bytes : Nat)
    (hmax : ∀ a, (mm.allocations a).fragments.length ≤ maxFragmentsCount) :
    ∃ newCalls, (mm.trimResidencyToBudget bytes).2.calls = mm.calls ++ newCalls ∧
      ∀ c ∈ newCalls, c.handleCount ≤ maxFragmentsCount := by
  obtain ⟨hcalls, hpass⟩ := trimToBudgetPasses_spec mm.trimCandidateList mm bytes
  refine ⟨_, hcalls, ?_⟩
  intro c hc
  obtain ⟨pc, hpc, hcpc⟩ := List.mem_flatten.1 hc
  obtain ⟨p, hp, hpcalls⟩ := List.mem_map.1 hpc
  obtain ⟨⟨_, _, hfaith⟩, _⟩ := hpass p hp
  rw [← hpcalls, hfaith] at hcpc
  rcases List.mem_append.1 hcpc with h | h
  · split at h
    · have : c = DriverCall.waitFromCpu p.lastFence := by simpa using h
      rw [this]
      exact Nat.zero_le _
    · simp at h
  · exact headEvictCalls_handleCount mm p.allocation (hmax p.allocation) c h

/-- Every call a pass of the periodic loop makes passes at most
`maxFragmentsCount` handles. -/
theorem periodicEvict_handleCount (mm : WddmMemoryManager) (a : Nat)
    (hmax : (mm.allocations a).fragments.length ≤ maxFragmentsCount) :
    ∃ new, (periodicEvict mm a).calls = mm.calls ++ new ∧
      ∀ c ∈ new, c.handleCount ≤ maxFragmentsCount := by
  unfold periodicEvict
  simp only
  obtain ⟨w, hw, hwc, hwa⟩ : ∃ w : WddmMemoryManager,
      w = (if (mm.allocations a).fragments.length = 0 then
        mm.evict [EvictTarget.allocation a] else mm) ∧
      (∃ c, w.calls = mm.calls ++ c ∧ ∀ x ∈ c, x.handleCount ≤ maxFragmentsCount) ∧
      w.allocations = mm.allocations := by
    refine ⟨_, rfl, ?_⟩
    split
    · refine ⟨⟨[DriverCall.evict [EvictTarget.allocation a]], rfl, ?_⟩, rfl⟩
      intro x hx
      have : x = DriverCall.evict [EvictTarget.allocation a] := by simpa using hx
      rw [this]
      show 1 ≤ 3
      decide
    · exact ⟨⟨[], by simp, by simp⟩, rfl⟩
  obtain ⟨c, hc, hcb⟩ := hwc
  rw [← hw]
  obtain ⟨_, h2, _⟩ := periodicFragments_spec a (mm.allocations a).fragments w []
  have hlen := periodicFragments_length a (mm.allocations a).fragments w []
  simp only [List.length_nil, Nat.zero_add] at hlen
  split
  · refine ⟨c ++ [DriverCall.evict (periodicFragments a (mm.allocations a).fragments w []).2],
      ?_, ?_⟩
    · show (periodicFragments a (mm.allocations a).fragments w []).1.calls ++ _ = _
      rw [h2, hc, List.append_assoc]
    · intro x hx
      rcases List.mem_append.1 hx with h | h
      · exact hcb x h
      · have : x = DriverCall.evict (periodicFragments a (mm.allocations a).fragments w []).2 := by
          simpa using h
        rw [this]
        exact Nat.le_trans hlen hmax
  · refine ⟨c, ?_, hcb⟩
    show (periodicFragments a (mm.allocations a).fragments w []).1.calls = _
    rw [h2, hc]

theorem periodicTrimLoop_handleCount (l : List Nat) (mm : WddmMemoryManager)
    (hmax : ∀ a, (mm.allocations a).fragments.length ≤ maxFragmentsCount) :
    ∃ new, (periodicTrimLoop l mm).calls = mm.calls ++ new ∧
      ∀ c ∈ new, c.handleCount ≤ maxFragmentsCount := by
  induction l generalizing mm with
  | nil => exact ⟨[], by simp [periodicTrimLoop], by simp⟩
  | cons a rest ih =>
    unfold periodicTrimLoop
    split
    · rename_i hle
      obtain ⟨c, hc, hcb⟩ := periodicEvict_handleCount mm a (hmax a)
      obtain ⟨_, _, _, _, _, _, hs, _, _⟩ := periodicEvict_spec mm a hle
      obtain ⟨new, hnew, hnb⟩ := ih (periodicEvict mm a)
        (fun b => by rw [hs.fragments]; exact hmax b)
      refine ⟨c ++ new, by rw [hnew, hc, List.append_assoc], ?_⟩
      intro x hx
      rcases List.mem_append.1 hx with h | h
      · exact hcb x h
      · exact hnb x h
    · exact ⟨[], by simp, by simp⟩

/-- Every call `trimResidency` makes passes at most `maxFragmentsCount`
handles. -/
theorem trimResidency_handleCount (mm : WddmMemoryManager) (flags : TrimFlags) (bytes : Nat)
    (hmax : ∀ a, (mm.allocations a).fragments.length ≤ maxFragmentsCount) :
    ∃ newCalls, (mm.trimResidency flags bytes).calls = mm.calls ++ newCalls ∧
      ∀ c ∈ newCalls, c.handleCount ≤ maxFragmentsCount := by
  obtain ⟨p, hp, hpc, hpmax⟩ : ∃ p : WddmMemoryManager,
      p = (if flags.PeriodicTrim then periodicTrimLoop mm.trimCandidateList mm else mm) ∧
      (∃ c, p.calls = mm.calls ++ c ∧ ∀ x ∈ c, x.handleCount ≤ maxFragmentsCount) ∧
      (∀ a, (p.allocations a).fragments.length ≤ maxFragmentsCount) := by
    refine ⟨_, rfl, ?_⟩
    split
    · obtain ⟨_, _, _, _, _, _, hs, _, _⟩ := periodicTrimLoop_spec mm.trimCandidateList mm rfl
      exact ⟨periodicTrimLoop_handleCount mm.trimCandidateList mm hmax,
        fun a => by rw [hs.fragments]; exact hmax a⟩
    · exact ⟨⟨[], by simp, by simp⟩, hmax⟩
  obtain ⟨c, hc, hcb⟩ := hpc
  obtain ⟨t, ht, htc⟩ : ∃ t : WddmMemoryManager,
      t = (if flags.TrimToBudget then (p.trimResidencyToBudget bytes).2 else p) ∧
      (∃ c', t.calls = p.calls ++ c' ∧ ∀ x ∈ c', x.handleCount ≤ maxFragmentsCount) := by
    refine ⟨_, rfl, ?_⟩
    split
    · exact trimResidencyToBudget_handleCount p bytes hpmax
    · exact ⟨[], by simp, by simp⟩
  obtain ⟨c', hc', hcb'⟩ := htc
  unfold WddmMemoryManager.trimResidency
  simp only
  rw [← hp, ← ht]
  refine ⟨c ++ c', ?_, ?_⟩
  · split
    · show t.calls = _
      rw [hc', hc, List.append_assoc]
    · rw [hc', hc, List.append_assoc]
  · intro x hx
    rcases List.mem_append.1 hx with h | h
    · exact hcb x h
    · exact hcb' x h

/-- C23: when no allocation has more than `maxFragmentsCount` = 3 fragments,
the arrays of the residency code are used within their bounds. In the loop of
`makeResidentResidencyAllocations`, in the state reached after any part `pre`
of the container, the entries of `fragmentResidency` used for an allocation
are as many as its fragments, at most 3, and `totalHandlesCount` is at most
3 times the number of allocations gone through, so at most the capacity
`residencyCount * maxFragmentsCount`. In `trimResidencyToBudget` and
`trimResidency` the handles counted by `fragmentsToEvict` for an allocation
are at most 3, and every call logged passes at most 3 handles. -/
theorem residency_arrays_within_bounds (mm : WddmMemoryManager)
    (hmax : ∀ a, (mm.allocations a).fragments.length ≤ maxFragmentsCount) :
    maxFragmentsCount = 3 ∧
    (∀ pre post : List Nat,
        collectHandles (pre ++ post) mm [] =
          collectHandles post (collectHandles pre mm []).1 (collectHandles pre mm []).2 ∧
        (collectHandles pre mm []).2.length ≤ pre.length * maxFragmentsCount ∧
        pre.length * maxFragmentsCount ≤ (pre ++ post).length * maxFragmentsCount ∧
        ∀ a, (readFragmentResidency (collectHandles pre mm []).1 a).length =
              (mm.allocations a).fragments.length ∧
            (readFragmentResidency (collectHandles pre mm []).1 a).length ≤ maxFragmentsCount ∧
            (handlesOfAllocation (collectHandles pre mm []).1 a).length ≤ maxFragmentsCount) ∧
    (∀ a, (fragmentsToEvict mm a (mm.allocations a).fragments).length ≤ maxFragmentsCount ∧
        (periodicFragments a (mm.allocations a).fragments mm []).2.length ≤ maxFragmentsCount) ∧
    (∀ bytes, ∃ newCalls, (mm.trimResidencyToBudget bytes).2.calls = mm.calls ++ newCalls ∧
        ∀ c ∈ newCalls, c.handleCount ≤ maxFragmentsCount) ∧
    (∀ flags bytes, ∃ newCalls, (mm.trimResidency flags bytes).calls = mm.calls ++ newCalls ∧
        ∀ c ∈ newCalls, c.handleCount ≤ maxFragmentsCount) := by
  refine ⟨rfl, ?_, ?_, fun bytes => trimResidencyToBudget_handleCount mm bytes hmax,
    fun flags bytes => trimResidency_handleCount mm flags bytes hmax⟩
  · intro pre post
    obtain ⟨_, hal, _⟩ := collectHandles_spec pre mm []
    have hmax' : ∀ a, (((collectHandles pre mm []).1).allocations a).fragments.length ≤
        maxFragmentsCount := fun a => by rw [hal]; exact hmax a
    refine ⟨collectHandles_append pre post mm [], ?_, ?_, ?_⟩
    · simpa using collectHandles_length pre mm [] hmax
    · exact Nat.mul_le_mul_right _ (by simp)
    · intro a
      have hlen := readFragmentResidency_length (collectHandles pre mm []).1 a
      rw [hal] at hlen
      exact ⟨hlen, by rw [hlen]; exact hmax a, handlesOfAllocation_length _ a (hmax' a)⟩
  · intro a
    refine ⟨Nat.le_trans (fragmentsToEvict_length mm a _) (hmax a), ?_⟩
    have := periodicFragments_length a (mm.allocations a).fragments mm []
    simp only [List.length_nil, Nat.zero_add] at this
    exact Nat.le_trans this (hmax a)

/-- Instance of C23: in the state where allocation 7 has one fragment and the
other allocations have none, no allocation has more than 3 fragments; for the
container [1, 7] the handles collected are at most the capacity 6, and the
calls of a trim to budget pass at most 3 handles each. -/
theorem residency_arrays_within_bounds_witness :
    (∀ a, (exampleRunFragmented.mm.allocations a).fragments.length ≤ maxFragmentsCount) ∧
    (collectHandles [1, 7] exampleRunFragmented.mm []).2.length ≤ 2 * maxFragmentsCount ∧
    (∀ a, (fragmentsToEvict exampleRunFragmented.mm a
        (exampleRunFragmented.mm.allocations a).fragments).length ≤ maxFragmentsCount) ∧
    ∃ newCalls, (exampleRunFragmented.mm.trimResidencyToBudget 4096).2.calls =
        exampleRunFragmented.mm.calls ++ newCalls ∧
      ∀ c ∈ newCalls, c.handleCount ≤ maxFragmentsCount :=
  have hmax : ∀ a, (exampleRunFragmented.mm.allocations a).fragments.length ≤
      maxFragmentsCount := fun a => by
    show (if a = 7 then [({ handle := 70, fragmentSize := 4096, residency := 0 } :
      FragmentStorage)] else []).length ≤ 3
    split <;> simp
  ⟨hmax,
    ((residency_arrays_within_bounds exampleRunFragmented.mm hmax).2.1 [1, 7] []).2.1,
    fun a => ((residency_arrays_within_bounds exampleRunFragmented.mm hmax).2.2.1 a).1,
    (residency_arrays_within_bounds exampleRunFragmented.mm hmax).2.2.2.1 4096⟩

end OCLRT
